import Mathlib

/-!
Verification of the maze-generation and search core of AlgoVizualizer
(`src/components/utils.ts`, final version: the section defining
`CELL_TYPES` with portals, `generateMaze`, `generateMaze3D`,
`getNeighbors2D`, `getNeighbors3D`, `reconstructPath`,
`paintPathAndThreads` and the five search functions).

Modelling conventions:
* `number[][]` grids become `List (List Nat)`; cell-type constants keep
  their numeric values.
* positions are `Int × Int` (2D) and `Int × Int × Int` (3D); the JS
  string key `posKey` (comma-joined coordinates) is injective on
  positions of one dimensionality, so sets and maps keyed by `posKey`
  are modelled as lists keyed by the position itself.
* `Math.random()` draws are modelled by an ambient stream
  `rng : Nat → Nat`; `Math.floor(Math.random() * n)` at draw index `k`
  becomes `drawNat (rng k) n`, an arbitrary value in `[0, n)`.
* the `async`/`await delay(ms)` suspensions carry no state and are
  dropped; the `paintNode`/`paintThread` callback invocations are
  returned as an event trace, each event tagged with the index of the
  outer loop iteration that emitted it.
* `while` loops take an explicit fuel; the searches are run with a fuel
  that is proved sufficient (see the termination theorems), so fuel
  exhaustion (`SOutcome.fuelOut`) never occurs for the wrappers.
-/

namespace AlgoViz

/-- Cell-type constants, `utils.ts` `CELL_TYPES` (final version, lines 891-898). -/
def CELL_WALL : Nat := 1

/-- `CELL_TYPES.NODE`: walkable path cell. -/
def CELL_NODE : Nat := 2

/-- `CELL_TYPES.START`. -/
def CELL_START : Nat := 3

/-- `CELL_TYPES.GOAL`. -/
def CELL_GOAL : Nat := 4

/-- `CELL_TYPES.PORTAL_UP`. -/
def CELL_PORTAL_UP : Nat := 5

/-- `CELL_TYPES.PORTAL_DOWN`. -/
def CELL_PORTAL_DOWN : Nat := 6

/-- A 2D grid `number[][]`: a list of rows, row-major (`maze[y][x]`). -/
abbrev Grid := List (List Nat)

/-- A 3D grid `number[][][]`: a list of layers. -/
abbrev Grid3 := List Grid

/-- A 2D position `[x, y]`. -/
abbrev Pos2 := Int × Int

/-- A 3D position `[x, y, z]`. -/
abbrev Pos3 := Int × Int × Int

/-- Read `maze[y][x]`. JS yields `undefined` for an out-of-range or
negative index, and every comparison of `undefined` with a cell constant
is false; we return `0`, which equals no cell constant, with the same
effect. -/
def cellAt2 (maze : Grid) (x y : Int) : Nat :=
  if 0 ≤ x ∧ 0 ≤ y then (maze.getD y.toNat []).getD x.toNat 0 else 0

/-- Read `maze3D[z]` with the out-of-range convention (an invalid index
yields `undefined`, whose reads all miss; the empty grid has the same
effect on `cellAt2`). -/
def layerAt (maze3D : Grid3) (z : Int) : Grid :=
  if 0 ≤ z then maze3D.getD z.toNat [] else []

/-- Read `maze3D[z][y][x]`. -/
def cellAt3 (maze3D : Grid3) (p : Pos3) : Nat :=
  cellAt2 (layerAt maze3D p.2.2) p.1 p.2.1

/-- `getNeighbors2D` (utils.ts lines 1197-1219): the four orthogonal
neighbors that pass the bounds checks (`0 ≤ ny < maze.length`,
`0 ≤ nx < maze[0].length`) and are not walls, in direction order
down, right, up, left (`[0,1],[1,0],[0,-1],[-1,0]`). -/
def getNeighbors2D (pos : Pos2) (maze : Grid) : List Pos2 :=
  let dirs : List (Int × Int) := [(0, 1), (1, 0), (0, -1), (-1, 0)]
  dirs.filterMap fun d =>
    let nx := pos.1 + d.1
    let ny := pos.2 + d.2
    if 0 ≤ ny ∧ ny < (maze.length : Int) ∧ 0 ≤ nx ∧ nx < ((maze.headD []).length : Int) ∧
        cellAt2 maze nx ny ≠ CELL_WALL
    then some (nx, ny) else none

/-- The portal scan of `getNeighbors3D`: the indexed double loop
`for (ny = 0; ny < layer.length; ny++) for (nx = 0; nx < layer[ny].length; nx++)`
collecting the positions whose cell holds the value `v`, emitted into
layer `z`. -/
def portalScan (layer : Grid) (v : Nat) (z : Int) : List Pos3 :=
  (List.range layer.length).flatMap fun ny =>
    (List.range ((layer.getD ny []).length)).filterMap fun nx =>
      if (layer.getD ny []).getD nx 0 = v then some ((nx : Int), (ny : Int), z) else none

/-- `getNeighbors3D` (utils.ts lines 1223-1276): the four orthogonal
in-layer neighbors (bounds from `maze3D[z]`), then — when the current
cell is `PORTAL_UP` and layer `z+1` exists — every `PORTAL_DOWN` cell of
layer `z+1`, then — when the current cell is `PORTAL_DOWN` and layer
`z-1` exists — every `PORTAL_UP` cell of layer `z-1`. -/
def getNeighbors3D (pos : Pos3) (maze3D : Grid3) : List Pos3 :=
  let x := pos.1
  let y := pos.2.1
  let z := pos.2.2
  let layer := layerAt maze3D z
  let dirs : List (Int × Int) := [(0, 1), (1, 0), (0, -1), (-1, 0)]
  let inLayer := dirs.filterMap fun d =>
    let nx := x + d.1
    let ny := y + d.2
    if 0 ≤ ny ∧ ny < (layer.length : Int) ∧ 0 ≤ nx ∧ nx < ((layer.headD []).length : Int) ∧
        cellAt2 layer nx ny ≠ CELL_WALL
    then some (nx, ny, z) else none
  let ups :=
    if cellAt2 layer x y = CELL_PORTAL_UP ∧ 0 ≤ z + 1 ∧ (z + 1).toNat < maze3D.length then
      portalScan (layerAt maze3D (z + 1)) CELL_PORTAL_DOWN (z + 1)
    else []
  let downs :=
    if cellAt2 layer x y = CELL_PORTAL_DOWN ∧ 0 ≤ z - 1 ∧ (z - 1).toNat < maze3D.length then
      portalScan (layerAt maze3D (z - 1)) CELL_PORTAL_UP (z - 1)
    else []
  inLayer ++ ups ++ downs

/-- The A* heuristic (utils.ts lines 1506-1509): it always reads the
three components `pos[0] - goal[0]`, `pos[1] - goal[1]`,
`pos[2] - goal[2]` and sums their absolute values. (On 2D positions
`pos[2]` is `undefined` in JS and the sum is `NaN`; this definition is
the 3D reading.) -/
def aStarHeuristic (goal pos : Pos3) : Nat :=
  (pos.1 - goal.1).natAbs + (pos.2.1 - goal.2.1).natAbs + (pos.2.2 - goal.2.2).natAbs

/-- The greedy best-first heuristic (utils.ts lines 1667-1668),
2D instantiation: `pos.reduce((sum, v, i) => sum + |v - goal[i]|, 0)`
over the position's own two components. -/
def greedyHeuristic2 (goal pos : Pos2) : Nat :=
  (pos.1 - goal.1).natAbs + (pos.2 - goal.2).natAbs

/-- The greedy best-first heuristic, 3D instantiation (sum over all
three components, no penalty). -/
def greedyHeuristic3 (goal pos : Pos3) : Nat :=
  (pos.1 - goal.1).natAbs + (pos.2.1 - goal.2.1).natAbs + (pos.2.2 - goal.2.2).natAbs

/-- Modelled from the spec's words (§4.4, glossary): Manhattan distance
of two 3D positions, "sum of absolute coordinate differences". -/
def manhattan3 (p q : Pos3) : Nat :=
  (p.1 - q.1).natAbs + (p.2.1 - q.2.1).natAbs + (p.2.2 - q.2.2).natAbs

/-- Modelled from the spec's words: Manhattan distance of two 2D
positions. -/
def manhattan2 (p q : Pos2) : Nat :=
  (p.1 - q.1).natAbs + (p.2 - q.2).natAbs

/-- Modelled from the claim C1 / spec §4.4 table: the claimed A*
heuristic value, Manhattan distance to the goal plus a configurable
fixed `penalty` whenever the candidate's layer differs from the goal's
layer. -/
def claimedAStarHeuristic (penalty : Nat) (goal pos : Pos3) : Nat :=
  manhattan3 pos goal + (if pos.2.2 ≠ goal.2.2 then penalty else 0)

/-- `Array.prototype.sort` with comparator `(a, b) => key a - key b` is
a stable ascending sort by `key` (ES2019 requires stability; a stable
sort result is unique, so insertion sort reproduces it exactly). -/
def sortByKey {β : Type} (key : β → Nat) (l : List β) : List β :=
  List.insertionSort (fun a b => key a ≤ key b) l

theorem sortByKey_perm {β : Type} (key : β → Nat) (l : List β) :
    (sortByKey key l).Perm l :=
  List.perm_insertionSort _ l

theorem sortByKey_eq_nil {β : Type} (key : β → Nat) (l : List β)
    (h : sortByKey key l = []) : l = [] :=
  List.eq_nil_of_length_eq_zero (by
    have := (sortByKey_perm key l).length_eq
    rw [h] at this
    simpa using this.symm)

theorem sortByKey_head_min {β : Type} (key : β → Nat) (l : List β) (c : β) (rest : List β)
    (h : sortByKey key l = c :: rest) : ∀ b ∈ l, key c ≤ key b := by
  intro b hb
  have hperm := sortByKey_perm key l
  have hsorted : List.Sorted (fun a b => key a ≤ key b) (sortByKey key l) := by
    have : IsTotal β (fun a b => key a ≤ key b) := ⟨fun a b => Nat.le_total (key a) (key b)⟩
    have : IsTrans β (fun a b => key a ≤ key b) :=
      ⟨fun a b c hab hbc => Nat.le_trans hab hbc⟩
    exact List.sorted_insertionSort _ l
  rw [h] at hsorted hperm
  have hb' : b ∈ c :: rest := hperm.mem_iff.mpr hb
  rcases List.mem_cons.mp hb' with rfl | hbrest
  · exact Nat.le_refl _
  · exact (List.sorted_cons.mp hsorted).1 b hbrest

/-! ## Search-engine state and helpers -/

/-- A `paintNode`/`paintThread` callback invocation, tagged by the color
constant it passes (`COLORS.VISITED`, `COLORS.FRONTIER`, `COLORS.PATH`).
`thread` carries the two adjusted endpoint positions passed to
`paintThread` in `paintPathAndThreads`. -/
inductive SearchEvent (α : Type) : Type
  | visited (p : α)
  | frontier (p : α)
  | pathPaint (p : α)
  | thread (p q : Pos3)
deriving DecidableEq

/-- `SearchResult` (utils.ts lines 1191-1195). -/
structure SearchResult (α : Type) : Type where
  path : List α
  visitedCount : Nat
  success : Bool
deriving DecidableEq

/-- How a search run ends: a returned `SearchResult`, the `AbortError`
throw, or fuel exhaustion (no JS counterpart; the wrappers run with a
provably sufficient fuel). -/
inductive SOutcome (α : Type) : Type
  | ok (r : SearchResult α)
  | aborted
  | fuelOut
deriving DecidableEq

/-- A complete search run: the trace of callback invocations, each
tagged with the index of the outer loop iteration that emitted it, the
outcome, and the number of abort checks performed (one per outer
iteration entered). -/
structure RunOut (α : Type) : Type where
  trace : List (Nat × SearchEvent α)
  outcome : SOutcome α
  iters : Nat
deriving DecidableEq

/-- `Map.get`: association-list lookup, most recent binding first
(bindings are consed, so the head is the latest `Map.set`). -/
def alookup {α β : Type} [DecidableEq α] : List (α × β) → α → Option β
  | [], _ => none
  | e :: rest, k => if e.1 = k then some e.2 else alookup rest k

/-- `tentativeG < (gScore.get(key) ?? Infinity)`. -/
def ltOpt (v : Nat) : Option Nat → Bool
  | none => true
  | some c => decide (v < c)

/-- The loop of `reconstructPath` (utils.ts lines 1289-1304): walk
parent pointers from `goal`, prepending each position, until `start` (or
a missing entry, the defensive `break`) is reached. The fuel exceeds the
length of any chain through the callers' parent maps (each step consumes
a distinct binding); exhaustion acts like the `break`. -/
def reconstructPathAux {α : Type} [DecidableEq α] (parent : List (α × α)) (start : α) :
    Nat → α → List α → List α
  | 0, _, path => path
  | fuel + 1, current, path =>
    if current = start then path
    else
      match alookup parent current with
      | none => current :: path
      | some par => reconstructPathAux parent start fuel par (current :: path)

/-- `reconstructPath`: the walked chain with `start` prepended. -/
def reconstructPath {α : Type} [DecidableEq α] (parent : List (α × α)) (start goal : α) :
    List α :=
  start :: reconstructPathAux parent start (parent.length + 1) goal []

/-- The `paintPathAndThreads` events (utils.ts lines 1321-1375), 2D
instantiation: one `PATH` paint per path position other than the
endpoints; `viewType === "3D"` is false so no thread events. -/
def pathEvents2D (start goal : Pos2) (path : List Pos2) : List (SearchEvent Pos2) :=
  path.flatMap fun p =>
    if p ≠ start ∧ p ≠ goal then [SearchEvent.pathPaint p] else []

/-- The `paintPathAndThreads` events, 3D instantiation: per index `i` a
`PATH` paint (unless endpoint), then — when the next path position
changes layer through a matched `PORTAL_UP`/`PORTAL_DOWN` cell pair — a
`paintThread` event whose endpoints have `z` scaled by the layer spacing
10 plus 1. -/
def pathEvents3D (maze3D : Grid3) (start goal : Pos3) : List Pos3 → List (SearchEvent Pos3)
  | [] => []
  | p :: rest =>
    (if p ≠ start ∧ p ≠ goal then [SearchEvent.pathPaint p] else []) ++
    (match rest with
     | [] => []
     | q :: _ =>
       if p.2.2 ≠ q.2.2 ∧
          ((cellAt3 maze3D p = CELL_PORTAL_UP ∧ cellAt3 maze3D q = CELL_PORTAL_DOWN) ∨
           (cellAt3 maze3D p = CELL_PORTAL_DOWN ∧ cellAt3 maze3D q = CELL_PORTAL_UP)) then
         [SearchEvent.thread (p.1, p.2.1, p.2.2 * 10 + 1) (q.1, q.2.1, q.2.2 * 10 + 1)]
       else []) ++
    pathEvents3D maze3D start goal rest

/-! ## The five search functions

Each is generic in the position type `α`; the `viewType` dispatch of the
source (choosing `getNeighbors2D maze` or `getNeighbors3D maze3D`, and
the 2D or 3D paint callbacks) becomes the parameters `nbrs` and
`pathEv`. `abort k` is the value of `abortSignal?.aborted` observed by
the check of outer iteration `k`. -/

/-- The neighbor `for`-loop shared by BFS, DFS and greedy best-first
(visited-at-enqueue): returns the updated visited set and parent map,
the accepted neighbors in order, and their `FRONTIER` paint events. -/
structure ExpandOut (α : Type) : Type where
  visited : List α
  parent : List (α × α)
  pushes : List α
  events : List (SearchEvent α)

/-- Neighbor expansion for `breadthFirstSearch` (lines 1422-1431),
`depthFirstSearch` (lines 1481-1490) and — modulo the pushed node shape
— `greedyBestFirstSearch` (lines 1711-1720). -/
def visitExpand {α : Type} [DecidableEq α] (goal current : α) :
    List α → List α → List (α × α) → ExpandOut α
  | [], visited, parent => ⟨visited, parent, [], []⟩
  | n :: rest, visited, parent =>
    if n ∈ visited then visitExpand goal current rest visited parent
    else
      let out := visitExpand goal current rest (n :: visited) ((n, current) :: parent)
      ⟨out.visited, out.parent, n :: out.pushes,
        (if n = goal then [] else [SearchEvent.frontier n]) ++ out.events⟩

/-- The loop of `breadthFirstSearch` (utils.ts lines 1378-1434). State:
FIFO `queue`, `visited` (keys added at enqueue), `parentMap`,
`visitedCount`, and the iteration counter. -/
def bfsLoop {α : Type} [DecidableEq α] (nbrs : α → List α) (start goal : α)
    (pathEv : List α → List (SearchEvent α)) (abort : Nat → Bool) :
    Nat → List α → List α → List (α × α) → Nat → Nat → RunOut α
  | 0, _, _, _, _, iter => ⟨[], SOutcome.fuelOut, iter⟩
  | fuel + 1, queue, visited, parent, count, iter =>
    match queue with
    | [] => ⟨[], SOutcome.ok ⟨[], count, false⟩, iter⟩
    | current :: rest =>
      if abort iter then ⟨[], SOutcome.aborted, iter + 1⟩
      else
        let ev1 : List (SearchEvent α) :=
          if current ≠ start ∧ current ≠ goal then [SearchEvent.visited current] else []
        if current = goal then
          let path := reconstructPath parent start goal
          ⟨(ev1 ++ pathEv path).map fun e => (iter, e),
            SOutcome.ok ⟨path, count + 1, true⟩, iter + 1⟩
        else
          let ex := visitExpand goal current (nbrs current) visited parent
          let res := bfsLoop nbrs start goal pathEv abort fuel
            (rest ++ ex.pushes) ex.visited ex.parent (count + 1) (iter + 1)
          ⟨(ev1 ++ ex.events).map (fun e => (iter, e)) ++ res.trace, res.outcome, res.iters⟩

/-- The loop of `depthFirstSearch` (utils.ts lines 1437-1493). The JS
array used as a stack pushes and pops at its end; we keep the stack
top-first, so `stack.pop()` is the head and pushing the accepted
neighbors in order appends them reversed at the front. -/
def dfsLoop {α : Type} [DecidableEq α] (nbrs : α → List α) (start goal : α)
    (pathEv : List α → List (SearchEvent α)) (abort : Nat → Bool) :
    Nat → List α → List α → List (α × α) → Nat → Nat → RunOut α
  | 0, _, _, _, _, iter => ⟨[], SOutcome.fuelOut, iter⟩
  | fuel + 1, stack, visited, parent, count, iter =>
    match stack with
    | [] => ⟨[], SOutcome.ok ⟨[], count, false⟩, iter⟩
    | current :: rest =>
      if abort iter then ⟨[], SOutcome.aborted, iter + 1⟩
      else
        let ev1 : List (SearchEvent α) :=
          if current ≠ start ∧ current ≠ goal then [SearchEvent.visited current] else []
        if current = goal then
          let path := reconstructPath parent start goal
          ⟨(ev1 ++ pathEv path).map fun e => (iter, e),
            SOutcome.ok ⟨path, count + 1, true⟩, iter + 1⟩
        else
          let ex := visitExpand goal current (nbrs current) visited parent
          let res := dfsLoop nbrs start goal pathEv abort fuel
            (ex.pushes.reverse ++ rest) ex.visited ex.parent (count + 1) (iter + 1)
          ⟨(ev1 ++ ex.events).map (fun e => (iter, e)) ++ res.trace, res.outcome, res.iters⟩

/-- A `dijkstraSearch` open-set node (`{ pos, cost }`). -/
structure DNode (α : Type) : Type where
  pos : α
  cost : Nat
deriving DecidableEq

/-- Neighbor expansion for `dijkstraSearch` (lines 1640-1651): relax
when `newCost < (costMap.get(nKey) ?? Infinity)` and the neighbor is not
visited. -/
def dijkstraExpand {α : Type} [DecidableEq α] (goal current : α) (ccost : Nat)
    (visited : List α) :
    List α → List (α × α) → List (α × Nat) → (List (α × α) × List (α × Nat) × List (DNode α) × List (SearchEvent α))
  | [], parent, costMap => (parent, costMap, [], [])
  | n :: rest, parent, costMap =>
    if n ∈ visited then dijkstraExpand goal current ccost visited rest parent costMap
    else
      let newCost := ccost + 1
      if ltOpt newCost (alookup costMap n) then
        let out := dijkstraExpand goal current ccost visited rest
          ((n, current) :: parent) ((n, newCost) :: costMap)
        (out.1, out.2.1, DNode.mk n newCost :: out.2.2.1,
          (if n = goal then [] else [SearchEvent.frontier n]) ++ out.2.2.2)
      else dijkstraExpand goal current ccost visited rest parent costMap

/-- The loop of `dijkstraSearch` (utils.ts lines 1582-1654): sort the
open set by `cost` (stable), shift the head, skip if already visited,
otherwise mark visited, paint, test the goal, and relax neighbors. -/
def dijkstraLoop {α : Type} [DecidableEq α] (nbrs : α → List α) (start goal : α)
    (pathEv : List α → List (SearchEvent α)) (abort : Nat → Bool) :
    Nat → List (DNode α) → List α → List (α × α) → List (α × Nat) → Nat → Nat → RunOut α
  | 0, _, _, _, _, _, iter => ⟨[], SOutcome.fuelOut, iter⟩
  | fuel + 1, openSet, visited, parent, costMap, count, iter =>
    match sortByKey DNode.cost openSet with
    | [] => ⟨[], SOutcome.ok ⟨[], count, false⟩, iter⟩
    | current :: rest =>
      if abort iter then ⟨[], SOutcome.aborted, iter + 1⟩
      else if current.pos ∈ visited then
        let res := dijkstraLoop nbrs start goal pathEv abort fuel
          rest visited parent costMap count (iter + 1)
        ⟨res.trace, res.outcome, res.iters⟩
      else
        let visited1 := current.pos :: visited
        let ev1 : List (SearchEvent α) :=
          if current.pos ≠ start ∧ current.pos ≠ goal then
            [SearchEvent.visited current.pos] else []
        if current.pos = goal then
          let path := reconstructPath parent start goal
          ⟨(ev1 ++ pathEv path).map fun e => (iter, e),
            SOutcome.ok ⟨path, count + 1, true⟩, iter + 1⟩
        else
          let ex := dijkstraExpand goal current.pos current.cost visited1
            (nbrs current.pos) parent costMap
          let res := dijkstraLoop nbrs start goal pathEv abort fuel
            (rest ++ ex.2.2.1) visited1 ex.1 ex.2.1 (count + 1) (iter + 1)
          ⟨(ev1 ++ ex.2.2.2).map (fun e => (iter, e)) ++ res.trace, res.outcome, res.iters⟩

/-- An `aStarSearch` open-set node (`{ pos, g, h, f }`). -/
structure ANode (α : Type) : Type where
  pos : α
  g : Nat
  h : Nat
  f : Nat
deriving DecidableEq

/-- Neighbor expansion for `aStarSearch` (lines 1563-1575): relax when
`tentativeG < (gScore.get(nKey) ?? Infinity)` and the neighbor is not
visited; the pushed node carries `h = heuristic(neighbor)` and
`f = tentativeG + h`. -/
def aStarExpand {α : Type} [DecidableEq α] (hf : α → Nat) (goal current : α) (cg : Nat)
    (visited : List α) :
    List α → List (α × α) → List (α × Nat) → (List (α × α) × List (α × Nat) × List (ANode α) × List (SearchEvent α))
  | [], parent, gScore => (parent, gScore, [], [])
  | n :: rest, parent, gScore =>
    if n ∈ visited then aStarExpand hf goal current cg visited rest parent gScore
    else
      let tentativeG := cg + 1
      if ltOpt tentativeG (alookup gScore n) then
        let out := aStarExpand hf goal current cg visited rest
          ((n, current) :: parent) ((n, tentativeG) :: gScore)
        (out.1, out.2.1, ANode.mk n tentativeG (hf n) (tentativeG + hf n) :: out.2.2.1,
          (if n = goal then [] else [SearchEvent.frontier n]) ++ out.2.2.2)
      else aStarExpand hf goal current cg visited rest parent gScore

/-- The loop of `aStarSearch` (utils.ts lines 1496-1579). `sortF` is the
result of `openSet.sort((a, b) => a.f - b.f)`: for 3D positions the
comparator is the numeric order on `f` and `sortF` is the stable sort by
`f`; for 2D positions `pos[2]` is `undefined`, every `f` is `NaN`, the
comparator is inconsistent and ES2023 leaves the resulting order
implementation-defined — theorems about the 2D case therefore quantify
over every permutation-producing `sortF`. -/
def aStarLoop {α : Type} [DecidableEq α] (nbrs : α → List α) (hf : α → Nat)
    (sortF : List (ANode α) → List (ANode α)) (start goal : α)
    (pathEv : List α → List (SearchEvent α)) (abort : Nat → Bool) :
    Nat → List (ANode α) → List α → List (α × α) → List (α × Nat) → Nat → Nat → RunOut α
  | 0, _, _, _, _, _, iter => ⟨[], SOutcome.fuelOut, iter⟩
  | fuel + 1, openSet, visited, parent, gScore, count, iter =>
    match sortF openSet with
    | [] => ⟨[], SOutcome.ok ⟨[], count, false⟩, iter⟩
    | current :: rest =>
      if abort iter then ⟨[], SOutcome.aborted, iter + 1⟩
      else if current.pos ∈ visited then
        let res := aStarLoop nbrs hf sortF start goal pathEv abort fuel
          rest visited parent gScore count (iter + 1)
        ⟨res.trace, res.outcome, res.iters⟩
      else
        let visited1 := current.pos :: visited
        let ev1 : List (SearchEvent α) :=
          if current.pos ≠ start ∧ current.pos ≠ goal then
            [SearchEvent.visited current.pos] else []
        if current.pos = goal then
          let path := reconstructPath parent start goal
          ⟨(ev1 ++ pathEv path).map fun e => (iter, e),
            SOutcome.ok ⟨path, count + 1, true⟩, iter + 1⟩
        else
          let ex := aStarExpand hf goal current.pos current.g visited1
            (nbrs current.pos) parent gScore
          let res := aStarLoop nbrs hf sortF start goal pathEv abort fuel
            (rest ++ ex.2.2.1) visited1 ex.1 ex.2.1 (count + 1) (iter + 1)
          ⟨(ev1 ++ ex.2.2.2).map (fun e => (iter, e)) ++ res.trace, res.outcome, res.iters⟩

/-- A `greedyBestFirstSearch` open-set node (`{ pos, h }`). -/
structure GNode (α : Type) : Type where
  pos : α
  h : Nat
deriving DecidableEq

/-- Neighbor expansion for `greedyBestFirstSearch` (lines 1711-1720):
visited-at-enqueue like BFS, pushing `{ pos, h }` nodes. -/
def greedyExpand {α : Type} [DecidableEq α] (hf : α → Nat) (goal current : α) :
    List α → List α → List (α × α) → (List α × List (α × α) × List (GNode α) × List (SearchEvent α))
  | [], visited, parent => (visited, parent, [], [])
  | n :: rest, visited, parent =>
    if n ∈ visited then greedyExpand hf goal current rest visited parent
    else
      let out := greedyExpand hf goal current rest (n :: visited) ((n, current) :: parent)
      (out.1, out.2.1, GNode.mk n (hf n) :: out.2.2.1,
        (if n = goal then [] else [SearchEvent.frontier n]) ++ out.2.2.2)

/-- The loop of `greedyBestFirstSearch` (utils.ts lines 1657-1723): sort
the open set by `h` (stable), shift the head — with no visited skip,
since keys enter `visited` at enqueue time — paint, test the goal, and
expand. -/
def greedyLoop {α : Type} [DecidableEq α] (nbrs : α → List α) (hf : α → Nat) (start goal : α)
    (pathEv : List α → List (SearchEvent α)) (abort : Nat → Bool) :
    Nat → List (GNode α) → List α → List (α × α) → Nat → Nat → RunOut α
  | 0, _, _, _, _, iter => ⟨[], SOutcome.fuelOut, iter⟩
  | fuel + 1, openSet, visited, parent, count, iter =>
    match sortByKey GNode.h openSet with
    | [] => ⟨[], SOutcome.ok ⟨[], count, false⟩, iter⟩
    | current :: rest =>
      if abort iter then ⟨[], SOutcome.aborted, iter + 1⟩
      else
        let ev1 : List (SearchEvent α) :=
          if current.pos ≠ start ∧ current.pos ≠ goal then
            [SearchEvent.visited current.pos] else []
        if current.pos = goal then
          let path := reconstructPath parent start goal
          ⟨(ev1 ++ pathEv path).map fun e => (iter, e),
            SOutcome.ok ⟨path, count + 1, true⟩, iter + 1⟩
        else
          let ex := greedyExpand hf goal current.pos (nbrs current.pos) visited parent
          let res := greedyLoop nbrs hf start goal pathEv abort fuel
            (rest ++ ex.2.2.1) ex.1 ex.2.1 (count + 1) (iter + 1)
          ⟨(ev1 ++ ex.2.2.2).map (fun e => (iter, e)) ++ res.trace, res.outcome, res.iters⟩

/-! ## Position universes and fuel bounds

Every position a search can ever enqueue is the start or a neighbor of
an earlier one; neighbors always satisfy the bounds checks, so they lie
in the finite universes below. The fuel bounds follow: BFS/DFS/greedy
enqueue each key at most once, and Dijkstra/A* push only while expanding
a not-yet-visited key, at most degree-many nodes per expansion. -/

/-- All positions passing the 2D bounds checks (`0 ≤ y < maze.length`,
`0 ≤ x < maze[0].length`). -/
def allPos2 (maze : Grid) : List Pos2 :=
  (List.range maze.length).flatMap fun y =>
    (List.range (maze.headD []).length).map fun x => (Int.ofNat x, Int.ofNat y)

/-- The longest row length of a layer (an upper bound for the `x` used
by any in-layer or portal-scan bounds check). -/
def maxRowLen (layer : Grid) : Nat :=
  (layer.map List.length).foldr Nat.max 0

/-- All positions any 3D bounds check can accept. -/
def allPos3 (m : Grid3) : List Pos3 :=
  (List.range m.length).flatMap fun z =>
    (List.range (m.getD z []).length).flatMap fun y =>
      (List.range (maxRowLen (m.getD z []))).map fun x => (Int.ofNat x, Int.ofNat y, Int.ofNat z)

/-- Fuel sufficient for every search on a 2D grid (proved below): with
`K` possible keys and in-layer degree at most 4, no loop runs more than
`(K + 2) * 6 + 2` iterations. -/
def searchFuel2 (maze : Grid) : Nat :=
  ((allPos2 maze).length + 2) * 6 + 2

/-- Fuel sufficient for every search on a 3D grid: the degree is at most
`4 +` the number of cells (portal scans). -/
def searchFuel3 (m : Grid3) : Nat :=
  ((allPos3 m).length + 2) * ((allPos3 m).length + 6) + 2

/-! ## The exported search functions

`breadthFirstSearch` etc. of utils.ts each handle both view types; the
wrappers below are their two instantiations. Initial states follow the
source: BFS/DFS/greedy seed `visited` with the start key; Dijkstra seeds
`costMap` with `(start, 0)` and A* seeds `gScore` with `(start, 0)`. -/

/-- `breadthFirstSearch`, `viewType = "2D"`. -/
def breadthFirstSearch2D (maze : Grid) (start goal : Pos2) (abort : Nat → Bool) : RunOut Pos2 :=
  bfsLoop (fun p => getNeighbors2D p maze) start goal (pathEvents2D start goal) abort
    (searchFuel2 maze) [start] [start] [] 0 0

/-- `breadthFirstSearch`, `viewType = "3D"`. -/
def breadthFirstSearch3D (m : Grid3) (start goal : Pos3) (abort : Nat → Bool) : RunOut Pos3 :=
  bfsLoop (fun p => getNeighbors3D p m) start goal (pathEvents3D m start goal) abort
    (searchFuel3 m) [start] [start] [] 0 0

/-- `depthFirstSearch`, `viewType = "2D"`. -/
def depthFirstSearch2D (maze : Grid) (start goal : Pos2) (abort : Nat → Bool) : RunOut Pos2 :=
  dfsLoop (fun p => getNeighbors2D p maze) start goal (pathEvents2D start goal) abort
    (searchFuel2 maze) [start] [start] [] 0 0

/-- `depthFirstSearch`, `viewType = "3D"`. -/
def depthFirstSearch3D (m : Grid3) (start goal : Pos3) (abort : Nat → Bool) : RunOut Pos3 :=
  dfsLoop (fun p => getNeighbors3D p m) start goal (pathEvents3D m start goal) abort
    (searchFuel3 m) [start] [start] [] 0 0

/-- `dijkstraSearch`, `viewType = "2D"`. -/
def dijkstraSearch2D (maze : Grid) (start goal : Pos2) (abort : Nat → Bool) : RunOut Pos2 :=
  dijkstraLoop (fun p => getNeighbors2D p maze) start goal (pathEvents2D start goal) abort
    (searchFuel2 maze) [DNode.mk start 0] [] [] [(start, 0)] 0 0

/-- `dijkstraSearch`, `viewType = "3D"`. -/
def dijkstraSearch3D (m : Grid3) (start goal : Pos3) (abort : Nat → Bool) : RunOut Pos3 :=
  dijkstraLoop (fun p => getNeighbors3D p m) start goal (pathEvents3D m start goal) abort
    (searchFuel3 m) [DNode.mk start 0] [] [] [(start, 0)] 0 0

/-- `aStarSearch`, `viewType = "3D"`: the heuristic is
`aStarHeuristic goal` and the sort is the stable ascending sort by `f`. -/
def aStarSearch3D (m : Grid3) (start goal : Pos3) (abort : Nat → Bool) : RunOut Pos3 :=
  aStarLoop (fun p => getNeighbors3D p m) (aStarHeuristic goal) (sortByKey ANode.f)
    start goal (pathEvents3D m start goal) abort (searchFuel3 m)
    [ANode.mk start 0 (aStarHeuristic goal start) (aStarHeuristic goal start)] [] [] [(start, 0)]
    0 0

/-- `aStarSearch`, `viewType = "2D"`: `heuristic` reads `pos[2]`, which
is `undefined` for a 2D position, so every `h` and `f` is `NaN` and the
sort order is implementation-defined (see `aStarLoop`); the run is
parameterized by that order `sortF`, and the stored `h`/`f` fields —
observable only through `sortF` — are set to 0. -/
def aStarSearch2D (sortF : List (ANode Pos2) → List (ANode Pos2)) (maze : Grid)
    (start goal : Pos2) (abort : Nat → Bool) : RunOut Pos2 :=
  aStarLoop (fun p => getNeighbors2D p maze) (fun _ => 0) sortF
    start goal (pathEvents2D start goal) abort (searchFuel2 maze)
    [ANode.mk start 0 0 0] [] [] [(start, 0)] 0 0

/-- `greedyBestFirstSearch`, `viewType = "2D"`. -/
def greedyBestFirstSearch2D (maze : Grid) (start goal : Pos2) (abort : Nat → Bool) :
    RunOut Pos2 :=
  greedyLoop (fun p => getNeighbors2D p maze) (greedyHeuristic2 goal) start goal
    (pathEvents2D start goal) abort (searchFuel2 maze)
    [GNode.mk start (greedyHeuristic2 goal start)] [start] [] 0 0

/-- `greedyBestFirstSearch`, `viewType = "3D"`. -/
def greedyBestFirstSearch3D (m : Grid3) (start goal : Pos3) (abort : Nat → Bool) :
    RunOut Pos3 :=
  greedyLoop (fun p => getNeighbors3D p m) (greedyHeuristic3 goal) start goal
    (pathEvents3D m start goal) abort (searchFuel3 m)
    [GNode.mk start (greedyHeuristic3 goal start)] [start] [] 0 0

/-- The never-aborting signal: the `abortSignal` parameter omitted or
never fired. -/
def noAbort : Nat → Bool := fun _ => false

/-! ## Reachability through the neighbor relation -/

/-- A walk of exactly `n` neighbor steps from `start` ends at the given
position. -/
inductive NReach {α : Type} (nbrs : α → List α) (start : α) : Nat → α → Prop
  | refl : NReach nbrs start 0 start
  | step {n : Nat} {p q : α} : NReach nbrs start n p → q ∈ nbrs p → NReach nbrs start (n + 1) q

/-- The goal is reachable from the start via the neighbor relation. -/
def Reachable {α : Type} (nbrs : α → List α) (start goal : α) : Prop :=
  ∃ n, NReach nbrs start n goal

/-- `L` is the length (edge count) of a shortest path. -/
def IsShortest {α : Type} (nbrs : α → List α) (start goal : α) (L : Nat) : Prop :=
  NReach nbrs start L goal ∧ ∀ m, NReach nbrs start m goal → L ≤ m

/-! ## C1: the A* heuristic -/

theorem aStarExpand_node_fields {α : Type} [DecidableEq α] (hf : α → Nat) (goal cur : α)
    (cg : Nat) (vis : List α) :
    ∀ (ns : List α) (parent : List (α × α)) (gScore : List (α × Nat)),
      ∀ nd ∈ (aStarExpand hf goal cur cg vis ns parent gScore).2.2.1,
        nd.h = hf nd.pos ∧ nd.f = nd.g + nd.h := by
  intro ns
  induction ns with
  | nil => intro parent gScore nd hnd; simp [aStarExpand] at hnd
  | cons n rest ih =>
    intro parent gScore nd hnd
    by_cases hv : n ∈ vis
    · rw [aStarExpand, if_pos hv] at hnd
      exact ih parent gScore nd hnd
    · rw [aStarExpand, if_neg hv] at hnd
      by_cases hlt : ltOpt (cg + 1) (alookup gScore n) = true
      · rw [if_pos hlt] at hnd
        rcases List.mem_cons.mp hnd with rfl | hmem
        · exact ⟨rfl, rfl⟩
        · exact ih _ _ nd hmem
      · rw [if_neg hlt] at hnd
        exact ih parent gScore nd hnd

/-- C1 (amended): for the A* strategy the frontier is ordered by
`f = g + h` — every node the expansion pushes satisfies
`h = heuristic(pos)` and `f = g + h`, and the sorted dequeue takes a
node of minimal `f` — and the heuristic is the plain Manhattan distance
over all three coordinates: no additional layer-difference penalty is
ever added (and in the 2D case the heuristic reads the absent third
coordinate, yielding `NaN`, not a Manhattan distance). -/
theorem c1_astar_heuristic_no_penalty :
    (∀ goal pos : Pos3, aStarHeuristic goal pos = manhattan3 pos goal) ∧
    (∀ (hf : Pos3 → Nat) (goal cur : Pos3) (cg : Nat) (vis ns : List Pos3)
       (parent : List (Pos3 × Pos3)) (gScore : List (Pos3 × Nat)),
       ∀ nd ∈ (aStarExpand hf goal cur cg vis ns parent gScore).2.2.1,
         nd.h = hf nd.pos ∧ nd.f = nd.g + nd.h) ∧
    (∀ (l : List (ANode Pos3)) (c : ANode Pos3) (rest : List (ANode Pos3)),
       sortByKey ANode.f l = c :: rest → ∀ b ∈ l, c.f ≤ b.f) := by
  refine ⟨fun goal pos => rfl, ?_, ?_⟩
  · intro hf goal cur cg vis ns parent gScore
    exact aStarExpand_node_fields hf goal cur cg vis ns parent gScore
  · intro l c rest h b hb
    exact sortByKey_head_min ANode.f l c rest h b hb

/-- Witness for C1: concrete instances of each hypothesis-bearing part. -/
theorem c1_astar_heuristic_no_penalty_witness :
    aStarHeuristic ((0 : Int), (0 : Int), (0 : Int)) ((2 : Int), (3 : Int), (1 : Int)) =
      manhattan3 ((2 : Int), (3 : Int), (1 : Int)) ((0 : Int), (0 : Int), (0 : Int)) ∧
    (ANode.mk ((1 : Int), (0 : Int), (0 : Int)) 0 3 3).f ≤
      (ANode.mk ((0 : Int), (0 : Int), (0 : Int)) 0 5 5).f := by
  constructor
  · exact c1_astar_heuristic_no_penalty.1 ((0 : Int), (0 : Int), (0 : Int))
      ((2 : Int), (3 : Int), (1 : Int))
  · exact c1_astar_heuristic_no_penalty.2.2
      [ANode.mk ((0 : Int), (0 : Int), (0 : Int)) 0 5 5,
       ANode.mk ((1 : Int), (0 : Int), (0 : Int)) 0 3 3]
      (ANode.mk ((1 : Int), (0 : Int), (0 : Int)) 0 3 3)
      [ANode.mk ((0 : Int), (0 : Int), (0 : Int)) 0 5 5]
      (by decide)
      (ANode.mk ((0 : Int), (0 : Int), (0 : Int)) 0 5 5) (by decide)

/-- Counterexample to C1 as stated: at a candidate whose layer differs
from the goal's layer (here `(5,5,1)` against goal `(1,1,0)`), the code's
heuristic is the plain Manhattan distance `9`; the claimed heuristic with
the quoted example penalty `+8` would be `17`. No penalty is added. -/
theorem c1_counterexample :
    aStarHeuristic ((1 : Int), (1 : Int), (0 : Int)) ((5 : Int), (5 : Int), (1 : Int)) = 9 ∧
    claimedAStarHeuristic 8 ((1 : Int), (1 : Int), (0 : Int)) ((5 : Int), (5 : Int), (1 : Int)) = 17 ∧
    (9 : Nat) ≠ 17 := by
  decide

/-! ## C7: characterization of `getNeighbors3D` -/

/-- The grid is a proper box: every layer has `height` rows of `width`
cells each. -/
abbrev Rect3 (m : Grid3) (width height : Nat) : Prop :=
  ∀ layer ∈ m, layer.length = height ∧ ∀ row ∈ layer, row.length = width

/-- The position lies inside the box. -/
abbrev InBounds3 (m : Grid3) (width height : Nat) (p : Pos3) : Prop :=
  0 ≤ p.1 ∧ p.1 < (width : Int) ∧ 0 ≤ p.2.1 ∧ p.2.1 < (height : Int) ∧
    0 ≤ p.2.2 ∧ p.2.2 < (m.length : Int)

/-- The claim's description of a 3D neighbor (spec §4.3): an orthogonal
in-layer in-bounds non-wall neighbor; or, when the current cell is
`PortalUp` and the layer above exists, any `PortalDown` cell of that
layer; or, when it is `PortalDown` and the layer below exists, any
`PortalUp` cell of that layer. -/
abbrev SpecNeighbor3 (m : Grid3) (width height : Nat) (p q : Pos3) : Prop :=
  (q.2.2 = p.2.2 ∧ (q.1 - p.1).natAbs + (q.2.1 - p.2.1).natAbs = 1 ∧
    0 ≤ q.1 ∧ q.1 < (width : Int) ∧ 0 ≤ q.2.1 ∧ q.2.1 < (height : Int) ∧
    cellAt3 m q ≠ CELL_WALL) ∨
  (cellAt3 m p = CELL_PORTAL_UP ∧ q.2.2 = p.2.2 + 1 ∧ q.2.2 < (m.length : Int) ∧
    cellAt3 m q = CELL_PORTAL_DOWN) ∨
  (cellAt3 m p = CELL_PORTAL_DOWN ∧ q.2.2 = p.2.2 - 1 ∧ 0 ≤ q.2.2 ∧
    cellAt3 m q = CELL_PORTAL_UP)

theorem getD_out_of_range {α : Type} {l : List α} {n : Nat} {d : α} (h : l.length ≤ n) :
    l.getD n d = d := by
  rw [List.getD_eq_getElem?_getD, List.getElem?_eq_none h]
  rfl

theorem portalScan_mem (layer : Grid) (v : Nat) (z : Int) (hv : v ≠ 0) (q : Pos3) :
    q ∈ portalScan layer v z ↔
      q.2.2 = z ∧ 0 ≤ q.1 ∧ 0 ≤ q.2.1 ∧ cellAt2 layer q.1 q.2.1 = v := by
  obtain ⟨qx, qy, qz⟩ := q
  simp only [portalScan, List.mem_flatMap, List.mem_filterMap, List.mem_range]
  constructor
  · rintro ⟨ny, hny, nx, hnx, hq⟩
    by_cases hcv : (layer.getD ny []).getD nx 0 = v
    · rw [if_pos hcv] at hq
      simp only [Option.some.injEq, Prod.mk.injEq] at hq
      obtain ⟨h1, h2, h3⟩ := hq
      subst h1; subst h2; subst h3
      refine ⟨rfl, Int.ofNat_nonneg nx, Int.ofNat_nonneg ny, ?_⟩
      rw [cellAt2, if_pos ⟨Int.ofNat_nonneg nx, Int.ofNat_nonneg ny⟩]
      simpa using hcv
    · rw [if_neg hcv] at hq
      exact absurd hq (by simp)
  · rintro ⟨rfl, hx, hy, hcell⟩
    rw [cellAt2, if_pos ⟨hx, hy⟩] at hcell
    have hylt : qy.toNat < layer.length := by
      by_contra hge
      rw [getD_out_of_range (Nat.le_of_not_lt hge)] at hcell
      exact hv (by simpa using hcell.symm)
    have hxlt : qx.toNat < (layer.getD qy.toNat []).length := by
      by_contra hge
      rw [getD_out_of_range (Nat.le_of_not_lt hge)] at hcell
      exact hv hcell.symm
    refine ⟨qy.toNat, hylt, qx.toNat, hxlt, ?_⟩
    rw [if_pos hcell]
    rw [Int.toNat_of_nonneg hx, Int.toNat_of_nonneg hy]

theorem cellAt2_ne_zero_nonneg {layer : Grid} {x y : Int} (h : cellAt2 layer x y ≠ 0) :
    0 ≤ x ∧ 0 ≤ y := by
  by_contra hc
  rw [cellAt2, if_neg hc] at h
  exact h rfl

/-- C7: for an in-bounds position of a proper 3D grid, `getNeighbors3D`
returns exactly the spec §4.3 neighbors: the orthogonal in-layer
in-bounds non-wall cells, every `PortalDown` cell of the layer above
when standing on a `PortalUp`, and every `PortalUp` cell of the layer
below when standing on a `PortalDown` — and nothing else. -/
theorem c7_getNeighbors3D (m : Grid3) (width height : Nat) (p : Pos3)
    (hrect : Rect3 m width height) (hp : InBounds3 m width height p) (q : Pos3) :
    q ∈ getNeighbors3D p m ↔ SpecNeighbor3 m width height p q := by
  obtain ⟨px, py, pz⟩ := p
  obtain ⟨hx0, hxw, hy0, hyh, hz0, hzl⟩ := hp
  have hx0 : 0 ≤ px := hx0
  have hxw : px < (width : Int) := hxw
  have hy0 : 0 ≤ py := hy0
  have hyh : py < (height : Int) := hyh
  have hz0 : 0 ≤ pz := hz0
  have hzl : pz < (m.length : Int) := hzl
  have hzn : pz.toNat < m.length := by omega
  have hLdef : layerAt m pz = m[pz.toNat] := by
    rw [layerAt, if_pos hz0, List.getD_eq_getElem?_getD, List.getElem?_eq_getElem hzn]
    rfl
  have hL_mem : layerAt m pz ∈ m := by
    rw [hLdef]
    exact List.getElem_mem hzn
  have hL_len : (layerAt m pz).length = height := (hrect _ hL_mem).1
  have hrow_len : ∀ row ∈ layerAt m pz, row.length = width := (hrect _ hL_mem).2
  have hhead_len : ((layerAt m pz).headD []).length = width := by
    cases hl : layerAt m pz with
    | nil =>
      rw [hl] at hL_len
      simp only [List.length_nil] at hL_len
      omega
    | cons r rest =>
      exact hrow_len r (hl ▸ List.mem_cons_self r rest)
  have hcell3 : ∀ x y z : Int, cellAt3 m (x, y, z) = cellAt2 (layerAt m z) x y :=
    fun _ _ _ => rfl
  simp only [getNeighbors3D, List.mem_append]
  constructor
  · intro hq
    rcases hq with (hin | hup) | hdown
    · rw [List.mem_filterMap] at hin
      obtain ⟨d, hd, hcond⟩ := hin
      left
      have hsplit :
          (0 ≤ py + d.2 ∧ py + d.2 < ((layerAt m pz).length : Int) ∧ 0 ≤ px + d.1 ∧
            px + d.1 < (((layerAt m pz).headD []).length : Int) ∧
            cellAt2 (layerAt m pz) (px + d.1) (py + d.2) ≠ CELL_WALL) ∧
          q = (px + d.1, py + d.2, pz) := by
        by_cases hc : 0 ≤ py + d.2 ∧ py + d.2 < ((layerAt m pz).length : Int) ∧
            0 ≤ px + d.1 ∧ px + d.1 < (((layerAt m pz).headD []).length : Int) ∧
            cellAt2 (layerAt m pz) (px + d.1) (py + d.2) ≠ CELL_WALL
        · rw [if_pos hc] at hcond
          exact ⟨hc, (Option.some.injEq _ _ ▸ hcond).symm⟩
        · rw [if_neg hc] at hcond
          exact absurd hcond (by simp)
      obtain ⟨⟨hcy0, hcyl, hcx0, hcxl, hcw⟩, rfl⟩ := hsplit
      rw [hL_len] at hcyl
      rw [hhead_len] at hcxl
      refine ⟨rfl, ?_, hcx0, hcxl, hcy0, hcyl, ?_⟩
      · simp only [List.mem_cons, List.not_mem_nil, or_false] at hd
        rcases hd with rfl | rfl | rfl | rfl
        all_goals dsimp only
        all_goals omega
      · rw [hcell3]
        simpa using hcw
    · have hc : cellAt2 (layerAt m pz) px py = CELL_PORTAL_UP ∧ 0 ≤ pz + 1 ∧
          (pz + 1).toNat < m.length := by
        by_contra hc
        rw [if_neg hc] at hup
        exact absurd hup (List.not_mem_nil q)
      rw [if_pos hc] at hup
      obtain ⟨hcup, hz1, hz1l⟩ := hc
      rw [portalScan_mem _ _ _ (by rw [CELL_PORTAL_DOWN]; omega)] at hup
      obtain ⟨hqz, hqx0, hqy0, hqcell⟩ := hup
      right; left
      refine ⟨hcup, hqz, by omega, ?_⟩
      obtain ⟨qx, qy, qz⟩ := q
      simp only at hqz
      subst hqz
      rw [hcell3]
      exact hqcell
    · have hc : cellAt2 (layerAt m pz) px py = CELL_PORTAL_DOWN ∧ 0 ≤ pz - 1 ∧
          (pz - 1).toNat < m.length := by
        by_contra hc
        rw [if_neg hc] at hdown
        exact absurd hdown (List.not_mem_nil q)
      rw [if_pos hc] at hdown
      obtain ⟨hcdown, hz1, hz1l⟩ := hc
      rw [portalScan_mem _ _ _ (by rw [CELL_PORTAL_UP]; omega)] at hdown
      obtain ⟨hqz, hqx0, hqy0, hqcell⟩ := hdown
      right; right
      refine ⟨hcdown, hqz, by omega, ?_⟩
      obtain ⟨qx, qy, qz⟩ := q
      simp only at hqz
      subst hqz
      rw [hcell3]
      exact hqcell
  · intro hq
    rcases hq with ⟨hqz, hdist, hqx0, hqxl, hqy0, hqyl, hqw⟩ | ⟨hcup, hqz, hqzl, hqcell⟩ |
      ⟨hcdown, hqz, hqz0, hqcell⟩
    · left; left
      rw [List.mem_filterMap]
      obtain ⟨qx, qy, qz⟩ := q
      simp only at hqz hdist hqx0 hqxl hqy0 hqyl hqw
      rw [hqz] at hqw ⊢
      have hqw2 : cellAt2 (layerAt m pz) qx qy ≠ CELL_WALL := by
        rw [← hcell3]
        exact hqw
      have hcases : (qx - px = 0 ∧ qy - py = 1) ∨ (qx - px = 1 ∧ qy - py = 0) ∨
          (qx - px = 0 ∧ qy - py = -1) ∨ (qx - px = -1 ∧ qy - py = 0) := by omega
      have hmk : ∀ d : Int × Int, d ∈ ([((0 : Int), (1 : Int)), (1, 0), (0, -1), (-1, 0)] :
          List (Int × Int)) → qx - px = d.1 → qy - py = d.2 →
          ∃ d2 ∈ ([((0 : Int), (1 : Int)), (1, 0), (0, -1), (-1, 0)] : List (Int × Int)),
            (if 0 ≤ py + d2.2 ∧ py + d2.2 < ((layerAt m pz).length : Int) ∧
                0 ≤ px + d2.1 ∧ px + d2.1 < (((layerAt m pz).headD []).length : Int) ∧
                cellAt2 (layerAt m pz) (px + d2.1) (py + d2.2) ≠ CELL_WALL then
              some (px + d2.1, py + d2.2, pz) else none) = some (qx, qy, pz) := by
        intro d hd hdx hdy
        refine ⟨d, hd, ?_⟩
        have hex : px + d.1 = qx := by omega
        have hey : py + d.2 = qy := by omega
        rw [hex, hey, if_pos ⟨hqy0, by rw [hL_len]; exact hqyl, hqx0, by
          rw [hhead_len]; exact hqxl, hqw2⟩]
      rcases hcases with ⟨h1, h2⟩ | ⟨h1, h2⟩ | ⟨h1, h2⟩ | ⟨h1, h2⟩
      · exact hmk ((0 : Int), (1 : Int)) (by simp) h1 h2
      · exact hmk ((1 : Int), (0 : Int)) (by simp) h1 h2
      · exact hmk ((0 : Int), (-1 : Int)) (by simp) h1 h2
      · exact hmk ((-1 : Int), (0 : Int)) (by simp) h1 h2
    · left; right
      obtain ⟨qx, qy, qz⟩ := q
      simp only at hqz hqcell hqzl
      subst hqz
      have hcup2 : cellAt2 (layerAt m pz) px py = CELL_PORTAL_UP := by
        rw [← hcell3]
        exact hcup
      have hql : (pz + 1).toNat < m.length := by omega
      rw [if_pos ⟨hcup2, by omega, hql⟩]
      rw [portalScan_mem _ _ _ (by rw [CELL_PORTAL_DOWN]; omega)]
      rw [hcell3] at hqcell
      have hnn := @cellAt2_ne_zero_nonneg (layerAt m (pz + 1)) qx qy
        (by rw [hqcell, CELL_PORTAL_DOWN]; omega)
      exact ⟨rfl, hnn.1, hnn.2, hqcell⟩
    · right
      obtain ⟨qx, qy, qz⟩ := q
      simp only at hqz hqcell hqz0
      subst hqz
      have hcdown2 : cellAt2 (layerAt m pz) px py = CELL_PORTAL_DOWN := by
        rw [← hcell3]
        exact hcdown
      have hql : (pz - 1).toNat < m.length := by omega
      rw [if_pos ⟨hcdown2, by omega, hql⟩]
      rw [portalScan_mem _ _ _ (by rw [CELL_PORTAL_UP]; omega)]
      rw [hcell3] at hqcell
      have hnn := @cellAt2_ne_zero_nonneg (layerAt m (pz - 1)) qx qy
        (by rw [hqcell, CELL_PORTAL_UP]; omega)
      exact ⟨rfl, hnn.1, hnn.2, hqcell⟩

/-- A concrete 2-layer grid for the C7 witness. -/
def c7grid : Grid3 :=
  [[[1, 1, 1], [1, 5, 1], [1, 1, 1]], [[1, 1, 1], [1, 6, 1], [1, 1, 1]]]

/-- Witness for C7 at a concrete grid and position: standing on the
`PortalUp` cell of layer 0, the `PortalDown` cell of layer 1 is a
neighbor. -/
theorem c7_getNeighbors3D_witness :
    Rect3 c7grid 3 3 ∧ InBounds3 c7grid 3 3 ((1 : Int), (1 : Int), (0 : Int)) ∧
    (((1 : Int), (1 : Int), (1 : Int)) ∈
        getNeighbors3D ((1 : Int), (1 : Int), (0 : Int)) c7grid ↔
      SpecNeighbor3 c7grid 3 3 ((1 : Int), (1 : Int), (0 : Int))
        ((1 : Int), (1 : Int), (1 : Int))) :=
  ⟨by decide, by decide,
    c7_getNeighbors3D c7grid 3 3 _ (by decide) (by decide) _⟩

/-! ## C10: searches where start equals goal

Every strategy pops the start on its first iteration, finds it equal to
the goal (having skipped the `VISITED` paint, whose guard excludes both
endpoints), reconstructs the one-point path, and emits no path paint
either (same guard in `paintPathAndThreads`). -/

theorem reconstructPath_self {α : Type} [DecidableEq α] (parent : List (α × α)) (p : α) :
    reconstructPath parent p p = [p] := by
  rw [reconstructPath, reconstructPathAux]
  rw [if_pos rfl]

theorem bfsLoop_self {α : Type} [DecidableEq α] (nbrs : α → List α) (p : α)
    (pathEv : List α → List (SearchEvent α)) (hpe : pathEv [p] = []) (fuel : Nat) :
    bfsLoop nbrs p p pathEv noAbort (fuel + 1) [p] [p] [] 0 0 =
      ⟨[], SOutcome.ok ⟨[p], 1, true⟩, 1⟩ := by
  rw [bfsLoop]
  simp [noAbort, reconstructPath_self, hpe]

theorem dfsLoop_self {α : Type} [DecidableEq α] (nbrs : α → List α) (p : α)
    (pathEv : List α → List (SearchEvent α)) (hpe : pathEv [p] = []) (fuel : Nat) :
    dfsLoop nbrs p p pathEv noAbort (fuel + 1) [p] [p] [] 0 0 =
      ⟨[], SOutcome.ok ⟨[p], 1, true⟩, 1⟩ := by
  rw [dfsLoop]
  simp [noAbort, reconstructPath_self, hpe]

theorem dijkstraLoop_self {α : Type} [DecidableEq α] (nbrs : α → List α) (p : α)
    (pathEv : List α → List (SearchEvent α)) (hpe : pathEv [p] = []) (fuel : Nat) :
    dijkstraLoop nbrs p p pathEv noAbort (fuel + 1) [DNode.mk p 0] [] [] [(p, 0)] 0 0 =
      ⟨[], SOutcome.ok ⟨[p], 1, true⟩, 1⟩ := by
  rw [dijkstraLoop]
  have hsort : sortByKey DNode.cost [DNode.mk p 0] = [DNode.mk p 0] := rfl
  rw [hsort]
  simp [noAbort, reconstructPath_self, hpe]

theorem aStarLoop_self {α : Type} [DecidableEq α] (nbrs : α → List α) (hf : α → Nat)
    (sortF : List (ANode α) → List (ANode α)) (hperm : ∀ l, (sortF l).Perm l) (p : α)
    (g0 h0 f0 : Nat) (pathEv : List α → List (SearchEvent α)) (hpe : pathEv [p] = [])
    (fuel : Nat) :
    aStarLoop nbrs hf sortF p p pathEv noAbort (fuel + 1)
        [ANode.mk p g0 h0 f0] [] [] [(p, 0)] 0 0 =
      ⟨[], SOutcome.ok ⟨[p], 1, true⟩, 1⟩ := by
  rw [aStarLoop]
  have hsort : sortF [ANode.mk p g0 h0 f0] = [ANode.mk p g0 h0 f0] :=
    List.perm_singleton.mp (hperm [ANode.mk p g0 h0 f0])
  rw [hsort]
  simp [noAbort, reconstructPath_self, hpe]

theorem greedyLoop_self {α : Type} [DecidableEq α] (nbrs : α → List α) (hf : α → Nat)
    (p : α) (h0 : Nat) (pathEv : List α → List (SearchEvent α)) (hpe : pathEv [p] = [])
    (fuel : Nat) :
    greedyLoop nbrs hf p p pathEv noAbort (fuel + 1) [GNode.mk p h0] [p] [] 0 0 =
      ⟨[], SOutcome.ok ⟨[p], 1, true⟩, 1⟩ := by
  rw [greedyLoop]
  have hsort : sortByKey GNode.h [GNode.mk p h0] = [GNode.mk p h0] := rfl
  rw [hsort]
  simp [noAbort, reconstructPath_self, hpe]

theorem pathEvents2D_self (p : Pos2) : pathEvents2D p p [p] = [] := by
  simp [pathEvents2D]

theorem pathEvents3D_self (m : Grid3) (p : Pos3) : pathEvents3D m p p [p] = [] := by
  simp [pathEvents3D]

theorem searchFuel2_succ (maze : Grid) :
    searchFuel2 maze = (((allPos2 maze).length + 2) * 6 + 1) + 1 := rfl

theorem searchFuel3_succ (m : Grid3) :
    searchFuel3 m =
      ((((allPos3 m).length + 2) * ((allPos3 m).length + 6)) + 1) + 1 := rfl

/-- C10: with `start = goal` (same dimensionality, elementwise equal),
each of the five search functions — in both the 2D and the 3D
instantiation, the 2D A* for every implementation-defined sort order —
returns `success = true`, `path = [start]`, `visitedCount = 1`, and
invokes no callback at all (empty trace), in one iteration of a
non-cancelled run. -/
theorem c10_start_eq_goal :
    (∀ (maze : Grid) (p : Pos2),
      breadthFirstSearch2D maze p p noAbort = ⟨[], SOutcome.ok ⟨[p], 1, true⟩, 1⟩) ∧
    (∀ (m : Grid3) (p : Pos3),
      breadthFirstSearch3D m p p noAbort = ⟨[], SOutcome.ok ⟨[p], 1, true⟩, 1⟩) ∧
    (∀ (maze : Grid) (p : Pos2),
      depthFirstSearch2D maze p p noAbort = ⟨[], SOutcome.ok ⟨[p], 1, true⟩, 1⟩) ∧
    (∀ (m : Grid3) (p : Pos3),
      depthFirstSearch3D m p p noAbort = ⟨[], SOutcome.ok ⟨[p], 1, true⟩, 1⟩) ∧
    (∀ (maze : Grid) (p : Pos2),
      dijkstraSearch2D maze p p noAbort = ⟨[], SOutcome.ok ⟨[p], 1, true⟩, 1⟩) ∧
    (∀ (m : Grid3) (p : Pos3),
      dijkstraSearch3D m p p noAbort = ⟨[], SOutcome.ok ⟨[p], 1, true⟩, 1⟩) ∧
    (∀ (sortF : List (ANode Pos2) → List (ANode Pos2)), (∀ l, (sortF l).Perm l) →
      ∀ (maze : Grid) (p : Pos2),
        aStarSearch2D sortF maze p p noAbort = ⟨[], SOutcome.ok ⟨[p], 1, true⟩, 1⟩) ∧
    (∀ (m : Grid3) (p : Pos3),
      aStarSearch3D m p p noAbort = ⟨[], SOutcome.ok ⟨[p], 1, true⟩, 1⟩) ∧
    (∀ (maze : Grid) (p : Pos2),
      greedyBestFirstSearch2D maze p p noAbort = ⟨[], SOutcome.ok ⟨[p], 1, true⟩, 1⟩) ∧
    (∀ (m : Grid3) (p : Pos3),
      greedyBestFirstSearch3D m p p noAbort = ⟨[], SOutcome.ok ⟨[p], 1, true⟩, 1⟩) := by
  refine ⟨?_, ?_, ?_, ?_, ?_, ?_, ?_, ?_, ?_, ?_⟩
  · intro maze p
    rw [breadthFirstSearch2D, searchFuel2_succ]
    exact bfsLoop_self _ p _ (pathEvents2D_self p) _
  · intro m p
    rw [breadthFirstSearch3D, searchFuel3_succ]
    exact bfsLoop_self _ p _ (pathEvents3D_self m p) _
  · intro maze p
    rw [depthFirstSearch2D, searchFuel2_succ]
    exact dfsLoop_self _ p _ (pathEvents2D_self p) _
  · intro m p
    rw [depthFirstSearch3D, searchFuel3_succ]
    exact dfsLoop_self _ p _ (pathEvents3D_self m p) _
  · intro maze p
    rw [dijkstraSearch2D, searchFuel2_succ]
    exact dijkstraLoop_self _ p _ (pathEvents2D_self p) _
  · intro m p
    rw [dijkstraSearch3D, searchFuel3_succ]
    exact dijkstraLoop_self _ p _ (pathEvents3D_self m p) _
  · intro sortF hperm maze p
    rw [aStarSearch2D, searchFuel2_succ]
    exact aStarLoop_self _ _ sortF hperm p _ _ _ _ (pathEvents2D_self p) _
  · intro m p
    rw [aStarSearch3D, searchFuel3_succ]
    exact aStarLoop_self _ _ _ (fun l => sortByKey_perm ANode.f l) p _ _ _ _
      (pathEvents3D_self m p) _
  · intro maze p
    rw [greedyBestFirstSearch2D, searchFuel2_succ]
    exact greedyLoop_self _ _ p _ _ (pathEvents2D_self p) _
  · intro m p
    rw [greedyBestFirstSearch3D, searchFuel3_succ]
    exact greedyLoop_self _ _ p _ _ (pathEvents3D_self m p) _

/-- Witness for C10 at a concrete maze and position. -/
theorem c10_start_eq_goal_witness :
    breadthFirstSearch2D [[1, 1, 1], [1, 2, 1], [1, 1, 1]] ((1 : Int), (1 : Int))
        ((1 : Int), (1 : Int)) noAbort =
      ⟨[], SOutcome.ok ⟨[((1 : Int), (1 : Int))], 1, true⟩, 1⟩ ∧
    aStarSearch2D (sortByKey ANode.f) [[1, 1, 1], [1, 2, 1], [1, 1, 1]]
        ((1 : Int), (1 : Int)) ((1 : Int), (1 : Int)) noAbort =
      ⟨[], SOutcome.ok ⟨[((1 : Int), (1 : Int))], 1, true⟩, 1⟩ :=
  ⟨c10_start_eq_goal.1 [[1, 1, 1], [1, 2, 1], [1, 1, 1]] ((1 : Int), (1 : Int)),
    c10_start_eq_goal.2.2.2.2.2.2.1 (sortByKey ANode.f)
      (fun l => sortByKey_perm ANode.f l) [[1, 1, 1], [1, 2, 1], [1, 1, 1]]
      ((1 : Int), (1 : Int))⟩

/-! ## C2, counterexample part: A* can return a non-minimal path

The portal jump from `(11,3,0)` to `(1,2,1)` shortens the true distance
far below the Manhattan distance, so the heuristic overestimates
(inadmissible) and A* commits to the long in-layer walk toward the
goal's `(x, y)` before ever expanding the portal next to the start. -/

/-- Layer 0: an open 11×3 interior; `PortalUp` cells at `(1,3)` (far
from the start, near the goal in `(x,y)`) and `(11,3)` (adjacent to the
start); the start cell `(10,3)`. -/
def c2Layer0 : Grid :=
  [[1, 1, 1, 1, 1, 1, 1, 1, 1, 1, 1, 1, 1],
   [1, 2, 2, 2, 2, 2, 2, 2, 2, 2, 2, 2, 1],
   [1, 2, 2, 2, 2, 2, 2, 2, 2, 2, 2, 2, 1],
   [1, 5, 2, 2, 2, 2, 2, 2, 2, 2, 3, 5, 1],
   [1, 1, 1, 1, 1, 1, 1, 1, 1, 1, 1, 1, 1]]

/-- Layer 1: the goal `(1,1)` and the single `PortalDown` at `(1,2)`,
walled in. -/
def c2Layer1 : Grid :=
  [[1, 1, 1, 1, 1, 1, 1, 1, 1, 1, 1, 1, 1],
   [1, 4, 1, 1, 1, 1, 1, 1, 1, 1, 1, 1, 1],
   [1, 6, 1, 1, 1, 1, 1, 1, 1, 1, 1, 1, 1],
   [1, 1, 1, 1, 1, 1, 1, 1, 1, 1, 1, 1, 1],
   [1, 1, 1, 1, 1, 1, 1, 1, 1, 1, 1, 1, 1]]

/-- The two-layer counterexample maze. -/
def c2maze : Grid3 := [c2Layer0, c2Layer1]

/-- The start `(10,3,0)`. -/
def c2start : Pos3 := (10, 3, 0)

/-- The goal `(1,1,1)`. -/
def c2goal : Pos3 := (1, 1, 1)

/-- Path length and success flag of a returned result. -/
def okResult {α : Type} : SOutcome α → Option (Nat × Bool)
  | SOutcome.ok r => some (r.path.length, r.success)
  | _ => none

set_option maxRecDepth 400000 in
/-- Counterexample to C2 as stated: on `c2maze` (goal reachable — BFS
succeeds) BFS and Dijkstra both return the minimal 4-position path
(start, portal `(11,3,0)`, portal `(1,2,1)`, goal), but A* returns a
12-position path: the three strategies do not all return paths of
identical minimal length. -/
theorem c2_counterexample :
    okResult (breadthFirstSearch3D c2maze c2start c2goal noAbort).outcome =
      some (4, true) ∧
    okResult (dijkstraSearch3D c2maze c2start c2goal noAbort).outcome =
      some (4, true) ∧
    okResult (aStarSearch3D c2maze c2start c2goal noAbort).outcome =
      some (12, true) := by
  refine ⟨by decide, by decide, by decide⟩

/-! ## C6: cancellation semantics

The abort signal is modelled by `abort : Nat → Bool`, the value of
`abortSignal?.aborted` observed by the check of outer iteration `k`.
Each loop checks it exactly once per iteration, first thing; the
properties below say: a returned result means every performed check saw
`false`; every callback was emitted in an iteration whose check saw
`false` (so, for a monotone signal, none after the first observation);
and an aborted run ends at an iteration whose check saw `true`. -/

/-- The cancellation contract of one search run started at iteration
`iter0`. -/
def SearchRunProps {α : Type} (abort : Nat → Bool) (iter0 : Nat) (r : RunOut α) : Prop :=
  (∀ res, r.outcome = SOutcome.ok res → ∀ k, iter0 ≤ k → k < r.iters → abort k = false) ∧
  (∀ pe ∈ r.trace, abort pe.1 = false) ∧
  (r.outcome = SOutcome.aborted → iter0 < r.iters ∧ abort (r.iters - 1) = true)

theorem bfsLoop_props {α : Type} [DecidableEq α] (nbrs : α → List α) (start goal : α)
    (pathEv : List α → List (SearchEvent α)) (abort : Nat → Bool) :
    ∀ (fuel : Nat) (queue visited : List α) (parent : List (α × α)) (count iter : Nat),
      SearchRunProps abort iter
        (bfsLoop nbrs start goal pathEv abort fuel queue visited parent count iter) := by
  intro fuel
  induction fuel with
  | zero =>
    intro queue visited parent count iter
    refine ⟨?_, ?_, ?_⟩ <;> simp [bfsLoop]
  | succ fuel ih =>
    intro queue visited parent count iter
    cases queue with
    | nil =>
      rw [bfsLoop]
      exact ⟨fun res hok k hk1 hk2 => absurd (Nat.lt_of_le_of_lt hk1 hk2)
        (Nat.lt_irrefl iter), by simp, by simp⟩
    | cons current rest =>
      rw [bfsLoop]
      by_cases habort : abort iter = true
      · rw [if_pos habort]
        exact ⟨by simp, by simp, fun _ => ⟨Nat.lt_succ_self iter, by simpa using habort⟩⟩
      · rw [if_neg habort]
        by_cases hgoal : current = goal
        · rw [if_pos hgoal]
          refine ⟨?_, ?_, by simp⟩
          · intro res hok k hk1 hk2
            simp only at hk2
            have : k = iter := by omega
            subst this
            simpa using habort
          · intro pe hpe
            simp only [List.mem_map] at hpe
            obtain ⟨e, he, rfl⟩ := hpe
            simpa using habort
        · rw [if_neg hgoal]
          unfold SearchRunProps
          dsimp only
          have hih := ih (rest ++ (visitExpand goal current (nbrs current) visited
            parent).pushes) (visitExpand goal current (nbrs current) visited parent).visited
            (visitExpand goal current (nbrs current) visited parent).parent (count + 1)
            (iter + 1)
          refine ⟨?_, ?_, ?_⟩
          · intro res hok k hk1 hk2
            by_cases hk : k = iter
            · subst hk
              simpa using habort
            · exact hih.1 res hok k (by omega) hk2
          · intro pe hpe
            simp only [List.mem_append, List.mem_map] at hpe
            rcases hpe with ⟨e, he, rfl⟩ | hpe
            · simpa using habort
            · exact hih.2.1 pe hpe
          · intro hab
            obtain ⟨h1, h2⟩ := hih.2.2 hab
            exact ⟨by omega, h2⟩

theorem dfsLoop_props {α : Type} [DecidableEq α] (nbrs : α → List α) (start goal : α)
    (pathEv : List α → List (SearchEvent α)) (abort : Nat → Bool) :
    ∀ (fuel : Nat) (stack visited : List α) (parent : List (α × α)) (count iter : Nat),
      SearchRunProps abort iter
        (dfsLoop nbrs start goal pathEv abort fuel stack visited parent count iter) := by
  intro fuel
  induction fuel with
  | zero =>
    intro stack visited parent count iter
    refine ⟨?_, ?_, ?_⟩ <;> simp [dfsLoop]
  | succ fuel ih =>
    intro stack visited parent count iter
    cases stack with
    | nil =>
      rw [dfsLoop]
      exact ⟨fun res hok k hk1 hk2 => absurd (Nat.lt_of_le_of_lt hk1 hk2)
        (Nat.lt_irrefl iter), by simp, by simp⟩
    | cons current rest =>
      rw [dfsLoop]
      by_cases habort : abort iter = true
      · rw [if_pos habort]
        exact ⟨by simp, by simp, fun _ => ⟨Nat.lt_succ_self iter, by simpa using habort⟩⟩
      · rw [if_neg habort]
        by_cases hgoal : current = goal
        · rw [if_pos hgoal]
          refine ⟨?_, ?_, by simp⟩
          · intro res hok k hk1 hk2
            simp only at hk2
            have : k = iter := by omega
            subst this
            simpa using habort
          · intro pe hpe
            simp only [List.mem_map] at hpe
            obtain ⟨e, he, rfl⟩ := hpe
            simpa using habort
        · rw [if_neg hgoal]
          unfold SearchRunProps
          dsimp only
          have hih := ih ((visitExpand goal current (nbrs current) visited
            parent).pushes.reverse ++ rest)
            (visitExpand goal current (nbrs current) visited parent).visited
            (visitExpand goal current (nbrs current) visited parent).parent (count + 1)
            (iter + 1)
          refine ⟨?_, ?_, ?_⟩
          · intro res hok k hk1 hk2
            by_cases hk : k = iter
            · subst hk
              simpa using habort
            · exact hih.1 res hok k (by omega) hk2
          · intro pe hpe
            simp only [List.mem_append, List.mem_map] at hpe
            rcases hpe with ⟨e, he, rfl⟩ | hpe
            · simpa using habort
            · exact hih.2.1 pe hpe
          · intro hab
            obtain ⟨h1, h2⟩ := hih.2.2 hab
            exact ⟨by omega, h2⟩

theorem dijkstraLoop_props {α : Type} [DecidableEq α] (nbrs : α → List α) (start goal : α)
    (pathEv : List α → List (SearchEvent α)) (abort : Nat → Bool) :
    ∀ (fuel : Nat) (openSet : List (DNode α)) (visited : List α) (parent : List (α × α))
      (costMap : List (α × Nat)) (count iter : Nat),
      SearchRunProps abort iter
        (dijkstraLoop nbrs start goal pathEv abort fuel openSet visited parent costMap
          count iter) := by
  intro fuel
  induction fuel with
  | zero =>
    intro openSet visited parent costMap count iter
    refine ⟨?_, ?_, ?_⟩ <;> simp [dijkstraLoop]
  | succ fuel ih =>
    intro openSet visited parent costMap count iter
    rw [dijkstraLoop]
    cases hsort : sortByKey DNode.cost openSet with
    | nil =>
      exact ⟨fun res hok k hk1 hk2 => absurd (Nat.lt_of_le_of_lt hk1 hk2)
        (Nat.lt_irrefl iter), by simp, by simp⟩
    | cons current rest =>
      dsimp only
      by_cases habort : abort iter = true
      · rw [if_pos habort]
        exact ⟨by simp, by simp, fun _ => ⟨Nat.lt_succ_self iter, by simpa using habort⟩⟩
      · rw [if_neg habort]
        by_cases hvis : current.pos ∈ visited
        · rw [if_pos hvis]
          unfold SearchRunProps
          dsimp only
          have hih := ih rest visited parent costMap count (iter + 1)
          refine ⟨?_, ?_, ?_⟩
          · intro res hok k hk1 hk2
            by_cases hk : k = iter
            · subst hk
              simpa using habort
            · exact hih.1 res hok k (by omega) hk2
          · exact hih.2.1
          · intro hab
            obtain ⟨h1, h2⟩ := hih.2.2 hab
            exact ⟨by omega, h2⟩
        · rw [if_neg hvis]
          by_cases hgoal : current.pos = goal
          · rw [if_pos hgoal]
            refine ⟨?_, ?_, by simp⟩
            · intro res hok k hk1 hk2
              simp only at hk2
              have : k = iter := by omega
              subst this
              simpa using habort
            · intro pe hpe
              simp only [List.mem_map] at hpe
              obtain ⟨e, he, rfl⟩ := hpe
              simpa using habort
          · rw [if_neg hgoal]
            unfold SearchRunProps
            dsimp only
            have hih := ih (rest ++ (dijkstraExpand goal current.pos current.cost
              (current.pos :: visited) (nbrs current.pos) parent costMap).2.2.1)
              (current.pos :: visited)
              (dijkstraExpand goal current.pos current.cost (current.pos :: visited)
                (nbrs current.pos) parent costMap).1
              (dijkstraExpand goal current.pos current.cost (current.pos :: visited)
                (nbrs current.pos) parent costMap).2.1
              (count + 1) (iter + 1)
            refine ⟨?_, ?_, ?_⟩
            · intro res hok k hk1 hk2
              by_cases hk : k = iter
              · subst hk
                simpa using habort
              · exact hih.1 res hok k (by omega) hk2
            · intro pe hpe
              simp only [List.mem_append, List.mem_map] at hpe
              rcases hpe with ⟨e, he, rfl⟩ | hpe
              · simpa using habort
              · exact hih.2.1 pe hpe
            · intro hab
              obtain ⟨h1, h2⟩ := hih.2.2 hab
              exact ⟨by omega, h2⟩

theorem aStarLoop_props {α : Type} [DecidableEq α] (nbrs : α → List α) (hf : α → Nat)
    (sortF : List (ANode α) → List (ANode α)) (start goal : α)
    (pathEv : List α → List (SearchEvent α)) (abort : Nat → Bool) :
    ∀ (fuel : Nat) (openSet : List (ANode α)) (visited : List α) (parent : List (α × α))
      (gScore : List (α × Nat)) (count iter : Nat),
      SearchRunProps abort iter
        (aStarLoop nbrs hf sortF start goal pathEv abort fuel openSet visited parent gScore
          count iter) := by
  intro fuel
  induction fuel with
  | zero =>
    intro openSet visited parent gScore count iter
    refine ⟨?_, ?_, ?_⟩ <;> simp [aStarLoop]
  | succ fuel ih =>
    intro openSet visited parent gScore count iter
    rw [aStarLoop]
    cases hsort : sortF openSet with
    | nil =>
      exact ⟨fun res hok k hk1 hk2 => absurd (Nat.lt_of_le_of_lt hk1 hk2)
        (Nat.lt_irrefl iter), by simp, by simp⟩
    | cons current rest =>
      dsimp only
      by_cases habort : abort iter = true
      · rw [if_pos habort]
        exact ⟨by simp, by simp, fun _ => ⟨Nat.lt_succ_self iter, by simpa using habort⟩⟩
      · rw [if_neg habort]
        by_cases hvis : current.pos ∈ visited
        · rw [if_pos hvis]
          unfold SearchRunProps
          dsimp only
          have hih := ih rest visited parent gScore count (iter + 1)
          refine ⟨?_, ?_, ?_⟩
          · intro res hok k hk1 hk2
            by_cases hk : k = iter
            · subst hk
              simpa using habort
            · exact hih.1 res hok k (by omega) hk2
          · exact hih.2.1
          · intro hab
            obtain ⟨h1, h2⟩ := hih.2.2 hab
            exact ⟨by omega, h2⟩
        · rw [if_neg hvis]
          by_cases hgoal : current.pos = goal
          · rw [if_pos hgoal]
            refine ⟨?_, ?_, by simp⟩
            · intro res hok k hk1 hk2
              simp only at hk2
              have : k = iter := by omega
              subst this
              simpa using habort
            · intro pe hpe
              simp only [List.mem_map] at hpe
              obtain ⟨e, he, rfl⟩ := hpe
              simpa using habort
          · rw [if_neg hgoal]
            unfold SearchRunProps
            dsimp only
            have hih := ih (rest ++ (aStarExpand hf goal current.pos current.g
              (current.pos :: visited) (nbrs current.pos) parent gScore).2.2.1)
              (current.pos :: visited)
              (aStarExpand hf goal current.pos current.g (current.pos :: visited)
                (nbrs current.pos) parent gScore).1
              (aStarExpand hf goal current.pos current.g (current.pos :: visited)
                (nbrs current.pos) parent gScore).2.1
              (count + 1) (iter + 1)
            refine ⟨?_, ?_, ?_⟩
            · intro res hok k hk1 hk2
              by_cases hk : k = iter
              · subst hk
                simpa using habort
              · exact hih.1 res hok k (by omega) hk2
            · intro pe hpe
              simp only [List.mem_append, List.mem_map] at hpe
              rcases hpe with ⟨e, he, rfl⟩ | hpe
              · simpa using habort
              · exact hih.2.1 pe hpe
            · intro hab
              obtain ⟨h1, h2⟩ := hih.2.2 hab
              exact ⟨by omega, h2⟩

theorem greedyLoop_props {α : Type} [DecidableEq α] (nbrs : α → List α) (hf : α → Nat)
    (start goal : α) (pathEv : List α → List (SearchEvent α)) (abort : Nat → Bool) :
    ∀ (fuel : Nat) (openSet : List (GNode α)) (visited : List α) (parent : List (α × α))
      (count iter : Nat),
      SearchRunProps abort iter
        (greedyLoop nbrs hf start goal pathEv abort fuel openSet visited parent count
          iter) := by
  intro fuel
  induction fuel with
  | zero =>
    intro openSet visited parent count iter
    refine ⟨?_, ?_, ?_⟩ <;> simp [greedyLoop]
  | succ fuel ih =>
    intro openSet visited parent count iter
    rw [greedyLoop]
    cases hsort : sortByKey GNode.h openSet with
    | nil =>
      exact ⟨fun res hok k hk1 hk2 => absurd (Nat.lt_of_le_of_lt hk1 hk2)
        (Nat.lt_irrefl iter), by simp, by simp⟩
    | cons current rest =>
      dsimp only
      by_cases habort : abort iter = true
      · rw [if_pos habort]
        exact ⟨by simp, by simp, fun _ => ⟨Nat.lt_succ_self iter, by simpa using habort⟩⟩
      · rw [if_neg habort]
        by_cases hgoal : current.pos = goal
        · rw [if_pos hgoal]
          refine ⟨?_, ?_, by simp⟩
          · intro res hok k hk1 hk2
            simp only at hk2
            have : k = iter := by omega
            subst this
            simpa using habort
          · intro pe hpe
            simp only [List.mem_map] at hpe
            obtain ⟨e, he, rfl⟩ := hpe
            simpa using habort
        · rw [if_neg hgoal]
          unfold SearchRunProps
          dsimp only
          have hih := ih (rest ++ (greedyExpand hf goal current.pos (nbrs current.pos)
            visited parent).2.2.1)
            (greedyExpand hf goal current.pos (nbrs current.pos) visited parent).1
            (greedyExpand hf goal current.pos (nbrs current.pos) visited parent).2.1
            (count + 1) (iter + 1)
          refine ⟨?_, ?_, ?_⟩
          · intro res hok k hk1 hk2
            by_cases hk : k = iter
            · subst hk
              simpa using habort
            · exact hih.1 res hok k (by omega) hk2
          · intro pe hpe
            simp only [List.mem_append, List.mem_map] at hpe
            rcases hpe with ⟨e, he, rfl⟩ | hpe
            · simpa using habort
            · exact hih.2.1 pe hpe
          · intro hab
            obtain ⟨h1, h2⟩ := hih.2.2 hab
            exact ⟨by omega, h2⟩

/-- C6: for every search strategy (2D and 3D instantiations; 2D A* for
every implementation-defined sort order), cancellation is checked once
per outer frontier iteration — the loops test the signal first thing
each iteration — and: a returned result implies every performed check
observed `false`; every visit/frontier/path callback is emitted in an
iteration whose check observed `false`, so once a check observes the
signal no further callback is invoked; and an aborted run stops in an
iteration whose check observed `true`, returning no result. -/
theorem c6_cancellation :
    (∀ (maze : Grid) (s g : Pos2) (abort : Nat → Bool),
      SearchRunProps abort 0 (breadthFirstSearch2D maze s g abort)) ∧
    (∀ (m : Grid3) (s g : Pos3) (abort : Nat → Bool),
      SearchRunProps abort 0 (breadthFirstSearch3D m s g abort)) ∧
    (∀ (maze : Grid) (s g : Pos2) (abort : Nat → Bool),
      SearchRunProps abort 0 (depthFirstSearch2D maze s g abort)) ∧
    (∀ (m : Grid3) (s g : Pos3) (abort : Nat → Bool),
      SearchRunProps abort 0 (depthFirstSearch3D m s g abort)) ∧
    (∀ (maze : Grid) (s g : Pos2) (abort : Nat → Bool),
      SearchRunProps abort 0 (dijkstraSearch2D maze s g abort)) ∧
    (∀ (m : Grid3) (s g : Pos3) (abort : Nat → Bool),
      SearchRunProps abort 0 (dijkstraSearch3D m s g abort)) ∧
    (∀ (sortF : List (ANode Pos2) → List (ANode Pos2)) (maze : Grid) (s g : Pos2)
      (abort : Nat → Bool),
      SearchRunProps abort 0 (aStarSearch2D sortF maze s g abort)) ∧
    (∀ (m : Grid3) (s g : Pos3) (abort : Nat → Bool),
      SearchRunProps abort 0 (aStarSearch3D m s g abort)) ∧
    (∀ (maze : Grid) (s g : Pos2) (abort : Nat → Bool),
      SearchRunProps abort 0 (greedyBestFirstSearch2D maze s g abort)) ∧
    (∀ (m : Grid3) (s g : Pos3) (abort : Nat → Bool),
      SearchRunProps abort 0 (greedyBestFirstSearch3D m s g abort)) :=
  ⟨fun maze s g abort => bfsLoop_props _ s g _ abort _ _ _ _ _ _,
   fun m s g abort => bfsLoop_props _ s g _ abort _ _ _ _ _ _,
   fun maze s g abort => dfsLoop_props _ s g _ abort _ _ _ _ _ _,
   fun m s g abort => dfsLoop_props _ s g _ abort _ _ _ _ _ _,
   fun maze s g abort => dijkstraLoop_props _ s g _ abort _ _ _ _ _ _ _,
   fun m s g abort => dijkstraLoop_props _ s g _ abort _ _ _ _ _ _ _,
   fun sortF maze s g abort => aStarLoop_props _ _ sortF s g _ abort _ _ _ _ _ _ _,
   fun m s g abort => aStarLoop_props _ _ _ s g _ abort _ _ _ _ _ _ _,
   fun maze s g abort => greedyLoop_props _ _ s g _ abort _ _ _ _ _ _,
   fun m s g abort => greedyLoop_props _ _ s g _ abort _ _ _ _ _ _⟩

/-- A signal that fires from iteration 1 on. -/
def c6abort : Nat → Bool := fun k => decide (1 ≤ k)

/-- A concrete maze for the C6 witness. -/
def c6maze : Grid :=
  [[1, 1, 1, 1, 1], [1, 2, 2, 2, 1], [1, 2, 1, 2, 1], [1, 2, 2, 2, 1], [1, 1, 1, 1, 1]]

/-- Witness for C6: on `c6maze` the signal firing from iteration 1
aborts the BFS run at an iteration whose check observed `true`. -/
theorem c6_cancellation_witness :
    0 < (breadthFirstSearch2D c6maze ((1 : Int), (1 : Int)) ((3 : Int), (3 : Int))
        c6abort).iters ∧
    c6abort ((breadthFirstSearch2D c6maze ((1 : Int), (1 : Int)) ((3 : Int), (3 : Int))
        c6abort).iters - 1) = true :=
  (c6_cancellation.1 c6maze ((1 : Int), (1 : Int)) ((3 : Int), (3 : Int)) c6abort).2.2
    (by decide)

/-! ## C9/C5: termination and failure semantics

Keys: every position a search handles lies in a finite list `keys`
(the start plus everything the bounds checks accept). BFS/DFS/greedy
enqueue a key at most once (visited-at-enqueue), so the number of
iterations is bounded by `keys.length + 1`; Dijkstra/A* push only while
expanding a not-yet-visited key, at most `deg` nodes each time, so
`(keys.length - visited) * (deg + 1) + openSet.length` strictly
decreases. -/

theorem visitExpand_visited_eq {α : Type} [DecidableEq α] (goal current : α) :
    ∀ (ns visited : List α) (parent : List (α × α)),
      (visitExpand goal current ns visited parent).visited =
        (visitExpand goal current ns visited parent).pushes.reverse ++ visited := by
  intro ns
  induction ns with
  | nil => intro visited parent; simp [visitExpand]
  | cons n rest ih =>
    intro visited parent
    rw [visitExpand]
    by_cases hv : n ∈ visited
    · rw [if_pos hv]
      exact ih visited parent
    · rw [if_neg hv]
      dsimp only
      rw [ih (n :: visited) ((n, current) :: parent)]
      simp

theorem visitExpand_mono {α : Type} [DecidableEq α] (goal current : α) :
    ∀ (ns visited : List α) (parent : List (α × α)) (v : α), v ∈ visited →
      v ∈ (visitExpand goal current ns visited parent).visited := by
  intro ns
  induction ns with
  | nil => intro visited parent v hv; simpa [visitExpand] using hv
  | cons n rest ih =>
    intro visited parent v hv
    rw [visitExpand]
    by_cases hn : n ∈ visited
    · rw [if_pos hn]
      exact ih visited parent v hv
    · rw [if_neg hn]
      exact ih (n :: visited) _ v (List.mem_cons_of_mem n hv)

theorem visitExpand_visited_src {α : Type} [DecidableEq α] (goal current : α) :
    ∀ (ns visited : List α) (parent : List (α × α)) (v : α),
      v ∈ (visitExpand goal current ns visited parent).visited →
        v ∈ visited ∨ v ∈ ns := by
  intro ns
  induction ns with
  | nil => intro visited parent v hv; simp [visitExpand] at hv; exact Or.inl hv
  | cons n rest ih =>
    intro visited parent v hv
    rw [visitExpand] at hv
    by_cases hn : n ∈ visited
    · rw [if_pos hn] at hv
      rcases ih visited parent v hv with h | h
      · exact Or.inl h
      · exact Or.inr (List.mem_cons_of_mem n h)
    · rw [if_neg hn] at hv
      rcases ih (n :: visited) _ v hv with h | h
      · rcases List.mem_cons.mp h with rfl | h
        · exact Or.inr (List.mem_cons_self v rest)
        · exact Or.inl h
      · exact Or.inr (List.mem_cons_of_mem n h)

theorem visitExpand_nodup {α : Type} [DecidableEq α] (goal current : α) :
    ∀ (ns visited : List α) (parent : List (α × α)), visited.Nodup →
      (visitExpand goal current ns visited parent).visited.Nodup := by
  intro ns
  induction ns with
  | nil => intro visited parent h; simpa [visitExpand] using h
  | cons n rest ih =>
    intro visited parent h
    rw [visitExpand]
    by_cases hn : n ∈ visited
    · rw [if_pos hn]
      exact ih visited parent h
    · rw [if_neg hn]
      exact ih (n :: visited) _ (List.nodup_cons.mpr ⟨hn, h⟩)

theorem visitExpand_length {α : Type} [DecidableEq α] (goal current : α) :
    ∀ (ns visited : List α) (parent : List (α × α)),
      (visitExpand goal current ns visited parent).visited.length =
        visited.length + (visitExpand goal current ns visited parent).pushes.length := by
  intro ns visited parent
  rw [visitExpand_visited_eq]
  simp [Nat.add_comm]

theorem visitExpand_pushes_visited {α : Type} [DecidableEq α] (goal current : α) :
    ∀ (ns visited : List α) (parent : List (α × α)) (q : α),
      q ∈ (visitExpand goal current ns visited parent).pushes →
        q ∈ (visitExpand goal current ns visited parent).visited := by
  intro ns visited parent q hq
  rw [visitExpand_visited_eq]
  rw [List.mem_append, List.mem_reverse]
  exact Or.inl hq

theorem visitExpand_pushes_sub {α : Type} [DecidableEq α] (goal current : α) :
    ∀ (ns visited : List α) (parent : List (α × α)) (q : α),
      q ∈ (visitExpand goal current ns visited parent).pushes → q ∈ ns := by
  intro ns
  induction ns with
  | nil => intro visited parent q hq; simp [visitExpand] at hq
  | cons n rest ih =>
    intro visited parent q hq
    rw [visitExpand] at hq
    by_cases hn : n ∈ visited
    · rw [if_pos hn] at hq
      exact List.mem_cons_of_mem n (ih visited parent q hq)
    · rw [if_neg hn] at hq
      dsimp only at hq
      rcases List.mem_cons.mp hq with rfl | hq
      · exact List.mem_cons_self q rest
      · exact List.mem_cons_of_mem n (ih (n :: visited) _ q hq)

theorem nodup_subset_length {α : Type} [DecidableEq α] {l keys : List α} (hnd : l.Nodup)
    (hsub : ∀ v ∈ l, v ∈ keys) : l.length ≤ keys.length :=
  (List.subperm_of_subset hnd hsub).length_le

theorem bfsLoop_no_fuelOut {α : Type} [DecidableEq α] (nbrs : α → List α) (start goal : α)
    (pathEv : List α → List (SearchEvent α)) (abort : Nat → Bool) (keys : List α)
    (hkeys : ∀ p q, q ∈ nbrs p → q ∈ keys) :
    ∀ (fuel : Nat) (queue visited : List α) (parent : List (α × α)) (count iter : Nat),
      visited.Nodup → (∀ q ∈ queue, q ∈ visited) → (∀ v ∈ visited, v ∈ keys) →
      keys.length - visited.length + queue.length < fuel →
      (bfsLoop nbrs start goal pathEv abort fuel queue visited parent count iter).outcome ≠
        SOutcome.fuelOut := by
  intro fuel
  induction fuel with
  | zero =>
    intro queue visited parent count iter hnd hqv hvk hlt
    omega
  | succ fuel ih =>
    intro queue visited parent count iter hnd hqv hvk hlt
    cases queue with
    | nil =>
      rw [bfsLoop]
      simp
    | cons current rest =>
      rw [bfsLoop]
      by_cases habort : abort iter = true
      · rw [if_pos habort]
        simp
      · rw [if_neg habort]
        by_cases hgoal : current = goal
        · rw [if_pos hgoal]
          simp
        · rw [if_neg hgoal]
          dsimp only
          apply ih
          · exact visitExpand_nodup goal current (nbrs current) visited parent hnd
          · intro q hq
            rcases List.mem_append.mp hq with hq | hq
            · exact visitExpand_mono goal current (nbrs current) visited parent q
                (hqv q (List.mem_cons_of_mem current hq))
            · exact visitExpand_pushes_visited goal current (nbrs current) visited parent
                q hq
          · intro v hv
            rcases visitExpand_visited_src goal current (nbrs current) visited parent v hv
              with h | h
            · exact hvk v h
            · exact hkeys current v h
          · have hlen := visitExpand_length goal current (nbrs current) visited parent
            have hvlen : (visitExpand goal current (nbrs current) visited
                parent).visited.length ≤ keys.length :=
              nodup_subset_length
                (visitExpand_nodup goal current (nbrs current) visited parent hnd)
                (fun v hv => by
                  rcases visitExpand_visited_src goal current (nbrs current) visited
                    parent v hv with h | h
                  · exact hvk v h
                  · exact hkeys current v h)
            have hql : (rest ++ (visitExpand goal current (nbrs current) visited
                parent).pushes).length = rest.length + (visitExpand goal current
                (nbrs current) visited parent).pushes.length := List.length_append _ _
            simp only [List.length_cons] at hlt
            omega

theorem dfsLoop_no_fuelOut {α : Type} [DecidableEq α] (nbrs : α → List α) (start goal : α)
    (pathEv : List α → List (SearchEvent α)) (abort : Nat → Bool) (keys : List α)
    (hkeys : ∀ p q, q ∈ nbrs p → q ∈ keys) :
    ∀ (fuel : Nat) (stack visited : List α) (parent : List (α × α)) (count iter : Nat),
      visited.Nodup → (∀ q ∈ stack, q ∈ visited) → (∀ v ∈ visited, v ∈ keys) →
      keys.length - visited.length + stack.length < fuel →
      (dfsLoop nbrs start goal pathEv abort fuel stack visited parent count iter).outcome ≠
        SOutcome.fuelOut := by
  intro fuel
  induction fuel with
  | zero =>
    intro stack visited parent count iter hnd hqv hvk hlt
    omega
  | succ fuel ih =>
    intro stack visited parent count iter hnd hqv hvk hlt
    cases stack with
    | nil =>
      rw [dfsLoop]
      simp
    | cons current rest =>
      rw [dfsLoop]
      by_cases habort : abort iter = true
      · rw [if_pos habort]
        simp
      · rw [if_neg habort]
        by_cases hgoal : current = goal
        · rw [if_pos hgoal]
          simp
        · rw [if_neg hgoal]
          dsimp only
          apply ih
          · exact visitExpand_nodup goal current (nbrs current) visited parent hnd
          · intro q hq
            rcases List.mem_append.mp hq with hq | hq
            · exact visitExpand_pushes_visited goal current (nbrs current) visited parent
                q (List.mem_reverse.mp hq)
            · exact visitExpand_mono goal current (nbrs current) visited parent q
                (hqv q (List.mem_cons_of_mem current hq))
          · intro v hv
            rcases visitExpand_visited_src goal current (nbrs current) visited parent v hv
              with h | h
            · exact hvk v h
            · exact hkeys current v h
          · have hlen := visitExpand_length goal current (nbrs current) visited parent
            have hvlen : (visitExpand goal current (nbrs current) visited
                parent).visited.length ≤ keys.length :=
              nodup_subset_length
                (visitExpand_nodup goal current (nbrs current) visited parent hnd)
                (fun v hv => by
                  rcases visitExpand_visited_src goal current (nbrs current) visited
                    parent v hv with h | h
                  · exact hvk v h
                  · exact hkeys current v h)
            have hql : ((visitExpand goal current (nbrs current) visited
                parent).pushes.reverse ++ rest).length = (visitExpand goal current
                (nbrs current) visited parent).pushes.length + rest.length := by
              rw [List.length_append, List.length_reverse]
            simp only [List.length_cons] at hlt
            omega

/-! Greedy best-first: the expansion mirrors `visitExpand` with `GNode`
pushes; the same once-per-key argument applies modulo the stable sort
(a permutation). -/

theorem greedyExpand_visited_eq {α : Type} [DecidableEq α] (hf : α → Nat) (goal current : α) :
    ∀ (ns visited : List α) (parent : List (α × α)),
      (greedyExpand hf goal current ns visited parent).1 =
        ((greedyExpand hf goal current ns visited parent).2.2.1.map GNode.pos).reverse ++
          visited := by
  intro ns
  induction ns with
  | nil => intro visited parent; simp [greedyExpand]
  | cons n rest ih =>
    intro visited parent
    rw [greedyExpand]
    by_cases hv : n ∈ visited
    · rw [if_pos hv]
      exact ih visited parent
    · rw [if_neg hv]
      dsimp only
      rw [ih (n :: visited) ((n, current) :: parent)]
      simp

theorem greedyExpand_mono {α : Type} [DecidableEq α] (hf : α → Nat) (goal current : α) :
    ∀ (ns visited : List α) (parent : List (α × α)) (v : α), v ∈ visited →
      v ∈ (greedyExpand hf goal current ns visited parent).1 := by
  intro ns
  induction ns with
  | nil => intro visited parent v hv; simpa [greedyExpand] using hv
  | cons n rest ih =>
    intro visited parent v hv
    rw [greedyExpand]
    by_cases hn : n ∈ visited
    · rw [if_pos hn]
      exact ih visited parent v hv
    · rw [if_neg hn]
      exact ih (n :: visited) _ v (List.mem_cons_of_mem n hv)

theorem greedyExpand_visited_src {α : Type} [DecidableEq α] (hf : α → Nat)
    (goal current : α) :
    ∀ (ns visited : List α) (parent : List (α × α)) (v : α),
      v ∈ (greedyExpand hf goal current ns visited parent).1 → v ∈ visited ∨ v ∈ ns := by
  intro ns
  induction ns with
  | nil => intro visited parent v hv; simp [greedyExpand] at hv; exact Or.inl hv
  | cons n rest ih =>
    intro visited parent v hv
    rw [greedyExpand] at hv
    by_cases hn : n ∈ visited
    · rw [if_pos hn] at hv
      rcases ih visited parent v hv with h | h
      · exact Or.inl h
      · exact Or.inr (List.mem_cons_of_mem n h)
    · rw [if_neg hn] at hv
      rcases ih (n :: visited) _ v hv with h | h
      · rcases List.mem_cons.mp h with rfl | h
        · exact Or.inr (List.mem_cons_self v rest)
        · exact Or.inl h
      · exact Or.inr (List.mem_cons_of_mem n h)

theorem greedyExpand_nodup {α : Type} [DecidableEq α] (hf : α → Nat) (goal current : α) :
    ∀ (ns visited : List α) (parent : List (α × α)), visited.Nodup →
      (greedyExpand hf goal current ns visited parent).1.Nodup := by
  intro ns
  induction ns with
  | nil => intro visited parent h; simpa [greedyExpand] using h
  | cons n rest ih =>
    intro visited parent h
    rw [greedyExpand]
    by_cases hn : n ∈ visited
    · rw [if_pos hn]
      exact ih visited parent h
    · rw [if_neg hn]
      exact ih (n :: visited) _ (List.nodup_cons.mpr ⟨hn, h⟩)

theorem greedyExpand_length {α : Type} [DecidableEq α] (hf : α → Nat) (goal current : α) :
    ∀ (ns visited : List α) (parent : List (α × α)),
      (greedyExpand hf goal current ns visited parent).1.length =
        visited.length + (greedyExpand hf goal current ns visited parent).2.2.1.length := by
  intro ns visited parent
  rw [greedyExpand_visited_eq]
  simp [Nat.add_comm]

theorem greedyExpand_pushes_visited {α : Type} [DecidableEq α] (hf : α → Nat)
    (goal current : α) :
    ∀ (ns visited : List α) (parent : List (α × α)) (nd : GNode α),
      nd ∈ (greedyExpand hf goal current ns visited parent).2.2.1 →
        nd.pos ∈ (greedyExpand hf goal current ns visited parent).1 := by
  intro ns visited parent nd hnd
  rw [greedyExpand_visited_eq]
  rw [List.mem_append, List.mem_reverse]
  exact Or.inl (List.mem_map_of_mem GNode.pos hnd)

theorem greedyExpand_pushes_sub {α : Type} [DecidableEq α] (hf : α → Nat)
    (goal current : α) :
    ∀ (ns visited : List α) (parent : List (α × α)) (nd : GNode α),
      nd ∈ (greedyExpand hf goal current ns visited parent).2.2.1 → nd.pos ∈ ns := by
  intro ns
  induction ns with
  | nil => intro visited parent nd hnd; simp [greedyExpand] at hnd
  | cons n rest ih =>
    intro visited parent nd hnd
    rw [greedyExpand] at hnd
    by_cases hn : n ∈ visited
    · rw [if_pos hn] at hnd
      exact List.mem_cons_of_mem n (ih visited parent nd hnd)
    · rw [if_neg hn] at hnd
      dsimp only at hnd
      rcases List.mem_cons.mp hnd with rfl | hnd
      · exact List.mem_cons_self n rest
      · exact List.mem_cons_of_mem n (ih (n :: visited) _ nd hnd)

theorem greedyLoop_no_fuelOut {α : Type} [DecidableEq α] (nbrs : α → List α) (hf : α → Nat)
    (start goal : α) (pathEv : List α → List (SearchEvent α)) (abort : Nat → Bool)
    (keys : List α) (hkeys : ∀ p q, q ∈ nbrs p → q ∈ keys) :
    ∀ (fuel : Nat) (openSet : List (GNode α)) (visited : List α) (parent : List (α × α))
      (count iter : Nat),
      visited.Nodup → (∀ nd ∈ openSet, nd.pos ∈ visited) → (∀ v ∈ visited, v ∈ keys) →
      keys.length - visited.length + openSet.length < fuel →
      (greedyLoop nbrs hf start goal pathEv abort fuel openSet visited parent count
        iter).outcome ≠ SOutcome.fuelOut := by
  intro fuel
  induction fuel with
  | zero =>
    intro openSet visited parent count iter hnd hqv hvk hlt
    omega
  | succ fuel ih =>
    intro openSet visited parent count iter hnd hqv hvk hlt
    rw [greedyLoop]
    cases hsort : sortByKey GNode.h openSet with
    | nil =>
      simp
    | cons current rest =>
      dsimp only
      have hperm := sortByKey_perm GNode.h openSet
      rw [hsort] at hperm
      have hlen : openSet.length = rest.length + 1 := by
        have := hperm.length_eq
        simp only [List.length_cons] at this
        omega
      have hsortedmem : ∀ nd : GNode α, nd ∈ current :: rest → nd.pos ∈ visited :=
        fun nd hnd => hqv nd (hperm.mem_iff.mp hnd)
      by_cases habort : abort iter = true
      · rw [if_pos habort]
        simp
      · rw [if_neg habort]
        by_cases hgoal : current.pos = goal
        · rw [if_pos hgoal]
          simp
        · rw [if_neg hgoal]
          dsimp only
          apply ih
          · exact greedyExpand_nodup hf goal current.pos (nbrs current.pos) visited
              parent hnd
          · intro nd hnd
            rcases List.mem_append.mp hnd with hnd | hnd
            · exact greedyExpand_mono hf goal current.pos (nbrs current.pos) visited
                parent nd.pos (hsortedmem nd (List.mem_cons_of_mem current hnd))
            · exact greedyExpand_pushes_visited hf goal current.pos (nbrs current.pos)
                visited parent nd hnd
          · intro v hv
            rcases greedyExpand_visited_src hf goal current.pos (nbrs current.pos) visited
              parent v hv with h | h
            · exact hvk v h
            · exact hkeys current.pos v h
          · have hglen := greedyExpand_length hf goal current.pos (nbrs current.pos)
              visited parent
            have hvlen : (greedyExpand hf goal current.pos (nbrs current.pos) visited
                parent).1.length ≤ keys.length :=
              nodup_subset_length
                (greedyExpand_nodup hf goal current.pos (nbrs current.pos) visited parent
                  hnd)
                (fun v hv => by
                  rcases greedyExpand_visited_src hf goal current.pos (nbrs current.pos)
                    visited parent v hv with h | h
                  · exact hvk v h
                  · exact hkeys current.pos v h)
            have hql : (rest ++ (greedyExpand hf goal current.pos (nbrs current.pos)
                visited parent).2.2.1).length = rest.length + (greedyExpand hf goal
                current.pos (nbrs current.pos) visited parent).2.2.1.length :=
              List.length_append _ _
            omega

/-! Dijkstra and A*: pushes happen only while expanding a key that just
became visited, at most one node per neighbor. -/

theorem dijkstraExpand_pushes_sub {α : Type} [DecidableEq α] (goal current : α)
    (ccost : Nat) (visited : List α) :
    ∀ (ns : List α) (parent : List (α × α)) (costMap : List (α × Nat)) (nd : DNode α),
      nd ∈ (dijkstraExpand goal current ccost visited ns parent costMap).2.2.1 →
        nd.pos ∈ ns := by
  intro ns
  induction ns with
  | nil => intro parent costMap nd hnd; simp [dijkstraExpand] at hnd
  | cons n rest ih =>
    intro parent costMap nd hnd
    rw [dijkstraExpand] at hnd
    by_cases hv : n ∈ visited
    · rw [if_pos hv] at hnd
      exact List.mem_cons_of_mem n (ih parent costMap nd hnd)
    · rw [if_neg hv] at hnd
      by_cases hlt : ltOpt (ccost + 1) (alookup costMap n) = true
      · rw [if_pos hlt] at hnd
        dsimp only at hnd
        rcases List.mem_cons.mp hnd with rfl | hnd
        · exact List.mem_cons_self n rest
        · exact List.mem_cons_of_mem n (ih _ _ nd hnd)
      · rw [if_neg hlt] at hnd
        exact List.mem_cons_of_mem n (ih parent costMap nd hnd)

theorem dijkstraExpand_pushes_len {α : Type} [DecidableEq α] (goal current : α)
    (ccost : Nat) (visited : List α) :
    ∀ (ns : List α) (parent : List (α × α)) (costMap : List (α × Nat)),
      (dijkstraExpand goal current ccost visited ns parent costMap).2.2.1.length ≤
        ns.length := by
  intro ns
  induction ns with
  | nil => intro parent costMap; simp [dijkstraExpand]
  | cons n rest ih =>
    intro parent costMap
    rw [dijkstraExpand]
    by_cases hv : n ∈ visited
    · rw [if_pos hv]
      exact Nat.le_succ_of_le (ih parent costMap)
    · rw [if_neg hv]
      by_cases hlt : ltOpt (ccost + 1) (alookup costMap n) = true
      · rw [if_pos hlt]
        dsimp only
        simpa using ih ((n, current) :: parent) ((n, ccost + 1) :: costMap)
      · rw [if_neg hlt]
        exact Nat.le_succ_of_le (ih parent costMap)

theorem aStarExpand_pushes_sub {α : Type} [DecidableEq α] (hf : α → Nat) (goal current : α)
    (cg : Nat) (visited : List α) :
    ∀ (ns : List α) (parent : List (α × α)) (gScore : List (α × Nat)) (nd : ANode α),
      nd ∈ (aStarExpand hf goal current cg visited ns parent gScore).2.2.1 →
        nd.pos ∈ ns := by
  intro ns
  induction ns with
  | nil => intro parent gScore nd hnd; simp [aStarExpand] at hnd
  | cons n rest ih =>
    intro parent gScore nd hnd
    rw [aStarExpand] at hnd
    by_cases hv : n ∈ visited
    · rw [if_pos hv] at hnd
      exact List.mem_cons_of_mem n (ih parent gScore nd hnd)
    · rw [if_neg hv] at hnd
      by_cases hlt : ltOpt (cg + 1) (alookup gScore n) = true
      · rw [if_pos hlt] at hnd
        dsimp only at hnd
        rcases List.mem_cons.mp hnd with rfl | hnd
        · exact List.mem_cons_self n rest
        · exact List.mem_cons_of_mem n (ih _ _ nd hnd)
      · rw [if_neg hlt] at hnd
        exact List.mem_cons_of_mem n (ih parent gScore nd hnd)

theorem aStarExpand_pushes_len {α : Type} [DecidableEq α] (hf : α → Nat) (goal current : α)
    (cg : Nat) (visited : List α) :
    ∀ (ns : List α) (parent : List (α × α)) (gScore : List (α × Nat)),
      (aStarExpand hf goal current cg visited ns parent gScore).2.2.1.length ≤
        ns.length := by
  intro ns
  induction ns with
  | nil => intro parent gScore; simp [aStarExpand]
  | cons n rest ih =>
    intro parent gScore
    rw [aStarExpand]
    by_cases hv : n ∈ visited
    · rw [if_pos hv]
      exact Nat.le_succ_of_le (ih parent gScore)
    · rw [if_neg hv]
      by_cases hlt : ltOpt (cg + 1) (alookup gScore n) = true
      · rw [if_pos hlt]
        dsimp only
        simpa using ih ((n, current) :: parent) ((n, cg + 1) :: gScore)
      · rw [if_neg hlt]
        exact Nat.le_succ_of_le (ih parent gScore)

theorem dijkstraLoop_no_fuelOut {α : Type} [DecidableEq α] (nbrs : α → List α)
    (start goal : α) (pathEv : List α → List (SearchEvent α)) (abort : Nat → Bool)
    (keys : List α) (hkeys : ∀ p q, q ∈ nbrs p → q ∈ keys) (D : Nat)
    (hdeg : ∀ p, (nbrs p).length ≤ D) :
    ∀ (fuel : Nat) (openSet : List (DNode α)) (visited : List α) (parent : List (α × α))
      (costMap : List (α × Nat)) (count iter : Nat),
      visited.Nodup → (∀ nd ∈ openSet, nd.pos ∈ keys) → (∀ v ∈ visited, v ∈ keys) →
      (keys.length - visited.length) * (D + 1) + openSet.length < fuel →
      (dijkstraLoop nbrs start goal pathEv abort fuel openSet visited parent costMap count
        iter).outcome ≠ SOutcome.fuelOut := by
  intro fuel
  induction fuel with
  | zero =>
    intro openSet visited parent costMap count iter hnd hop hvk hlt
    omega
  | succ fuel ih =>
    intro openSet visited parent costMap count iter hnd hop hvk hlt
    rw [dijkstraLoop]
    cases hsort : sortByKey DNode.cost openSet with
    | nil =>
      simp
    | cons current rest =>
      dsimp only
      have hperm := sortByKey_perm DNode.cost openSet
      rw [hsort] at hperm
      have hlen : openSet.length = rest.length + 1 := by
        have := hperm.length_eq
        simp only [List.length_cons] at this
        omega
      have hsortedmem : ∀ nd : DNode α, nd ∈ current :: rest → nd.pos ∈ keys :=
        fun nd hnd => hop nd (hperm.mem_iff.mp hnd)
      by_cases habort : abort iter = true
      · rw [if_pos habort]
        simp
      · rw [if_neg habort]
        by_cases hvis : current.pos ∈ visited
        · rw [if_pos hvis]
          dsimp only
          apply ih rest visited parent costMap count (iter + 1) hnd
            (fun nd hnd => hsortedmem nd (List.mem_cons_of_mem current hnd)) hvk
          omega
        · rw [if_neg hvis]
          by_cases hgoal : current.pos = goal
          · rw [if_pos hgoal]
            simp
          · rw [if_neg hgoal]
            dsimp only
            have hndv : (current.pos :: visited).Nodup := List.nodup_cons.mpr ⟨hvis, hnd⟩
            have hvk1 : ∀ v ∈ current.pos :: visited, v ∈ keys := by
              intro v hv
              rcases List.mem_cons.mp hv with rfl | hv
              · exact hsortedmem current (List.mem_cons_self current rest)
              · exact hvk v hv
            apply ih _ _ _ _ _ _ hndv
            · intro nd hnd
              rcases List.mem_append.mp hnd with hnd | hnd
              · exact hsortedmem nd (List.mem_cons_of_mem current hnd)
              · exact hkeys current.pos nd.pos
                  (dijkstraExpand_pushes_sub goal current.pos current.cost
                    (current.pos :: visited) (nbrs current.pos) parent costMap nd hnd)
            · exact hvk1
            · have hvK : visited.length + 1 ≤ keys.length :=
                nodup_subset_length hndv hvk1
              have hpl : (dijkstraExpand goal current.pos current.cost
                  (current.pos :: visited) (nbrs current.pos) parent
                  costMap).2.2.1.length ≤ D :=
                Nat.le_trans (dijkstraExpand_pushes_len goal current.pos current.cost
                  (current.pos :: visited) (nbrs current.pos) parent costMap)
                  (hdeg current.pos)
              have hql : (rest ++ (dijkstraExpand goal current.pos current.cost
                  (current.pos :: visited) (nbrs current.pos) parent
                  costMap).2.2.1).length = rest.length + (dijkstraExpand goal current.pos
                  current.cost (current.pos :: visited) (nbrs current.pos) parent
                  costMap).2.2.1.length := List.length_append _ _
              have hmul : (keys.length - visited.length) * (D + 1) =
                  (keys.length - (visited.length + 1)) * (D + 1) + (D + 1) := by
                have hstep : keys.length - visited.length =
                    (keys.length - (visited.length + 1)) + 1 := by omega
                rw [hstep, Nat.succ_mul]
              simp only [List.length_cons]
              omega

theorem aStarLoop_no_fuelOut {α : Type} [DecidableEq α] (nbrs : α → List α) (hf : α → Nat)
    (sortF : List (ANode α) → List (ANode α)) (hperm : ∀ l, (sortF l).Perm l)
    (start goal : α) (pathEv : List α → List (SearchEvent α)) (abort : Nat → Bool)
    (keys : List α) (hkeys : ∀ p q, q ∈ nbrs p → q ∈ keys) (D : Nat)
    (hdeg : ∀ p, (nbrs p).length ≤ D) :
    ∀ (fuel : Nat) (openSet : List (ANode α)) (visited : List α) (parent : List (α × α))
      (gScore : List (α × Nat)) (count iter : Nat),
      visited.Nodup → (∀ nd ∈ openSet, nd.pos ∈ keys) → (∀ v ∈ visited, v ∈ keys) →
      (keys.length - visited.length) * (D + 1) + openSet.length < fuel →
      (aStarLoop nbrs hf sortF start goal pathEv abort fuel openSet visited parent gScore
        count iter).outcome ≠ SOutcome.fuelOut := by
  intro fuel
  induction fuel with
  | zero =>
    intro openSet visited parent gScore count iter hnd hop hvk hlt
    omega
  | succ fuel ih =>
    intro openSet visited parent gScore count iter hnd hop hvk hlt
    rw [aStarLoop]
    cases hsort : sortF openSet with
    | nil =>
      simp
    | cons current rest =>
      dsimp only
      have hperm2 := hperm openSet
      rw [hsort] at hperm2
      have hlen : openSet.length = rest.length + 1 := by
        have := hperm2.length_eq
        simp only [List.length_cons] at this
        omega
      have hsortedmem : ∀ nd : ANode α, nd ∈ current :: rest → nd.pos ∈ keys :=
        fun nd hnd => hop nd (hperm2.mem_iff.mp hnd)
      by_cases habort : abort iter = true
      · rw [if_pos habort]
        simp
      · rw [if_neg habort]
        by_cases hvis : current.pos ∈ visited
        · rw [if_pos hvis]
          dsimp only
          apply ih rest visited parent gScore count (iter + 1) hnd
            (fun nd hnd => hsortedmem nd (List.mem_cons_of_mem current hnd)) hvk
          omega
        · rw [if_neg hvis]
          by_cases hgoal : current.pos = goal
          · rw [if_pos hgoal]
            simp
          · rw [if_neg hgoal]
            dsimp only
            have hndv : (current.pos :: visited).Nodup := List.nodup_cons.mpr ⟨hvis, hnd⟩
            have hvk1 : ∀ v ∈ current.pos :: visited, v ∈ keys := by
              intro v hv
              rcases List.mem_cons.mp hv with rfl | hv
              · exact hsortedmem current (List.mem_cons_self current rest)
              · exact hvk v hv
            apply ih _ _ _ _ _ _ hndv
            · intro nd hnd
              rcases List.mem_append.mp hnd with hnd | hnd
              · exact hsortedmem nd (List.mem_cons_of_mem current hnd)
              · exact hkeys current.pos nd.pos
                  (aStarExpand_pushes_sub hf goal current.pos current.g
                    (current.pos :: visited) (nbrs current.pos) parent gScore nd hnd)
            · exact hvk1
            · have hvK : visited.length + 1 ≤ keys.length :=
                nodup_subset_length hndv hvk1
              have hpl : (aStarExpand hf goal current.pos current.g
                  (current.pos :: visited) (nbrs current.pos) parent
                  gScore).2.2.1.length ≤ D :=
                Nat.le_trans (aStarExpand_pushes_len hf goal current.pos current.g
                  (current.pos :: visited) (nbrs current.pos) parent gScore)
                  (hdeg current.pos)
              have hql : (rest ++ (aStarExpand hf goal current.pos current.g
                  (current.pos :: visited) (nbrs current.pos) parent
                  gScore).2.2.1).length = rest.length + (aStarExpand hf goal current.pos
                  current.g (current.pos :: visited) (nbrs current.pos) parent
                  gScore).2.2.1.length := List.length_append _ _
              have hmul : (keys.length - visited.length) * (D + 1) =
                  (keys.length - (visited.length + 1)) * (D + 1) + (D + 1) := by
                have hstep : keys.length - visited.length =
                    (keys.length - (visited.length + 1)) + 1 := by omega
                rw [hstep, Nat.succ_mul]
              simp only [List.length_cons]
              omega

/-! Instantiation facts: neighbors lie in the finite position universes
and their number is bounded. -/

theorem mem_allPos2_iff (maze : Grid) (q : Pos2) :
    q ∈ allPos2 maze ↔ 0 ≤ q.1 ∧ q.1 < ((maze.headD []).length : Int) ∧ 0 ≤ q.2 ∧
      q.2 < (maze.length : Int) := by
  obtain ⟨qx, qy⟩ := q
  constructor
  · intro h
    rw [allPos2, List.mem_flatMap] at h
    obtain ⟨y, hy, hq⟩ := h
    rw [List.mem_range] at hy
    rw [List.mem_map] at hq
    obtain ⟨x, hx, heq⟩ := hq
    rw [List.mem_range] at hx
    simp only [Prod.mk.injEq] at heq
    obtain ⟨rfl, rfl⟩ := heq
    simp only [Int.ofNat_eq_natCast]
    refine ⟨Int.natCast_nonneg x, ?_, Int.natCast_nonneg y, ?_⟩ <;> omega
  · rintro ⟨hx0, hxw, hy0, hyh⟩
    have hx0 : 0 ≤ qx := hx0
    have hxw : qx < ((maze.headD []).length : Int) := hxw
    have hy0 : 0 ≤ qy := hy0
    have hyh : qy < (maze.length : Int) := hyh
    rw [allPos2, List.mem_flatMap]
    refine ⟨qy.toNat, by rw [List.mem_range]; omega, ?_⟩
    rw [List.mem_map]
    refine ⟨qx.toNat, by rw [List.mem_range]; omega, ?_⟩
    simp only [Int.ofNat_eq_natCast]
    rw [Int.toNat_of_nonneg hx0, Int.toNat_of_nonneg hy0]

theorem getNeighbors2D_sub (maze : Grid) (p q : Pos2) (hq : q ∈ getNeighbors2D p maze) :
    q ∈ allPos2 maze := by
  rw [getNeighbors2D, List.mem_filterMap] at hq
  obtain ⟨d, hd, hcond⟩ := hq
  by_cases hc : 0 ≤ p.2 + d.2 ∧ p.2 + d.2 < (maze.length : Int) ∧ 0 ≤ p.1 + d.1 ∧
      p.1 + d.1 < ((maze.headD []).length : Int) ∧
      cellAt2 maze (p.1 + d.1) (p.2 + d.2) ≠ CELL_WALL
  · rw [if_pos hc] at hcond
    obtain ⟨hy0, hyl, hx0, hxl, _⟩ := hc
    obtain rfl : q = (p.1 + d.1, p.2 + d.2) := by
      simpa using hcond.symm
    exact (mem_allPos2_iff maze _).mpr ⟨hx0, hxl, hy0, hyl⟩
  · rw [if_neg hc] at hcond
    exact absurd hcond (by simp)

theorem getNeighbors2D_len (maze : Grid) (p : Pos2) :
    (getNeighbors2D p maze).length ≤ 4 :=
  List.length_filterMap_le _ _

theorem maxRowLen_headD (layer : Grid) : (layer.headD []).length ≤ maxRowLen layer := by
  cases layer with
  | nil => simp [maxRowLen]
  | cons r rest =>
    simp only [List.headD_cons, maxRowLen, List.map_cons, List.foldr_cons]
    exact Nat.le_max_left _ _

theorem maxRowLen_mem {layer : Grid} {row : List Nat} (h : row ∈ layer) :
    row.length ≤ maxRowLen layer := by
  induction layer with
  | nil => simp at h
  | cons r rest ih =>
    simp only [maxRowLen, List.map_cons, List.foldr_cons]
    rcases List.mem_cons.mp h with rfl | h
    · exact Nat.le_max_left _ _
    · exact Nat.le_trans (ih h) (Nat.le_max_right _ _)

theorem maxRowLen_getD {layer : Grid} {i : Nat} (h : i < layer.length) :
    (layer.getD i []).length ≤ maxRowLen layer := by
  have : layer.getD i [] = layer[i] := by
    rw [List.getD_eq_getElem?_getD, List.getElem?_eq_getElem h]
    rfl
  rw [this]
  exact maxRowLen_mem (List.getElem_mem h)

theorem mem_allPos3_iff (m : Grid3) (q : Pos3) :
    q ∈ allPos3 m ↔ 0 ≤ q.2.2 ∧ q.2.2 < (m.length : Int) ∧ 0 ≤ q.2.1 ∧
      q.2.1 < ((m.getD q.2.2.toNat []).length : Int) ∧ 0 ≤ q.1 ∧
      q.1 < (maxRowLen (m.getD q.2.2.toNat []) : Int) := by
  obtain ⟨qx, qy, qz⟩ := q
  constructor
  · intro h
    rw [allPos3, List.mem_flatMap] at h
    obtain ⟨z, hz, hq⟩ := h
    rw [List.mem_range] at hz
    rw [List.mem_flatMap] at hq
    obtain ⟨y, hy, hq⟩ := hq
    rw [List.mem_range] at hy
    rw [List.mem_map] at hq
    obtain ⟨x, hx, heq⟩ := hq
    rw [List.mem_range] at hx
    simp only [Prod.mk.injEq] at heq
    obtain ⟨rfl, rfl, rfl⟩ := heq
    simp only [Int.ofNat_eq_natCast, Int.toNat_natCast]
    refine ⟨Int.natCast_nonneg z, by omega, Int.natCast_nonneg y, by omega,
      Int.natCast_nonneg x, by omega⟩
  · rintro ⟨hz0, hzl, hy0, hyl, hx0, hxl⟩
    have hz0 : 0 ≤ qz := hz0
    have hzl : qz < (m.length : Int) := hzl
    have hy0 : 0 ≤ qy := hy0
    have hyl : qy < ((m.getD qz.toNat []).length : Int) := hyl
    have hx0 : 0 ≤ qx := hx0
    have hxl : qx < (maxRowLen (m.getD qz.toNat []) : Int) := hxl
    rw [allPos3, List.mem_flatMap]
    refine ⟨qz.toNat, by rw [List.mem_range]; omega, ?_⟩
    rw [List.mem_flatMap]
    refine ⟨qy.toNat, by rw [List.mem_range]; omega, ?_⟩
    rw [List.mem_map]
    refine ⟨qx.toNat, by rw [List.mem_range]; omega, ?_⟩
    simp only [Int.ofNat_eq_natCast]
    rw [Int.toNat_of_nonneg hx0, Int.toNat_of_nonneg hy0, Int.toNat_of_nonneg hz0]

theorem portalScan_bounds (layer : Grid) (v : Nat) (z : Int) (q : Pos3)
    (hq : q ∈ portalScan layer v z) :
    q.2.2 = z ∧ 0 ≤ q.2.1 ∧ q.2.1.toNat < layer.length ∧ 0 ≤ q.1 ∧
      q.1.toNat < (layer.getD q.2.1.toNat []).length := by
  obtain ⟨qx, qy, qz⟩ := q
  simp only [portalScan, List.mem_flatMap, List.mem_filterMap, List.mem_range] at hq
  obtain ⟨ny, hny, nx, hnx, hcond⟩ := hq
  by_cases hc : (layer.getD ny []).getD nx 0 = v
  · rw [if_pos hc] at hcond
    simp only [Option.some.injEq, Prod.mk.injEq] at hcond
    obtain ⟨rfl, rfl, rfl⟩ := hcond
    refine ⟨rfl, Int.ofNat_nonneg ny, ?_, Int.ofNat_nonneg nx, ?_⟩
    · simpa using hny
    · simpa using hnx
  · rw [if_neg hc] at hcond
    exact absurd hcond (by simp)

theorem layerAt_ne_nil {m : Grid3} {z : Int} (h : layerAt m z ≠ []) :
    0 ≤ z ∧ z.toNat < m.length ∧ layerAt m z = m.getD z.toNat [] := by
  rw [layerAt] at h ⊢
  by_cases hz : 0 ≤ z
  · rw [if_pos hz] at h ⊢
    refine ⟨hz, ?_, rfl⟩
    by_contra hge
    rw [getD_out_of_range (Nat.le_of_not_lt hge)] at h
    exact h rfl
  · rw [if_neg hz] at h
    exact absurd rfl h

theorem getNeighbors3D_sub (m : Grid3) (p q : Pos3) (hq : q ∈ getNeighbors3D p m) :
    q ∈ allPos3 m := by
  obtain ⟨px, py, pz⟩ := p
  simp only [getNeighbors3D, List.mem_append] at hq
  rcases hq with (hin | hup) | hdown
  · rw [List.mem_filterMap] at hin
    obtain ⟨d, hd, hcond⟩ := hin
    by_cases hc : 0 ≤ py + d.2 ∧ py + d.2 < ((layerAt m pz).length : Int) ∧
        0 ≤ px + d.1 ∧ px + d.1 < (((layerAt m pz).headD []).length : Int) ∧
        cellAt2 (layerAt m pz) (px + d.1) (py + d.2) ≠ CELL_WALL
    · rw [if_pos hc] at hcond
      obtain ⟨hy0, hyl, hx0, hxl, _⟩ := hc
      obtain rfl : q = (px + d.1, py + d.2, pz) := by simpa using hcond.symm
      have hne : layerAt m pz ≠ [] := by
        intro hnil
        rw [hnil] at hyl
        simp only [List.length_nil, Int.natCast_zero] at hyl
        omega
      obtain ⟨hz0, hzl, heq⟩ := layerAt_ne_nil hne
      have hmax := maxRowLen_headD (layerAt m pz)
      rw [heq] at hyl hxl hmax
      rw [mem_allPos3_iff]
      dsimp only
      exact ⟨hz0, by omega, hy0, hyl, hx0, by omega⟩
    · rw [if_neg hc] at hcond
      exact absurd hcond (by simp)
  · by_cases hc : cellAt2 (layerAt m pz) px py = CELL_PORTAL_UP ∧ 0 ≤ pz + 1 ∧
        (pz + 1).toNat < m.length
    · rw [if_pos hc] at hup
      obtain ⟨_, hz10, hz1l⟩ := hc
      have hb := portalScan_bounds _ _ _ q hup
      obtain ⟨qx, qy, qz⟩ := q
      simp only at hb
      obtain ⟨rfl, hy0, hyl, hx0, hxl⟩ := hb
      have hlay : layerAt m (pz + 1) = m.getD (pz + 1).toNat [] := by
        rw [layerAt, if_pos hz10]
      rw [hlay] at hyl hxl
      have hmax := maxRowLen_getD hyl
      rw [mem_allPos3_iff]
      dsimp only
      exact ⟨hz10, by omega, hy0, by omega, hx0, by omega⟩
    · rw [if_neg hc] at hup
      exact absurd hup (List.not_mem_nil q)
  · by_cases hc : cellAt2 (layerAt m pz) px py = CELL_PORTAL_DOWN ∧ 0 ≤ pz - 1 ∧
        (pz - 1).toNat < m.length
    · rw [if_pos hc] at hdown
      obtain ⟨_, hz10, hz1l⟩ := hc
      have hb := portalScan_bounds _ _ _ q hdown
      obtain ⟨qx, qy, qz⟩ := q
      simp only at hb
      obtain ⟨rfl, hy0, hyl, hx0, hxl⟩ := hb
      have hlay : layerAt m (pz - 1) = m.getD (pz - 1).toNat [] := by
        rw [layerAt, if_pos hz10]
      rw [hlay] at hyl hxl
      have hmax := maxRowLen_getD hyl
      rw [mem_allPos3_iff]
      dsimp only
      exact ⟨hz10, by omega, hy0, by omega, hx0, by omega⟩
    · rw [if_neg hc] at hdown
      exact absurd hdown (List.not_mem_nil q)

/-- Total number of cells of a 3D grid (sum of all row lengths): an
upper bound for any portal scan. -/
def totalCells (m : Grid3) : Nat :=
  (m.map fun layer => (layer.map List.length).sum).sum

theorem getD_mem {β : Type} {l : List β} {k : Nat} (d : β) (h : k < l.length) :
    l.getD k d ∈ l := by
  have heq : l.getD k d = l[k] := by
    rw [List.getD_eq_getElem?_getD, List.getElem?_eq_getElem h]
    rfl
  rw [heq]
  exact List.getElem_mem h

theorem range_getD_map_sum {β : Type} (l : List β) (d : β) (f : β → Nat) :
    ((List.range l.length).map fun i => f (l.getD i d)).sum = (l.map f).sum := by
  induction l with
  | nil => simp
  | cons r rest ih =>
    rw [List.length_cons, List.range_succ_eq_map, List.map_cons, List.map_map,
      List.sum_cons, List.map_cons, List.sum_cons]
    have hcomp : ((fun i => f ((r :: rest).getD i d)) ∘ Nat.succ) =
        fun i => f (rest.getD i d) := by
      funext i
      simp [List.getD_cons_succ]
    rw [hcomp, ih]
    rfl

theorem portalScan_len_le (layer : Grid) (v : Nat) (z : Int) :
    (portalScan layer v z).length ≤ (layer.map List.length).sum := by
  rw [portalScan, List.length_flatMap]
  calc ((List.range layer.length).map (List.length ∘ fun ny =>
          (List.range ((layer.getD ny []).length)).filterMap fun nx =>
            if (layer.getD ny []).getD nx 0 = v then
              some (Int.ofNat nx, Int.ofNat ny, z) else none)).sum ≤
      ((List.range layer.length).map fun ny => (layer.getD ny []).length).sum := by
        apply List.sum_le_sum
        intro i hi
        exact Nat.le_trans (List.length_filterMap_le _ _) (by rw [List.length_range])
    _ = (layer.map List.length).sum := range_getD_map_sum layer [] List.length

theorem le_totalCells {m : Grid3} {layer : Grid} (h : layer ∈ m) :
    (layer.map List.length).sum ≤ totalCells m := by
  rw [totalCells]
  exact List.le_sum_of_mem (List.mem_map_of_mem _ h)

theorem getNeighbors3D_len (m : Grid3) (p : Pos3) :
    (getNeighbors3D p m).length ≤ 4 + totalCells m := by
  obtain ⟨px, py, pz⟩ := p
  simp only [getNeighbors3D]
  rw [List.length_append, List.length_append]
  have h1 : (([((0 : Int), (1 : Int)), (1, 0), (0, -1), (-1, 0)] :
      List (Int × Int)).filterMap fun d =>
        if 0 ≤ py + d.2 ∧ py + d.2 < ((layerAt m pz).length : Int) ∧ 0 ≤ px + d.1 ∧
            px + d.1 < (((layerAt m pz).headD []).length : Int) ∧
            cellAt2 (layerAt m pz) (px + d.1) (py + d.2) ≠ CELL_WALL
        then some (px + d.1, py + d.2, pz) else none).length ≤ 4 :=
    List.length_filterMap_le _ _
  by_cases hcup : cellAt2 (layerAt m pz) px py = CELL_PORTAL_UP ∧ 0 ≤ pz + 1 ∧
      (pz + 1).toNat < m.length
  · rw [if_pos hcup]
    have hdown : ¬(cellAt2 (layerAt m pz) px py = CELL_PORTAL_DOWN ∧ 0 ≤ pz - 1 ∧
        (pz - 1).toNat < m.length) := by
      rintro ⟨hd, _⟩
      rw [hcup.1] at hd
      exact absurd hd (by decide)
    rw [if_neg hdown]
    have h2 := portalScan_len_le (layerAt m (pz + 1)) CELL_PORTAL_DOWN (pz + 1)
    have hmem : layerAt m (pz + 1) ∈ m := by
      rw [layerAt, if_pos hcup.2.1]
      exact getD_mem [] hcup.2.2
    have h3 := le_totalCells hmem
    simp only [List.length_nil]
    omega
  · rw [if_neg hcup]
    by_cases hcdown : cellAt2 (layerAt m pz) px py = CELL_PORTAL_DOWN ∧ 0 ≤ pz - 1 ∧
        (pz - 1).toNat < m.length
    · rw [if_pos hcdown]
      have h2 := portalScan_len_le (layerAt m (pz - 1)) CELL_PORTAL_UP (pz - 1)
      have hmem : layerAt m (pz - 1) ∈ m := by
        rw [layerAt, if_pos hcdown.2.1]
        exact getD_mem [] hcdown.2.2
      have h3 := le_totalCells hmem
      simp only [List.length_nil]
      omega
    · rw [if_neg hcdown]
      simp only [List.length_nil]
      omega

theorem totalCells_le_allPos3 (m : Grid3) : totalCells m ≤ (allPos3 m).length := by
  rw [totalCells, allPos3, List.length_flatMap]
  rw [← range_getD_map_sum m [] fun layer => (layer.map List.length).sum]
  apply List.sum_le_sum
  intro z hz
  have hlen : (List.length ∘ fun z => (List.range ((m.getD z []).length)).flatMap fun y =>
      (List.range (maxRowLen (m.getD z []))).map fun x =>
        (Int.ofNat x, Int.ofNat y, Int.ofNat z)) z =
      (m.getD z []).length * maxRowLen (m.getD z []) := by
    simp only [Function.comp_apply, List.length_flatMap, List.map_map]
    have hconst : ((List.length ∘ fun y => (List.range (maxRowLen (m.getD z []))).map
        fun x => (Int.ofNat x, Int.ofNat y, Int.ofNat z))) =
        fun _ => maxRowLen (m.getD z []) := by
      funext y
      simp
    rw [hconst]
    rw [List.map_const', List.sum_replicate, List.length_range, smul_eq_mul]
  rw [hlen]
  have hrows : ∀ x ∈ (m.getD z []).map List.length, x ≤ maxRowLen (m.getD z []) := by
    intro x hx
    rw [List.mem_map] at hx
    obtain ⟨row, hrow, rfl⟩ := hx
    exact maxRowLen_mem hrow
  have := List.sum_le_card_nsmul ((m.getD z []).map List.length) (maxRowLen (m.getD z []))
    hrows
  simpa [smul_eq_mul] using this

/-- C9: every one of the five search functions terminates on every
finite grid (2D and 3D; 2D A* for every implementation-defined sort
order), for every start/goal pair and any abort signal: the wrappers run
with the computed fuel and never exhaust it — the frontier loop always
ends by frontier exhaustion, goal discovery, or an abort. BFS/DFS/greedy
enqueue each key once; Dijkstra/A* re-enqueue only on a strictly lower
cost, and every push happens while expanding a freshly visited key, so
the total number of insertions is bounded by keys times the degree. -/
theorem c9_termination :
    (∀ (maze : Grid) (s g : Pos2) (abort : Nat → Bool),
      (breadthFirstSearch2D maze s g abort).outcome ≠ SOutcome.fuelOut) ∧
    (∀ (m : Grid3) (s g : Pos3) (abort : Nat → Bool),
      (breadthFirstSearch3D m s g abort).outcome ≠ SOutcome.fuelOut) ∧
    (∀ (maze : Grid) (s g : Pos2) (abort : Nat → Bool),
      (depthFirstSearch2D maze s g abort).outcome ≠ SOutcome.fuelOut) ∧
    (∀ (m : Grid3) (s g : Pos3) (abort : Nat → Bool),
      (depthFirstSearch3D m s g abort).outcome ≠ SOutcome.fuelOut) ∧
    (∀ (maze : Grid) (s g : Pos2) (abort : Nat → Bool),
      (dijkstraSearch2D maze s g abort).outcome ≠ SOutcome.fuelOut) ∧
    (∀ (m : Grid3) (s g : Pos3) (abort : Nat → Bool),
      (dijkstraSearch3D m s g abort).outcome ≠ SOutcome.fuelOut) ∧
    (∀ (sortF : List (ANode Pos2) → List (ANode Pos2)), (∀ l, (sortF l).Perm l) →
      ∀ (maze : Grid) (s g : Pos2) (abort : Nat → Bool),
        (aStarSearch2D sortF maze s g abort).outcome ≠ SOutcome.fuelOut) ∧
    (∀ (m : Grid3) (s g : Pos3) (abort : Nat → Bool),
      (aStarSearch3D m s g abort).outcome ≠ SOutcome.fuelOut) ∧
    (∀ (maze : Grid) (s g : Pos2) (abort : Nat → Bool),
      (greedyBestFirstSearch2D maze s g abort).outcome ≠ SOutcome.fuelOut) ∧
    (∀ (m : Grid3) (s g : Pos3) (abort : Nat → Bool),
      (greedyBestFirstSearch3D m s g abort).outcome ≠ SOutcome.fuelOut) := by
  refine ⟨?_, ?_, ?_, ?_, ?_, ?_, ?_, ?_, ?_, ?_⟩
  · intro maze s g abort
    apply bfsLoop_no_fuelOut _ s g _ abort (s :: allPos2 maze)
      (fun p q hq => List.mem_cons_of_mem s (getNeighbors2D_sub maze p q hq))
    · exact List.nodup_singleton s
    · intro q hq
      exact hq
    · intro v hv
      rcases List.mem_cons.mp hv with rfl | h
      · exact List.mem_cons_self v _
      · simp at h
    · rw [searchFuel2]
      simp only [List.length_cons, List.length_singleton, List.length_nil, Nat.sub_zero]
      omega
  · intro m s g abort
    apply bfsLoop_no_fuelOut _ s g _ abort (s :: allPos3 m)
      (fun p q hq => List.mem_cons_of_mem s (getNeighbors3D_sub m p q hq))
    · exact List.nodup_singleton s
    · intro q hq
      exact hq
    · intro v hv
      rcases List.mem_cons.mp hv with rfl | h
      · exact List.mem_cons_self v _
      · simp at h
    · rw [searchFuel3]
      simp only [List.length_cons, List.length_singleton, List.length_nil, Nat.sub_zero]
      have h2 : ((allPos3 m).length + 1) * 1 ≤ ((allPos3 m).length + 2) *
          ((allPos3 m).length + 6) :=
        Nat.mul_le_mul (by omega) (by omega)
      omega
  · intro maze s g abort
    apply dfsLoop_no_fuelOut _ s g _ abort (s :: allPos2 maze)
      (fun p q hq => List.mem_cons_of_mem s (getNeighbors2D_sub maze p q hq))
    · exact List.nodup_singleton s
    · intro q hq
      exact hq
    · intro v hv
      rcases List.mem_cons.mp hv with rfl | h
      · exact List.mem_cons_self v _
      · simp at h
    · rw [searchFuel2]
      simp only [List.length_cons, List.length_singleton, List.length_nil, Nat.sub_zero]
      omega
  · intro m s g abort
    apply dfsLoop_no_fuelOut _ s g _ abort (s :: allPos3 m)
      (fun p q hq => List.mem_cons_of_mem s (getNeighbors3D_sub m p q hq))
    · exact List.nodup_singleton s
    · intro q hq
      exact hq
    · intro v hv
      rcases List.mem_cons.mp hv with rfl | h
      · exact List.mem_cons_self v _
      · simp at h
    · rw [searchFuel3]
      simp only [List.length_cons, List.length_singleton, List.length_nil, Nat.sub_zero]
      have h2 : ((allPos3 m).length + 1) * 1 ≤ ((allPos3 m).length + 2) *
          ((allPos3 m).length + 6) :=
        Nat.mul_le_mul (by omega) (by omega)
      omega
  · intro maze s g abort
    apply dijkstraLoop_no_fuelOut _ s g _ abort (s :: allPos2 maze)
      (fun p q hq => List.mem_cons_of_mem s (getNeighbors2D_sub maze p q hq)) 4
      (fun p => getNeighbors2D_len maze p)
    · exact List.nodup_nil
    · intro nd hnd
      rcases List.mem_singleton.mp hnd with rfl
      exact List.mem_cons_self s _
    · intro v hv
      simp at hv
    · rw [searchFuel2]
      simp only [List.length_cons, List.length_singleton, List.length_nil, Nat.sub_zero]
      omega
  · intro m s g abort
    apply dijkstraLoop_no_fuelOut _ s g _ abort (s :: allPos3 m)
      (fun p q hq => List.mem_cons_of_mem s (getNeighbors3D_sub m p q hq))
      (4 + totalCells m) (fun p => getNeighbors3D_len m p)
    · exact List.nodup_nil
    · intro nd hnd
      rcases List.mem_singleton.mp hnd with rfl
      exact List.mem_cons_self s _
    · intro v hv
      simp at hv
    · rw [searchFuel3]
      simp only [List.length_cons, List.length_singleton, List.length_nil, Nat.sub_zero]
      have ht := totalCells_le_allPos3 m
      have h1 : ((allPos3 m).length + 1) * (4 + totalCells m + 1) ≤
          ((allPos3 m).length + 1) * ((allPos3 m).length + 5) :=
        Nat.mul_le_mul_left _ (by omega)
      have h2 : ((allPos3 m).length + 1) * ((allPos3 m).length + 5) ≤
          ((allPos3 m).length + 2) * ((allPos3 m).length + 6) :=
        Nat.mul_le_mul (by omega) (by omega)
      omega
  · intro sortF hperm maze s g abort
    apply aStarLoop_no_fuelOut _ _ sortF hperm s g _ abort (s :: allPos2 maze)
      (fun p q hq => List.mem_cons_of_mem s (getNeighbors2D_sub maze p q hq)) 4
      (fun p => getNeighbors2D_len maze p)
    · exact List.nodup_nil
    · intro nd hnd
      rcases List.mem_singleton.mp hnd with rfl
      exact List.mem_cons_self s _
    · intro v hv
      simp at hv
    · rw [searchFuel2]
      simp only [List.length_cons, List.length_singleton, List.length_nil, Nat.sub_zero]
      omega
  · intro m s g abort
    apply aStarLoop_no_fuelOut _ _ _ (fun l => sortByKey_perm ANode.f l) s g _ abort
      (s :: allPos3 m)
      (fun p q hq => List.mem_cons_of_mem s (getNeighbors3D_sub m p q hq))
      (4 + totalCells m) (fun p => getNeighbors3D_len m p)
    · exact List.nodup_nil
    · intro nd hnd
      rcases List.mem_singleton.mp hnd with rfl
      exact List.mem_cons_self s _
    · intro v hv
      simp at hv
    · rw [searchFuel3]
      simp only [List.length_cons, List.length_singleton, List.length_nil, Nat.sub_zero]
      have ht := totalCells_le_allPos3 m
      have h1 : ((allPos3 m).length + 1) * (4 + totalCells m + 1) ≤
          ((allPos3 m).length + 1) * ((allPos3 m).length + 5) :=
        Nat.mul_le_mul_left _ (by omega)
      have h2 : ((allPos3 m).length + 1) * ((allPos3 m).length + 5) ≤
          ((allPos3 m).length + 2) * ((allPos3 m).length + 6) :=
        Nat.mul_le_mul (by omega) (by omega)
      omega
  · intro maze s g abort
    apply greedyLoop_no_fuelOut _ _ s g _ abort (s :: allPos2 maze)
      (fun p q hq => List.mem_cons_of_mem s (getNeighbors2D_sub maze p q hq))
    · exact List.nodup_singleton s
    · intro nd hnd
      rcases List.mem_singleton.mp hnd with rfl
      exact List.mem_singleton.mpr rfl
    · intro v hv
      rcases List.mem_cons.mp hv with rfl | h
      · exact List.mem_cons_self v _
      · simp at h
    · rw [searchFuel2]
      simp only [List.length_cons, List.length_singleton, List.length_nil, Nat.sub_zero]
      omega
  · intro m s g abort
    apply greedyLoop_no_fuelOut _ _ s g _ abort (s :: allPos3 m)
      (fun p q hq => List.mem_cons_of_mem s (getNeighbors3D_sub m p q hq))
    · exact List.nodup_singleton s
    · intro nd hnd
      rcases List.mem_singleton.mp hnd with rfl
      exact List.mem_singleton.mpr rfl
    · intro v hv
      rcases List.mem_cons.mp hv with rfl | h
      · exact List.mem_cons_self v _
      · simp at h
    · rw [searchFuel3]
      simp only [List.length_cons, List.length_singleton, List.length_nil, Nat.sub_zero]
      have h2 : ((allPos3 m).length + 1) * 1 ≤ ((allPos3 m).length + 2) *
          ((allPos3 m).length + 6) :=
        Nat.mul_le_mul (by omega) (by omega)
      omega

/-- Witness for C9 at a concrete maze, start/goal pair and signal. -/
theorem c9_termination_witness :
    (breadthFirstSearch2D c6maze ((1 : Int), (1 : Int)) ((3 : Int), (3 : Int))
      noAbort).outcome ≠ SOutcome.fuelOut ∧
    (aStarSearch2D (sortByKey ANode.f) c6maze ((1 : Int), (1 : Int)) ((3 : Int), (3 : Int))
      noAbort).outcome ≠ SOutcome.fuelOut :=
  ⟨c9_termination.1 c6maze ((1 : Int), (1 : Int)) ((3 : Int), (3 : Int)) noAbort,
   c9_termination.2.2.2.2.2.2.1 (sortByKey ANode.f) (fun l => sortByKey_perm ANode.f l)
     c6maze ((1 : Int), (1 : Int)) ((3 : Int), (3 : Int)) noAbort⟩

/-! ## C5: unreachable goal means a normal failure result

Everything ever enqueued is reachable from the start, so the goal test
never fires; by termination the frontier empties and the loop returns
`{ path: [], success: false }` — a return, not a throw. -/

theorem reach_step {α : Type} {nbrs : α → List α} {start p q : α}
    (hp : Reachable nbrs start p) (hq : q ∈ nbrs p) : Reachable nbrs start q := by
  obtain ⟨n, hn⟩ := hp
  exact ⟨n + 1, NReach.step hn hq⟩

theorem bfsLoop_unreachable {α : Type} [DecidableEq α] (nbrs : α → List α) (start goal : α)
    (pathEv : List α → List (SearchEvent α)) (keys : List α)
    (hkeys : ∀ p q, q ∈ nbrs p → q ∈ keys) (hgu : ¬Reachable nbrs start goal) :
    ∀ (fuel : Nat) (queue visited : List α) (parent : List (α × α)) (count iter : Nat),
      visited.Nodup → (∀ q ∈ queue, q ∈ visited) → (∀ v ∈ visited, v ∈ keys) →
      (∀ q ∈ queue, Reachable nbrs start q) →
      keys.length - visited.length + queue.length < fuel →
      ∃ n, (bfsLoop nbrs start goal pathEv noAbort fuel queue visited parent count
        iter).outcome = SOutcome.ok ⟨[], n, false⟩ := by
  intro fuel
  induction fuel with
  | zero =>
    intro queue visited parent count iter hnd hqv hvk hqr hlt
    omega
  | succ fuel ih =>
    intro queue visited parent count iter hnd hqv hvk hqr hlt
    cases queue with
    | nil =>
      rw [bfsLoop]
      exact ⟨count, rfl⟩
    | cons current rest =>
      rw [bfsLoop]
      rw [if_neg (by simp [noAbort])]
      have hgoal : ¬current = goal := by
        intro h
        exact hgu (h ▸ hqr current (List.mem_cons_self current rest))
      rw [if_neg hgoal]
      dsimp only
      apply ih
      · exact visitExpand_nodup goal current (nbrs current) visited parent hnd
      · intro q hq
        rcases List.mem_append.mp hq with hq | hq
        · exact visitExpand_mono goal current (nbrs current) visited parent q
            (hqv q (List.mem_cons_of_mem current hq))
        · exact visitExpand_pushes_visited goal current (nbrs current) visited parent q hq
      · intro v hv
        rcases visitExpand_visited_src goal current (nbrs current) visited parent v hv
          with h | h
        · exact hvk v h
        · exact hkeys current v h
      · intro q hq
        rcases List.mem_append.mp hq with hq | hq
        · exact hqr q (List.mem_cons_of_mem current hq)
        · exact reach_step (hqr current (List.mem_cons_self current rest))
            (visitExpand_pushes_sub goal current (nbrs current) visited parent q hq)
      · have hlen := visitExpand_length goal current (nbrs current) visited parent
        have hvlen : (visitExpand goal current (nbrs current) visited
            parent).visited.length ≤ keys.length :=
          nodup_subset_length
            (visitExpand_nodup goal current (nbrs current) visited parent hnd)
            (fun v hv => by
              rcases visitExpand_visited_src goal current (nbrs current) visited
                parent v hv with h | h
              · exact hvk v h
              · exact hkeys current v h)
        have hql : (rest ++ (visitExpand goal current (nbrs current) visited
            parent).pushes).length = rest.length + (visitExpand goal current
            (nbrs current) visited parent).pushes.length := List.length_append _ _
        simp only [List.length_cons] at hlt
        omega

theorem dfsLoop_unreachable {α : Type} [DecidableEq α] (nbrs : α → List α) (start goal : α)
    (pathEv : List α → List (SearchEvent α)) (keys : List α)
    (hkeys : ∀ p q, q ∈ nbrs p → q ∈ keys) (hgu : ¬Reachable nbrs start goal) :
    ∀ (fuel : Nat) (stack visited : List α) (parent : List (α × α)) (count iter : Nat),
      visited.Nodup → (∀ q ∈ stack, q ∈ visited) → (∀ v ∈ visited, v ∈ keys) →
      (∀ q ∈ stack, Reachable nbrs start q) →
      keys.length - visited.length + stack.length < fuel →
      ∃ n, (dfsLoop nbrs start goal pathEv noAbort fuel stack visited parent count
        iter).outcome = SOutcome.ok ⟨[], n, false⟩ := by
  intro fuel
  induction fuel with
  | zero =>
    intro stack visited parent count iter hnd hqv hvk hqr hlt
    omega
  | succ fuel ih =>
    intro stack visited parent count iter hnd hqv hvk hqr hlt
    cases stack with
    | nil =>
      rw [dfsLoop]
      exact ⟨count, rfl⟩
    | cons current rest =>
      rw [dfsLoop]
      rw [if_neg (by simp [noAbort])]
      have hgoal : ¬current = goal := by
        intro h
        exact hgu (h ▸ hqr current (List.mem_cons_self current rest))
      rw [if_neg hgoal]
      dsimp only
      apply ih
      · exact visitExpand_nodup goal current (nbrs current) visited parent hnd
      · intro q hq
        rcases List.mem_append.mp hq with hq | hq
        · exact visitExpand_pushes_visited goal current (nbrs current) visited parent q
            (List.mem_reverse.mp hq)
        · exact visitExpand_mono goal current (nbrs current) visited parent q
            (hqv q (List.mem_cons_of_mem current hq))
      · intro v hv
        rcases visitExpand_visited_src goal current (nbrs current) visited parent v hv
          with h | h
        · exact hvk v h
        · exact hkeys current v h
      · intro q hq
        rcases List.mem_append.mp hq with hq | hq
        · exact reach_step (hqr current (List.mem_cons_self current rest))
            (visitExpand_pushes_sub goal current (nbrs current) visited parent q
              (List.mem_reverse.mp hq))
        · exact hqr q (List.mem_cons_of_mem current hq)
      · have hlen := visitExpand_length goal current (nbrs current) visited parent
        have hvlen : (visitExpand goal current (nbrs current) visited
            parent).visited.length ≤ keys.length :=
          nodup_subset_length
            (visitExpand_nodup goal current (nbrs current) visited parent hnd)
            (fun v hv => by
              rcases visitExpand_visited_src goal current (nbrs current) visited
                parent v hv with h | h
              · exact hvk v h
              · exact hkeys current v h)
        have hql : ((visitExpand goal current (nbrs current) visited
            parent).pushes.reverse ++ rest).length = (visitExpand goal current
            (nbrs current) visited parent).pushes.length + rest.length := by
          rw [List.length_append, List.length_reverse]
        simp only [List.length_cons] at hlt
        omega

theorem greedyLoop_unreachable {α : Type} [DecidableEq α] (nbrs : α → List α)
    (hf : α → Nat) (start goal : α) (pathEv : List α → List (SearchEvent α))
    (keys : List α) (hkeys : ∀ p q, q ∈ nbrs p → q ∈ keys)
    (hgu : ¬Reachable nbrs start goal) :
    ∀ (fuel : Nat) (openSet : List (GNode α)) (visited : List α) (parent : List (α × α))
      (count iter : Nat),
      visited.Nodup → (∀ nd ∈ openSet, nd.pos ∈ visited) → (∀ v ∈ visited, v ∈ keys) →
      (∀ nd ∈ openSet, Reachable nbrs start nd.pos) →
      keys.length - visited.length + openSet.length < fuel →
      ∃ n, (greedyLoop nbrs hf start goal pathEv noAbort fuel openSet visited parent count
        iter).outcome = SOutcome.ok ⟨[], n, false⟩ := by
  intro fuel
  induction fuel with
  | zero =>
    intro openSet visited parent count iter hnd hqv hvk hqr hlt
    omega
  | succ fuel ih =>
    intro openSet visited parent count iter hnd hqv hvk hqr hlt
    rw [greedyLoop]
    cases hsort : sortByKey GNode.h openSet with
    | nil =>
      exact ⟨count, rfl⟩
    | cons current rest =>
      dsimp only
      have hperm := sortByKey_perm GNode.h openSet
      rw [hsort] at hperm
      have hlen : openSet.length = rest.length + 1 := by
        have := hperm.length_eq
        simp only [List.length_cons] at this
        omega
      have hsortedmem : ∀ nd : GNode α, nd ∈ current :: rest → nd ∈ openSet :=
        fun nd hnd => hperm.mem_iff.mp hnd
      rw [if_neg (by simp [noAbort])]
      have hgoal : ¬current.pos = goal := by
        intro h
        exact hgu (h ▸ hqr current (hsortedmem current (List.mem_cons_self current rest)))
      rw [if_neg hgoal]
      dsimp only
      apply ih
      · exact greedyExpand_nodup hf goal current.pos (nbrs current.pos) visited parent hnd
      · intro nd hnd
        rcases List.mem_append.mp hnd with hnd | hnd
        · exact greedyExpand_mono hf goal current.pos (nbrs current.pos) visited parent
            nd.pos (hqv nd (hsortedmem nd (List.mem_cons_of_mem current hnd)))
        · exact greedyExpand_pushes_visited hf goal current.pos (nbrs current.pos)
            visited parent nd hnd
      · intro v hv
        rcases greedyExpand_visited_src hf goal current.pos (nbrs current.pos) visited
          parent v hv with h | h
        · exact hvk v h
        · exact hkeys current.pos v h
      · intro nd hnd
        rcases List.mem_append.mp hnd with hnd | hnd
        · exact hqr nd (hsortedmem nd (List.mem_cons_of_mem current hnd))
        · exact reach_step
            (hqr current (hsortedmem current (List.mem_cons_self current rest)))
            (greedyExpand_pushes_sub hf goal current.pos (nbrs current.pos) visited
              parent nd hnd)
      · have hglen := greedyExpand_length hf goal current.pos (nbrs current.pos) visited
          parent
        have hvlen : (greedyExpand hf goal current.pos (nbrs current.pos) visited
            parent).1.length ≤ keys.length :=
          nodup_subset_length
            (greedyExpand_nodup hf goal current.pos (nbrs current.pos) visited parent hnd)
            (fun v hv => by
              rcases greedyExpand_visited_src hf goal current.pos (nbrs current.pos)
                visited parent v hv with h | h
              · exact hvk v h
              · exact hkeys current.pos v h)
        have hql : (rest ++ (greedyExpand hf goal current.pos (nbrs current.pos) visited
            parent).2.2.1).length = rest.length + (greedyExpand hf goal current.pos
            (nbrs current.pos) visited parent).2.2.1.length := List.length_append _ _
        omega

theorem dijkstraLoop_unreachable {α : Type} [DecidableEq α] (nbrs : α → List α)
    (start goal : α) (pathEv : List α → List (SearchEvent α)) (keys : List α)
    (hkeys : ∀ p q, q ∈ nbrs p → q ∈ keys) (D : Nat) (hdeg : ∀ p, (nbrs p).length ≤ D)
    (hgu : ¬Reachable nbrs start goal) :
    ∀ (fuel : Nat) (openSet : List (DNode α)) (visited : List α) (parent : List (α × α))
      (costMap : List (α × Nat)) (count iter : Nat),
      visited.Nodup → (∀ nd ∈ openSet, nd.pos ∈ keys) → (∀ v ∈ visited, v ∈ keys) →
      (∀ nd ∈ openSet, Reachable nbrs start nd.pos) →
      (keys.length - visited.length) * (D + 1) + openSet.length < fuel →
      ∃ n, (dijkstraLoop nbrs start goal pathEv noAbort fuel openSet visited parent
        costMap count iter).outcome = SOutcome.ok ⟨[], n, false⟩ := by
  intro fuel
  induction fuel with
  | zero =>
    intro openSet visited parent costMap count iter hnd hop hvk hqr hlt
    omega
  | succ fuel ih =>
    intro openSet visited parent costMap count iter hnd hop hvk hqr hlt
    rw [dijkstraLoop]
    cases hsort : sortByKey DNode.cost openSet with
    | nil =>
      exact ⟨count, rfl⟩
    | cons current rest =>
      dsimp only
      have hperm := sortByKey_perm DNode.cost openSet
      rw [hsort] at hperm
      have hlen : openSet.length = rest.length + 1 := by
        have := hperm.length_eq
        simp only [List.length_cons] at this
        omega
      have hsortedmem : ∀ nd : DNode α, nd ∈ current :: rest → nd ∈ openSet :=
        fun nd hnd => hperm.mem_iff.mp hnd
      rw [if_neg (by simp [noAbort])]
      by_cases hvis : current.pos ∈ visited
      · rw [if_pos hvis]
        dsimp only
        apply ih rest visited parent costMap count (iter + 1) hnd
          (fun nd hnd => hop nd (hsortedmem nd (List.mem_cons_of_mem current hnd))) hvk
          (fun nd hnd => hqr nd (hsortedmem nd (List.mem_cons_of_mem current hnd)))
        omega
      · rw [if_neg hvis]
        have hgoal : ¬current.pos = goal := by
          intro h
          exact hgu (h ▸ hqr current (hsortedmem current (List.mem_cons_self current
            rest)))
        rw [if_neg hgoal]
        dsimp only
        have hndv : (current.pos :: visited).Nodup := List.nodup_cons.mpr ⟨hvis, hnd⟩
        have hvk1 : ∀ v ∈ current.pos :: visited, v ∈ keys := by
          intro v hv
          rcases List.mem_cons.mp hv with rfl | hv
          · exact hop current (hsortedmem current (List.mem_cons_self current rest))
          · exact hvk v hv
        apply ih _ _ _ _ _ _ hndv
        · intro nd hnd
          rcases List.mem_append.mp hnd with hnd | hnd
          · exact hop nd (hsortedmem nd (List.mem_cons_of_mem current hnd))
          · exact hkeys current.pos nd.pos
              (dijkstraExpand_pushes_sub goal current.pos current.cost
                (current.pos :: visited) (nbrs current.pos) parent costMap nd hnd)
        · exact hvk1
        · intro nd hnd
          rcases List.mem_append.mp hnd with hnd | hnd
          · exact hqr nd (hsortedmem nd (List.mem_cons_of_mem current hnd))
          · exact reach_step
              (hqr current (hsortedmem current (List.mem_cons_self current rest)))
              (dijkstraExpand_pushes_sub goal current.pos current.cost
                (current.pos :: visited) (nbrs current.pos) parent costMap nd hnd)
        · have hvK : visited.length + 1 ≤ keys.length := nodup_subset_length hndv hvk1
          have hpl : (dijkstraExpand goal current.pos current.cost
              (current.pos :: visited) (nbrs current.pos) parent
              costMap).2.2.1.length ≤ D :=
            Nat.le_trans (dijkstraExpand_pushes_len goal current.pos current.cost
              (current.pos :: visited) (nbrs current.pos) parent costMap)
              (hdeg current.pos)
          have hql : (rest ++ (dijkstraExpand goal current.pos current.cost
              (current.pos :: visited) (nbrs current.pos) parent
              costMap).2.2.1).length = rest.length + (dijkstraExpand goal current.pos
              current.cost (current.pos :: visited) (nbrs current.pos) parent
              costMap).2.2.1.length := List.length_append _ _
          have hmul : (keys.length - visited.length) * (D + 1) =
              (keys.length - (visited.length + 1)) * (D + 1) + (D + 1) := by
            have hstep : keys.length - visited.length =
                (keys.length - (visited.length + 1)) + 1 := by omega
            rw [hstep, Nat.succ_mul]
          simp only [List.length_cons]
          omega

theorem aStarLoop_unreachable {α : Type} [DecidableEq α] (nbrs : α → List α)
    (hf : α → Nat) (sortF : List (ANode α) → List (ANode α))
    (hperm : ∀ l, (sortF l).Perm l) (start goal : α)
    (pathEv : List α → List (SearchEvent α)) (keys : List α)
    (hkeys : ∀ p q, q ∈ nbrs p → q ∈ keys) (D : Nat) (hdeg : ∀ p, (nbrs p).length ≤ D)
    (hgu : ¬Reachable nbrs start goal) :
    ∀ (fuel : Nat) (openSet : List (ANode α)) (visited : List α) (parent : List (α × α))
      (gScore : List (α × Nat)) (count iter : Nat),
      visited.Nodup → (∀ nd ∈ openSet, nd.pos ∈ keys) → (∀ v ∈ visited, v ∈ keys) →
      (∀ nd ∈ openSet, Reachable nbrs start nd.pos) →
      (keys.length - visited.length) * (D + 1) + openSet.length < fuel →
      ∃ n, (aStarLoop nbrs hf sortF start goal pathEv noAbort fuel openSet visited parent
        gScore count iter).outcome = SOutcome.ok ⟨[], n, false⟩ := by
  intro fuel
  induction fuel with
  | zero =>
    intro openSet visited parent gScore count iter hnd hop hvk hqr hlt
    omega
  | succ fuel ih =>
    intro openSet visited parent gScore count iter hnd hop hvk hqr hlt
    rw [aStarLoop]
    cases hsort : sortF openSet with
    | nil =>
      exact ⟨count, rfl⟩
    | cons current rest =>
      dsimp only
      have hperm2 := hperm openSet
      rw [hsort] at hperm2
      have hlen : openSet.length = rest.length + 1 := by
        have := hperm2.length_eq
        simp only [List.length_cons] at this
        omega
      have hsortedmem : ∀ nd : ANode α, nd ∈ current :: rest → nd ∈ openSet :=
        fun nd hnd => hperm2.mem_iff.mp hnd
      rw [if_neg (by simp [noAbort])]
      by_cases hvis : current.pos ∈ visited
      · rw [if_pos hvis]
        dsimp only
        apply ih rest visited parent gScore count (iter + 1) hnd
          (fun nd hnd => hop nd (hsortedmem nd (List.mem_cons_of_mem current hnd))) hvk
          (fun nd hnd => hqr nd (hsortedmem nd (List.mem_cons_of_mem current hnd)))
        omega
      · rw [if_neg hvis]
        have hgoal : ¬current.pos = goal := by
          intro h
          exact hgu (h ▸ hqr current (hsortedmem current (List.mem_cons_self current
            rest)))
        rw [if_neg hgoal]
        dsimp only
        have hndv : (current.pos :: visited).Nodup := List.nodup_cons.mpr ⟨hvis, hnd⟩
        have hvk1 : ∀ v ∈ current.pos :: visited, v ∈ keys := by
          intro v hv
          rcases List.mem_cons.mp hv with rfl | hv
          · exact hop current (hsortedmem current (List.mem_cons_self current rest))
          · exact hvk v hv
        apply ih _ _ _ _ _ _ hndv
        · intro nd hnd
          rcases List.mem_append.mp hnd with hnd | hnd
          · exact hop nd (hsortedmem nd (List.mem_cons_of_mem current hnd))
          · exact hkeys current.pos nd.pos
              (aStarExpand_pushes_sub hf goal current.pos current.g
                (current.pos :: visited) (nbrs current.pos) parent gScore nd hnd)
        · exact hvk1
        · intro nd hnd
          rcases List.mem_append.mp hnd with hnd | hnd
          · exact hqr nd (hsortedmem nd (List.mem_cons_of_mem current hnd))
          · exact reach_step
              (hqr current (hsortedmem current (List.mem_cons_self current rest)))
              (aStarExpand_pushes_sub hf goal current.pos current.g
                (current.pos :: visited) (nbrs current.pos) parent gScore nd hnd)
        · have hvK : visited.length + 1 ≤ keys.length := nodup_subset_length hndv hvk1
          have hpl : (aStarExpand hf goal current.pos current.g (current.pos :: visited)
              (nbrs current.pos) parent gScore).2.2.1.length ≤ D :=
            Nat.le_trans (aStarExpand_pushes_len hf goal current.pos current.g
              (current.pos :: visited) (nbrs current.pos) parent gScore)
              (hdeg current.pos)
          have hql : (rest ++ (aStarExpand hf goal current.pos current.g
              (current.pos :: visited) (nbrs current.pos) parent
              gScore).2.2.1).length = rest.length + (aStarExpand hf goal current.pos
              current.g (current.pos :: visited) (nbrs current.pos) parent
              gScore).2.2.1.length := List.length_append _ _
          have hmul : (keys.length - visited.length) * (D + 1) =
              (keys.length - (visited.length + 1)) * (D + 1) + (D + 1) := by
            have hstep : keys.length - visited.length =
                (keys.length - (visited.length + 1)) + 1 := by omega
            rw [hstep, Nat.succ_mul]
          simp only [List.length_cons]
          omega

/-- C5: on every grid — synthetic ones included — in which the goal is
not reachable from the start through the neighbor relation, every one of
the five search functions (2D and 3D; 2D A* for every
implementation-defined sort order) returns normally, with `success =
false` and an empty path: no abort, no fuel exhaustion, no exception. -/
theorem c5_unreachable_failure :
    (∀ (maze : Grid) (s g : Pos2),
      ¬Reachable (fun p => getNeighbors2D p maze) s g →
      ∃ n, (breadthFirstSearch2D maze s g noAbort).outcome =
        SOutcome.ok ⟨[], n, false⟩) ∧
    (∀ (m : Grid3) (s g : Pos3),
      ¬Reachable (fun p => getNeighbors3D p m) s g →
      ∃ n, (breadthFirstSearch3D m s g noAbort).outcome = SOutcome.ok ⟨[], n, false⟩) ∧
    (∀ (maze : Grid) (s g : Pos2),
      ¬Reachable (fun p => getNeighbors2D p maze) s g →
      ∃ n, (depthFirstSearch2D maze s g noAbort).outcome = SOutcome.ok ⟨[], n, false⟩) ∧
    (∀ (m : Grid3) (s g : Pos3),
      ¬Reachable (fun p => getNeighbors3D p m) s g →
      ∃ n, (depthFirstSearch3D m s g noAbort).outcome = SOutcome.ok ⟨[], n, false⟩) ∧
    (∀ (maze : Grid) (s g : Pos2),
      ¬Reachable (fun p => getNeighbors2D p maze) s g →
      ∃ n, (dijkstraSearch2D maze s g noAbort).outcome = SOutcome.ok ⟨[], n, false⟩) ∧
    (∀ (m : Grid3) (s g : Pos3),
      ¬Reachable (fun p => getNeighbors3D p m) s g →
      ∃ n, (dijkstraSearch3D m s g noAbort).outcome = SOutcome.ok ⟨[], n, false⟩) ∧
    (∀ (sortF : List (ANode Pos2) → List (ANode Pos2)), (∀ l, (sortF l).Perm l) →
      ∀ (maze : Grid) (s g : Pos2),
      ¬Reachable (fun p => getNeighbors2D p maze) s g →
      ∃ n, (aStarSearch2D sortF maze s g noAbort).outcome =
        SOutcome.ok ⟨[], n, false⟩) ∧
    (∀ (m : Grid3) (s g : Pos3),
      ¬Reachable (fun p => getNeighbors3D p m) s g →
      ∃ n, (aStarSearch3D m s g noAbort).outcome = SOutcome.ok ⟨[], n, false⟩) ∧
    (∀ (maze : Grid) (s g : Pos2),
      ¬Reachable (fun p => getNeighbors2D p maze) s g →
      ∃ n, (greedyBestFirstSearch2D maze s g noAbort).outcome =
        SOutcome.ok ⟨[], n, false⟩) ∧
    (∀ (m : Grid3) (s g : Pos3),
      ¬Reachable (fun p => getNeighbors3D p m) s g →
      ∃ n, (greedyBestFirstSearch3D m s g noAbort).outcome =
        SOutcome.ok ⟨[], n, false⟩) := by
  refine ⟨?_, ?_, ?_, ?_, ?_, ?_, ?_, ?_, ?_, ?_⟩
  · intro maze s g hgu
    apply bfsLoop_unreachable _ s g _ (s :: allPos2 maze)
      (fun p q hq => List.mem_cons_of_mem s (getNeighbors2D_sub maze p q hq)) hgu
    · exact List.nodup_singleton s
    · intro q hq
      exact hq
    · intro v hv
      rcases List.mem_cons.mp hv with rfl | h
      · exact List.mem_cons_self v _
      · simp at h
    · intro q hq
      rcases List.mem_singleton.mp hq with rfl
      exact ⟨0, NReach.refl⟩
    · rw [searchFuel2]
      simp only [List.length_cons, List.length_singleton, List.length_nil, Nat.sub_zero]
      omega
  · intro m s g hgu
    apply bfsLoop_unreachable _ s g _ (s :: allPos3 m)
      (fun p q hq => List.mem_cons_of_mem s (getNeighbors3D_sub m p q hq)) hgu
    · exact List.nodup_singleton s
    · intro q hq
      exact hq
    · intro v hv
      rcases List.mem_cons.mp hv with rfl | h
      · exact List.mem_cons_self v _
      · simp at h
    · intro q hq
      rcases List.mem_singleton.mp hq with rfl
      exact ⟨0, NReach.refl⟩
    · rw [searchFuel3]
      simp only [List.length_cons, List.length_singleton, List.length_nil, Nat.sub_zero]
      have h2 : ((allPos3 m).length + 1) * 1 ≤ ((allPos3 m).length + 2) *
          ((allPos3 m).length + 6) :=
        Nat.mul_le_mul (by omega) (by omega)
      omega
  · intro maze s g hgu
    apply dfsLoop_unreachable _ s g _ (s :: allPos2 maze)
      (fun p q hq => List.mem_cons_of_mem s (getNeighbors2D_sub maze p q hq)) hgu
    · exact List.nodup_singleton s
    · intro q hq
      exact hq
    · intro v hv
      rcases List.mem_cons.mp hv with rfl | h
      · exact List.mem_cons_self v _
      · simp at h
    · intro q hq
      rcases List.mem_singleton.mp hq with rfl
      exact ⟨0, NReach.refl⟩
    · rw [searchFuel2]
      simp only [List.length_cons, List.length_singleton, List.length_nil, Nat.sub_zero]
      omega
  · intro m s g hgu
    apply dfsLoop_unreachable _ s g _ (s :: allPos3 m)
      (fun p q hq => List.mem_cons_of_mem s (getNeighbors3D_sub m p q hq)) hgu
    · exact List.nodup_singleton s
    · intro q hq
      exact hq
    · intro v hv
      rcases List.mem_cons.mp hv with rfl | h
      · exact List.mem_cons_self v _
      · simp at h
    · intro q hq
      rcases List.mem_singleton.mp hq with rfl
      exact ⟨0, NReach.refl⟩
    · rw [searchFuel3]
      simp only [List.length_cons, List.length_singleton, List.length_nil, Nat.sub_zero]
      have h2 : ((allPos3 m).length + 1) * 1 ≤ ((allPos3 m).length + 2) *
          ((allPos3 m).length + 6) :=
        Nat.mul_le_mul (by omega) (by omega)
      omega
  · intro maze s g hgu
    apply dijkstraLoop_unreachable _ s g _ (s :: allPos2 maze)
      (fun p q hq => List.mem_cons_of_mem s (getNeighbors2D_sub maze p q hq)) 4
      (fun p => getNeighbors2D_len maze p) hgu
    · exact List.nodup_nil
    · intro nd hnd
      rcases List.mem_singleton.mp hnd with rfl
      exact List.mem_cons_self s _
    · intro v hv
      simp at hv
    · intro nd hnd
      rcases List.mem_singleton.mp hnd with rfl
      exact ⟨0, NReach.refl⟩
    · rw [searchFuel2]
      simp only [List.length_cons, List.length_singleton, List.length_nil, Nat.sub_zero]
      omega
  · intro m s g hgu
    apply dijkstraLoop_unreachable _ s g _ (s :: allPos3 m)
      (fun p q hq => List.mem_cons_of_mem s (getNeighbors3D_sub m p q hq))
      (4 + totalCells m) (fun p => getNeighbors3D_len m p) hgu
    · exact List.nodup_nil
    · intro nd hnd
      rcases List.mem_singleton.mp hnd with rfl
      exact List.mem_cons_self s _
    · intro v hv
      simp at hv
    · intro nd hnd
      rcases List.mem_singleton.mp hnd with rfl
      exact ⟨0, NReach.refl⟩
    · rw [searchFuel3]
      simp only [List.length_cons, List.length_singleton, List.length_nil, Nat.sub_zero]
      have ht := totalCells_le_allPos3 m
      have h1 : ((allPos3 m).length + 1) * (4 + totalCells m + 1) ≤
          ((allPos3 m).length + 1) * ((allPos3 m).length + 5) :=
        Nat.mul_le_mul_left _ (by omega)
      have h2 : ((allPos3 m).length + 1) * ((allPos3 m).length + 5) ≤
          ((allPos3 m).length + 2) * ((allPos3 m).length + 6) :=
        Nat.mul_le_mul (by omega) (by omega)
      omega
  · intro sortF hperm maze s g hgu
    apply aStarLoop_unreachable _ _ sortF hperm s g _ (s :: allPos2 maze)
      (fun p q hq => List.mem_cons_of_mem s (getNeighbors2D_sub maze p q hq)) 4
      (fun p => getNeighbors2D_len maze p) hgu
    · exact List.nodup_nil
    · intro nd hnd
      rcases List.mem_singleton.mp hnd with rfl
      exact List.mem_cons_self s _
    · intro v hv
      simp at hv
    · intro nd hnd
      rcases List.mem_singleton.mp hnd with rfl
      exact ⟨0, NReach.refl⟩
    · rw [searchFuel2]
      simp only [List.length_cons, List.length_singleton, List.length_nil, Nat.sub_zero]
      omega
  · intro m s g hgu
    apply aStarLoop_unreachable _ _ _ (fun l => sortByKey_perm ANode.f l) s g _
      (s :: allPos3 m)
      (fun p q hq => List.mem_cons_of_mem s (getNeighbors3D_sub m p q hq))
      (4 + totalCells m) (fun p => getNeighbors3D_len m p) hgu
    · exact List.nodup_nil
    · intro nd hnd
      rcases List.mem_singleton.mp hnd with rfl
      exact List.mem_cons_self s _
    · intro v hv
      simp at hv
    · intro nd hnd
      rcases List.mem_singleton.mp hnd with rfl
      exact ⟨0, NReach.refl⟩
    · rw [searchFuel3]
      simp only [List.length_cons, List.length_singleton, List.length_nil, Nat.sub_zero]
      have ht := totalCells_le_allPos3 m
      have h1 : ((allPos3 m).length + 1) * (4 + totalCells m + 1) ≤
          ((allPos3 m).length + 1) * ((allPos3 m).length + 5) :=
        Nat.mul_le_mul_left _ (by omega)
      have h2 : ((allPos3 m).length + 1) * ((allPos3 m).length + 5) ≤
          ((allPos3 m).length + 2) * ((allPos3 m).length + 6) :=
        Nat.mul_le_mul (by omega) (by omega)
      omega
  · intro maze s g hgu
    apply greedyLoop_unreachable _ _ s g _ (s :: allPos2 maze)
      (fun p q hq => List.mem_cons_of_mem s (getNeighbors2D_sub maze p q hq)) hgu
    · exact List.nodup_singleton s
    · intro nd hnd
      rcases List.mem_singleton.mp hnd with rfl
      exact List.mem_singleton.mpr rfl
    · intro v hv
      rcases List.mem_cons.mp hv with rfl | h
      · exact List.mem_cons_self v _
      · simp at h
    · intro nd hnd
      rcases List.mem_singleton.mp hnd with rfl
      exact ⟨0, NReach.refl⟩
    · rw [searchFuel2]
      simp only [List.length_cons, List.length_singleton, List.length_nil, Nat.sub_zero]
      omega
  · intro m s g hgu
    apply greedyLoop_unreachable _ _ s g _ (s :: allPos3 m)
      (fun p q hq => List.mem_cons_of_mem s (getNeighbors3D_sub m p q hq)) hgu
    · exact List.nodup_singleton s
    · intro nd hnd
      rcases List.mem_singleton.mp hnd with rfl
      exact List.mem_singleton.mpr rfl
    · intro v hv
      rcases List.mem_cons.mp hv with rfl | h
      · exact List.mem_cons_self v _
      · simp at h
    · intro nd hnd
      rcases List.mem_singleton.mp hnd with rfl
      exact ⟨0, NReach.refl⟩
    · rw [searchFuel3]
      simp only [List.length_cons, List.length_singleton, List.length_nil, Nat.sub_zero]
      have h2 : ((allPos3 m).length + 1) * 1 ≤ ((allPos3 m).length + 2) *
          ((allPos3 m).length + 6) :=
        Nat.mul_le_mul (by omega) (by omega)
      omega

theorem reach_isolated {α : Type} (nbrs : α → List α) (s : α) (h : nbrs s = []) :
    ∀ (n : Nat) (p : α), NReach nbrs s n p → p = s := by
  intro n p hr
  induction hr with
  | refl => rfl
  | step hr hq ih =>
    rw [ih] at hq
    rw [h] at hq
    exact absurd hq (List.not_mem_nil _)

/-- A maze with two open cells in separate components. -/
def c5maze : Grid := [[1, 1, 1, 1, 1], [1, 2, 1, 2, 1], [1, 1, 1, 1, 1]]

/-- Witness for C5: on `c5maze` the goal `(3,1)` is walled off from the
start `(1,1)` (whose neighbor list is empty), and BFS returns the
failure result. -/
theorem c5_unreachable_failure_witness :
    ∃ n, (breadthFirstSearch2D c5maze ((1 : Int), (1 : Int)) ((3 : Int), (1 : Int))
      noAbort).outcome = SOutcome.ok ⟨[], n, false⟩ :=
  c5_unreachable_failure.1 c5maze ((1 : Int), (1 : Int)) ((3 : Int), (1 : Int))
    (by
      rintro ⟨n, hr⟩
      have hnil : getNeighbors2D ((1 : Int), (1 : Int)) c5maze = [] := by decide
      have := reach_isolated (fun p => getNeighbors2D p c5maze) ((1 : Int), (1 : Int))
        hnil n ((3 : Int), (1 : Int)) hr
      exact absurd this (by decide))

/-! ## Shortest distances

`IsShortest nbrs start p k` (defined above) states that `k` is the exact
number of edges of a shortest walk from `start` to `p`. The lemmas below
are the basic facts used by the BFS and Dijkstra optimality proofs. -/

theorem nreach_zero {α : Type} (nbrs : α → List α) (start p : α)
    (h : NReach nbrs start 0 p) : p = start := by
  cases h
  rfl

theorem nreach_succ_inv {α : Type} {nbrs : α → List α} {start p : α} {n : Nat}
    (h : NReach nbrs start (n + 1) p) : ∃ q, NReach nbrs start n q ∧ p ∈ nbrs q := by
  cases h with
  | step hq hmem => exact ⟨_, hq, hmem⟩

theorem shortest_unique {α : Type} {nbrs : α → List α} {start p : α} {a b : Nat}
    (ha : IsShortest nbrs start p a) (hb : IsShortest nbrs start p b) : a = b :=
  Nat.le_antisymm (ha.2 b hb.1) (hb.2 a ha.1)

theorem shortest_start {α : Type} (nbrs : α → List α) (start : α) :
    IsShortest nbrs start start 0 :=
  ⟨NReach.refl, fun m _ => Nat.zero_le m⟩

theorem exists_shortest {α : Type} {nbrs : α → List α} {start p : α}
    (h : Reachable nbrs start p) : ∃ k, IsShortest nbrs start p k := by
  classical
  obtain ⟨n, hn⟩ := h
  have hex : ∃ m, NReach nbrs start m p := ⟨n, hn⟩
  refine ⟨Nat.find hex, Nat.find_spec hex, ?_⟩
  intro m hm
  exact Nat.find_min' hex hm

theorem shortest_pred {α : Type} {nbrs : α → List α} {start p : α} {j : Nat}
    (hp : IsShortest nbrs start p (j + 1)) :
    ∃ pr, p ∈ nbrs pr ∧ IsShortest nbrs start pr j := by
  obtain ⟨pr, hpr, hmem⟩ := nreach_succ_inv hp.1
  obtain ⟨j', hj'⟩ := exists_shortest ⟨j, hpr⟩
  have hle : j' ≤ j := hj'.2 j hpr
  have hge : j ≤ j' := by
    have hwalk : NReach nbrs start (j' + 1) p := NReach.step hj'.1 hmem
    have := hp.2 (j' + 1) hwalk
    omega
  have : j' = j := Nat.le_antisymm hle hge
  subst this
  exact ⟨pr, hmem, hj'⟩

/-! ## Parent-map chains

`DChainV nbrs start parent visited k p`: the parent map contains a chain
of `k` pointer steps from `p` down to `start`, every node along it (except
possibly `p` itself) is in `visited`, and the node at depth `j` from
`start` lies at shortest distance exactly `j`. Such a chain is what
`reconstructPath` unwinds into a path of `k + 1` positions. -/

inductive DChainV {α : Type} [DecidableEq α] (nbrs : α → List α) (start : α)
    (parent : List (α × α)) (visited : List α) : Nat → α → Prop
  | zero : DChainV nbrs start parent visited 0 start
  | succ {k : Nat} {p q : α} : p ≠ start → IsShortest nbrs start p (k + 1) →
      alookup parent p = some q → q ∈ visited → DChainV nbrs start parent visited k q →
      DChainV nbrs start parent visited (k + 1) p

theorem alookup_isSome_mem {α β : Type} [DecidableEq α] :
    ∀ (l : List (α × β)) (x : α), (alookup l x).isSome = true → x ∈ l.map Prod.fst := by
  intro l
  induction l with
  | nil => intro x hx; simp [alookup] at hx
  | cons e rest ih =>
    intro x hx
    rw [alookup] at hx
    by_cases he : e.1 = x
    · exact List.mem_map.mpr ⟨e, List.mem_cons_self e rest, he⟩
    · rw [if_neg he] at hx
      exact List.mem_cons_of_mem _ (ih x hx)

theorem dchainv_nodes {α : Type} [DecidableEq α] {nbrs : α → List α} {start : α}
    {parent : List (α × α)} {visited : List α} {k : Nat} {p : α}
    (h : DChainV nbrs start parent visited k p) :
    ∃ l : List α, l.length = k ∧ l.Nodup ∧
      (∀ x ∈ l, (alookup parent x).isSome = true) ∧
      (∀ x ∈ l, ∃ j, 1 ≤ j ∧ j ≤ k ∧ IsShortest nbrs start x j) := by
  induction h with
  | zero => exact ⟨[], rfl, List.nodup_nil, by simp, by simp⟩
  | succ hps hsp hlk hqv hch ih =>
    obtain ⟨l, hlen, hnd, hsome, hdist⟩ := ih
    rename_i k p q
    refine ⟨p :: l, by simp [hlen], ?_, ?_, ?_⟩
    · refine List.nodup_cons.mpr ⟨?_, hnd⟩
      intro hpl
      obtain ⟨j, hj1, hjk, hjs⟩ := hdist p hpl
      have := shortest_unique hjs hsp
      omega
    · intro x hx
      rcases List.mem_cons.mp hx with rfl | hx
      · rw [hlk]; rfl
      · exact hsome x hx
    · intro x hx
      rcases List.mem_cons.mp hx with rfl | hx
      · exact ⟨k + 1, by omega, Nat.le_refl _, hsp⟩
      · obtain ⟨j, hj1, hjk, hjs⟩ := hdist x hx
        exact ⟨j, hj1, by omega, hjs⟩

theorem dchainv_le {α : Type} [DecidableEq α] {nbrs : α → List α} {start : α}
    {parent : List (α × α)} {visited : List α} {k : Nat} {p : α}
    (h : DChainV nbrs start parent visited k p) : k ≤ parent.length := by
  obtain ⟨l, hlen, hnd, hsome, _⟩ := dchainv_nodes h
  have hsub : ∀ x ∈ l, x ∈ parent.map Prod.fst := fun x hx =>
    alookup_isSome_mem parent x (hsome x hx)
  have := nodup_subset_length hnd hsub
  rw [hlen, List.length_map] at this
  exact this

theorem dchainv_mono {α : Type} [DecidableEq α] {nbrs : α → List α} {start : α}
    {parent parent' : List (α × α)} {visited visited' : List α} {k : Nat} {v : α}
    (h : DChainV nbrs start parent visited k v)
    (hpres : ∀ x ∈ visited, alookup parent' x = alookup parent x)
    (hmono : ∀ x ∈ visited, x ∈ visited') :
    alookup parent' v = alookup parent v → DChainV nbrs start parent' visited' k v := by
  induction h with
  | zero => intro _; exact DChainV.zero
  | succ hps hsp hlk hqv hch ih =>
    intro hhead
    refine DChainV.succ hps hsp ?_ (hmono _ hqv) (ih (hpres _ hqv))
    rw [hhead]
    exact hlk

theorem reconstructPathAux_chain {α : Type} [DecidableEq α] {nbrs : α → List α} {start : α}
    {parent : List (α × α)} {visited : List α} {k : Nat} {p : α}
    (h : DChainV nbrs start parent visited k p) :
    ∀ (fuel : Nat) (acc : List α), k ≤ fuel →
      ∃ out, reconstructPathAux parent start fuel p acc = out ++ acc ∧ out.length = k ∧
        (0 < k → out.getLast? = some p) ∧ (k = 0 → out = []) := by
  induction h with
  | zero =>
    intro fuel acc _
    cases fuel with
    | zero => exact ⟨[], rfl, rfl, by omega, fun _ => rfl⟩
    | succ fuel =>
      rw [reconstructPathAux, if_pos rfl]
      exact ⟨[], rfl, rfl, by omega, fun _ => rfl⟩
  | succ hps hsp hlk hqv hch ih =>
    rename_i k p q
    intro fuel acc hle
    cases fuel with
    | zero => omega
    | succ fuel =>
      obtain ⟨out, hout, hlen, hlast, _⟩ := ih fuel (p :: acc) (by omega)
      refine ⟨out ++ [p], ?_, by simp [hlen], ?_, by simp⟩
      · rw [reconstructPathAux, if_neg hps, hlk]
        show reconstructPathAux parent start fuel q (p :: acc) = out ++ [p] ++ acc
        rw [hout]
        simp
      · intro _
        rw [List.getLast?_append_cons]
        rfl

theorem reconstructPath_of_chain {α : Type} [DecidableEq α] {nbrs : α → List α}
    {start goal : α} {parent : List (α × α)} {visited : List α} {L : Nat}
    (h : DChainV nbrs start parent visited L goal) :
    (reconstructPath parent start goal).length = L + 1 ∧
    (reconstructPath parent start goal).head? = some start ∧
    (reconstructPath parent start goal).getLast? = some goal := by
  have hfuel : L ≤ parent.length + 1 := Nat.le_succ_of_le (dchainv_le h)
  obtain ⟨out, hout, hlen, hlast, hnil⟩ := reconstructPathAux_chain h (parent.length + 1) [] hfuel
  rw [reconstructPath, hout]
  simp only [List.append_nil]
  refine ⟨by simp [hlen], rfl, ?_⟩
  cases hL : L with
  | zero =>
    have hgs : goal = start := by
      rw [hL] at h
      cases h
      rfl
    rw [hnil (by omega), hgs]
    rfl
  | succ L' =>
    have hone : out ≠ [] := by
      intro hc
      rw [hc] at hlen
      simp at hlen
      omega
    have hsplit : start :: out = [start] ++ out := rfl
    rw [hsplit, List.getLast?_append_of_ne_nil _ hone]
    exact hlast (by omega)

/-! ## BFS optimality: further expansion lemmas -/

theorem visitExpand_covers {α : Type} [DecidableEq α] (goal current : α) :
    ∀ (ns visited : List α) (parent : List (α × α)) (n : α), n ∈ ns →
      n ∈ (visitExpand goal current ns visited parent).visited := by
  intro ns
  induction ns with
  | nil => intro visited parent n hn; simp at hn
  | cons m rest ih =>
    intro visited parent n hn
    rw [visitExpand]
    by_cases hm : m ∈ visited
    · rw [if_pos hm]
      rcases List.mem_cons.mp hn with rfl | hn
      · exact visitExpand_mono goal current rest visited parent n hm
      · exact ih visited parent n hn
    · rw [if_neg hm]
      dsimp only
      rcases List.mem_cons.mp hn with rfl | hn
      · exact visitExpand_mono goal current rest (n :: visited) _ n (List.mem_cons_self n _)
      · exact ih (m :: visited) _ n hn

theorem visitExpand_pushes_fresh {α : Type} [DecidableEq α] (goal current : α) :
    ∀ (ns visited : List α) (parent : List (α × α)) (q : α),
      q ∈ (visitExpand goal current ns visited parent).pushes → q ∉ visited := by
  intro ns
  induction ns with
  | nil => intro visited parent q hq; simp [visitExpand] at hq
  | cons m rest ih =>
    intro visited parent q hq
    rw [visitExpand] at hq
    by_cases hm : m ∈ visited
    · rw [if_pos hm] at hq
      exact ih visited parent q hq
    · rw [if_neg hm] at hq
      dsimp only at hq
      rcases List.mem_cons.mp hq with rfl | hq
      · exact hm
      · intro hqv
        exact ih (m :: visited) _ q hq (List.mem_cons_of_mem m hqv)

theorem visitExpand_parent_old {α : Type} [DecidableEq α] (goal current : α) :
    ∀ (ns visited : List α) (parent : List (α × α)) (x : α), x ∈ visited →
      alookup (visitExpand goal current ns visited parent).parent x = alookup parent x := by
  intro ns
  induction ns with
  | nil => intro visited parent x hx; rfl
  | cons m rest ih =>
    intro visited parent x hx
    rw [visitExpand]
    by_cases hm : m ∈ visited
    · rw [if_pos hm]
      exact ih visited parent x hx
    · rw [if_neg hm]
      dsimp only
      rw [ih (m :: visited) _ x (List.mem_cons_of_mem m hx)]
      rw [alookup]
      rw [if_neg]
      intro hc
      have hmx : m = x := hc
      rw [hmx] at hm
      exact hm hx

theorem visitExpand_parent_pushes {α : Type} [DecidableEq α] (goal current : α) :
    ∀ (ns visited : List α) (parent : List (α × α)) (q : α),
      q ∈ (visitExpand goal current ns visited parent).pushes →
        alookup (visitExpand goal current ns visited parent).parent q = some current := by
  intro ns
  induction ns with
  | nil => intro visited parent q hq; simp [visitExpand] at hq
  | cons m rest ih =>
    intro visited parent q hq
    rw [visitExpand] at hq ⊢
    by_cases hm : m ∈ visited
    · rw [if_pos hm] at hq ⊢
      exact ih visited parent q hq
    · rw [if_neg hm] at hq ⊢
      dsimp only at hq ⊢
      rcases List.mem_cons.mp hq with rfl | hq
      · rw [visitExpand_parent_old goal current rest (q :: visited) _ q
          (List.mem_cons_self q _)]
        rw [alookup, if_pos rfl]
      · exact ih (m :: visited) _ q hq

theorem visitExpand_parent_keys {α : Type} [DecidableEq α] (goal current : α) :
    ∀ (ns visited : List α) (parent : List (α × α)) (x : α),
      (alookup (visitExpand goal current ns visited parent).parent x).isSome = true →
        (alookup parent x).isSome = true ∨
          x ∈ (visitExpand goal current ns visited parent).pushes := by
  intro ns
  induction ns with
  | nil => intro visited parent x hx; exact Or.inl hx
  | cons m rest ih =>
    intro visited parent x hx
    rw [visitExpand] at hx ⊢
    by_cases hm : m ∈ visited
    · rw [if_pos hm] at hx ⊢
      exact ih visited parent x hx
    · rw [if_neg hm] at hx ⊢
      dsimp only at hx ⊢
      rcases ih (m :: visited) _ x hx with h | h
      · rw [alookup] at h
        by_cases hxm : m = x
        · exact Or.inr (hxm ▸ List.mem_cons_self m _)
        · rw [if_neg hxm] at h
          exact Or.inl h
      · exact Or.inr (List.mem_cons_of_mem m h)

/-- The heart of BFS optimality: when the head of the queue has minimal
shortest-distance `kc` among the queue, every expanded node's neighbors
are visited, and the start is visited, any unvisited neighbor of the head
lies at shortest distance exactly `kc + 1`. -/
theorem fresh_neighbor_dist {α : Type} [DecidableEq α] {nbrs : α → List α}
    {start current n : α} {queue visited : List α} {kc : Nat}
    (hstart : start ∈ visited)
    (hexp : ∀ pr ∈ visited, pr ∉ queue → ∀ m ∈ nbrs pr, m ∈ visited)
    (hmin : ∀ q ∈ queue, ∀ kq, IsShortest nbrs start q kq → kc ≤ kq)
    (hcur : IsShortest nbrs start current kc)
    (hn : n ∈ nbrs current) (hnv : n ∉ visited) :
    IsShortest nbrs start n (kc + 1) := by
  have hvisall : ∀ j, j ≤ kc → ∀ p, NReach nbrs start j p → p ∈ visited := by
    intro j
    induction j with
    | zero =>
      intro _ p hp
      rw [nreach_zero nbrs start p hp]
      exact hstart
    | succ j ihj =>
      intro hj p hp
      obtain ⟨pr, hpr, hmem⟩ := nreach_succ_inv hp
      have hprv : pr ∈ visited := ihj (by omega) pr hpr
      by_cases hprq : pr ∈ queue
      · obtain ⟨kpr, hkpr⟩ := exists_shortest (⟨j, hpr⟩ : Reachable nbrs start pr)
        have h1 := hmin pr hprq kpr hkpr
        have h2 := hkpr.2 j hpr
        omega
      · exact hexp pr hprv hprq p hmem
  refine ⟨NReach.step hcur.1 hn, ?_⟩
  intro j hj
  by_contra hlt
  exact hnv (hvisall j (by omega) n hj)

/-- BFS returns a shortest path: under the BFS loop invariants (visited
sound and nodup, queue enqueued-and-visited, parent chains of exact
shortest length, expanded nodes fully explored, the goal traced, and the
queue split into a distance-`D` prefix and a distance-`D+1` suffix), the
loop returns success with a path of exactly `L + 1` positions from
`start` to `goal`. -/
theorem bfsLoop_optimal {α : Type} [DecidableEq α] (nbrs : α → List α) (start goal : α)
    (pathEv : List α → List (SearchEvent α)) (keys : List α)
    (hkeys : ∀ p q, q ∈ nbrs p → q ∈ keys) (L : Nat)
    (hL : IsShortest nbrs start goal L) :
    ∀ (fuel : Nat) (queue visited : List α) (parent : List (α × α)) (count iter : Nat),
      visited.Nodup → (∀ q ∈ queue, q ∈ visited) → (∀ v ∈ visited, v ∈ keys) →
      start ∈ visited →
      (∀ v ∈ visited, ∃ k, IsShortest nbrs start v k ∧
        DChainV nbrs start parent visited k v) →
      (∀ x, (alookup parent x).isSome = true → x ∈ visited) →
      (∀ pr ∈ visited, pr ∉ queue → ∀ m ∈ nbrs pr, m ∈ visited) →
      (goal ∉ visited ∨ goal ∈ queue) →
      (∃ D A B, queue = A ++ B ∧ (∀ a ∈ A, IsShortest nbrs start a D) ∧
        (∀ b ∈ B, IsShortest nbrs start b (D + 1))) →
      keys.length - visited.length + queue.length < fuel →
      ∃ path n, (bfsLoop nbrs start goal pathEv noAbort fuel queue visited parent count
        iter).outcome = SOutcome.ok ⟨path, n, true⟩ ∧ path.length = L + 1 ∧
        path.head? = some start ∧ path.getLast? = some goal := by
  intro fuel
  induction fuel with
  | zero =>
    intro queue visited parent count iter hnd hqv hvk hsv hIV hPK hexp hIG hsort hlt
    omega
  | succ fuel ih =>
    intro queue visited parent count iter hnd hqv hvk hsv hIV hPK hexp hIG hsort hlt
    cases queue with
    | nil =>
      exfalso
      have hgnv : goal ∉ visited := by
        rcases hIG with h | h
        · exact h
        · simp at h
      have hall : ∀ j p, NReach nbrs start j p → p ∈ visited := by
        intro j
        induction j with
        | zero =>
          intro p hp
          rw [nreach_zero nbrs start p hp]
          exact hsv
        | succ j ihj =>
          intro p hp
          obtain ⟨pr, hpr, hmem⟩ := nreach_succ_inv hp
          exact hexp pr (ihj pr hpr) (by simp) p hmem
      exact hgnv (hall L goal hL.1)
    | cons current rest =>
      rw [bfsLoop]
      rw [if_neg (by simp [noAbort])]
      by_cases hgoal : current = goal
      · rw [if_pos hgoal]
        subst hgoal
        obtain ⟨k, hk, hchain⟩ := hIV current (hqv current (List.mem_cons_self current rest))
        have hkL : k = L := shortest_unique hk hL
        subst hkL
        obtain ⟨h1, h2, h3⟩ := reconstructPath_of_chain hchain
        exact ⟨reconstructPath parent start current, count + 1, rfl, h1, h2, h3⟩
      · rw [if_neg hgoal]
        dsimp only
        have hcurv : current ∈ visited := hqv current (List.mem_cons_self current rest)
        obtain ⟨kc, hkc, hchc⟩ := hIV current hcurv
        obtain ⟨D, A, B, hqAB, hA, hB⟩ := hsort
        have hXve := visitExpand_visited_eq goal current (nbrs current) visited parent
        -- minimality of the head distance over the queue, and the sorted
        -- decomposition of the next queue
        have hmin : ∀ q ∈ current :: rest, ∀ kq, IsShortest nbrs start q kq → kc ≤ kq := by
          intro q hq kq hkq
          cases A with
          | nil =>
            simp only [List.nil_append] at hqAB
            subst hqAB
            have h1 : kc = D + 1 := shortest_unique hkc (hB current (List.mem_cons_self _ _))
            have h2 : kq = D + 1 := shortest_unique hkq (hB q hq)
            omega
          | cons a A' =>
            simp only [List.cons_append] at hqAB
            injection hqAB with hca hcr
            subst hca
            have h1 : kc = D := shortest_unique hkc (hA current (List.mem_cons_self _ _))
            rcases List.mem_cons.mp hq with rfl | hq
            · have h2 : kq = kc := shortest_unique hkq hkc
              omega
            · rw [hcr] at hq
              rcases List.mem_append.mp hq with hq | hq
              · have h2 : kq = D :=
                  shortest_unique hkq (hA q (List.mem_cons_of_mem current hq))
                omega
              · have h2 : kq = D + 1 := shortest_unique hkq (hB q hq)
                omega
        have hpushdist : ∀ q ∈ (visitExpand goal current (nbrs current) visited
            parent).pushes, IsShortest nbrs start q (kc + 1) := by
          intro q hq
          exact fresh_neighbor_dist hsv hexp hmin hkc
            (visitExpand_pushes_sub goal current (nbrs current) visited parent q hq)
            (visitExpand_pushes_fresh goal current (nbrs current) visited parent q hq)
        have hresort : ∃ D' A' B',
            rest ++ (visitExpand goal current (nbrs current) visited parent).pushes =
              A' ++ B' ∧ (∀ a ∈ A', IsShortest nbrs start a D') ∧
              (∀ b ∈ B', IsShortest nbrs start b (D' + 1)) := by
          cases A with
          | nil =>
            simp only [List.nil_append] at hqAB
            subst hqAB
            have h1 : kc = D + 1 := shortest_unique hkc (hB current (List.mem_cons_self _ _))
            refine ⟨D + 1, rest, _, rfl, ?_, ?_⟩
            · intro a ha
              exact hB a (List.mem_cons_of_mem current ha)
            · intro b hb
              have := hpushdist b hb
              rw [h1] at this
              exact this
          | cons a A' =>
            simp only [List.cons_append] at hqAB
            injection hqAB with hca hcr
            subst hca
            have h1 : kc = D := shortest_unique hkc (hA current (List.mem_cons_self _ _))
            refine ⟨D, A', B ++ (visitExpand goal current (nbrs current) visited
              parent).pushes, by rw [hcr, List.append_assoc], ?_, ?_⟩
            · intro x hx
              exact hA x (List.mem_cons_of_mem current hx)
            · intro b hb
              rcases List.mem_append.mp hb with hb | hb
              · exact hB b hb
              · have := hpushdist b hb
                rw [h1] at this
                exact this
        apply ih
        · exact visitExpand_nodup goal current (nbrs current) visited parent hnd
        · intro q hq
          rcases List.mem_append.mp hq with hq | hq
          · exact visitExpand_mono goal current (nbrs current) visited parent q
              (hqv q (List.mem_cons_of_mem current hq))
          · exact visitExpand_pushes_visited goal current (nbrs current) visited parent q hq
        · intro v hv
          rcases visitExpand_visited_src goal current (nbrs current) visited parent v hv
            with h | h
          · exact hvk v h
          · exact hkeys current v h
        · exact visitExpand_mono goal current (nbrs current) visited parent start hsv
        · -- exact chains for all newly visited nodes
          intro v hv
          rw [hXve] at hv
          rcases List.mem_append.mp hv with hv | hv
          · have hvp : v ∈ (visitExpand goal current (nbrs current) visited parent).pushes :=
              List.mem_reverse.mp hv
            refine ⟨kc + 1, hpushdist v hvp, ?_⟩
            refine DChainV.succ ?_ (hpushdist v hvp)
              (visitExpand_parent_pushes goal current (nbrs current) visited parent v hvp)
              (visitExpand_mono goal current (nbrs current) visited parent current hcurv)
              ?_
            · intro hvs
              exact visitExpand_pushes_fresh goal current (nbrs current) visited parent v
                hvp (hvs ▸ hsv)
            · exact dchainv_mono hchc
                (fun x hx => visitExpand_parent_old goal current (nbrs current) visited
                  parent x hx)
                (fun x hx => visitExpand_mono goal current (nbrs current) visited parent x hx)
                (visitExpand_parent_old goal current (nbrs current) visited parent current
                  hcurv)
          · obtain ⟨k, hk, hch⟩ := hIV v hv
            refine ⟨k, hk, ?_⟩
            exact dchainv_mono hch
              (fun x hx => visitExpand_parent_old goal current (nbrs current) visited
                parent x hx)
              (fun x hx => visitExpand_mono goal current (nbrs current) visited parent x hx)
              (visitExpand_parent_old goal current (nbrs current) visited parent v hv)
        · intro x hx
          rcases visitExpand_parent_keys goal current (nbrs current) visited parent x hx
            with h | h
          · exact visitExpand_mono goal current (nbrs current) visited parent x (hPK x h)
          · exact visitExpand_pushes_visited goal current (nbrs current) visited parent x h
        · -- expanded nodes remain fully explored
          intro pr hpr hprq m hm
          rw [hXve] at hpr
          rcases List.mem_append.mp hpr with hpr | hpr
          · exact absurd (List.mem_append.mpr (Or.inr (List.mem_reverse.mp hpr))) hprq
          · by_cases hprc : pr = current
            · subst hprc
              exact visitExpand_covers goal pr (nbrs pr) visited parent m hm
            · have hprrest : pr ∉ rest := fun hc =>
                hprq (List.mem_append.mpr (Or.inl hc))
              have hprqold : pr ∉ current :: rest := by
                intro hc
                rcases List.mem_cons.mp hc with hc | hc
                · exact hprc hc
                · exact hprrest hc
              exact visitExpand_mono goal current (nbrs current) visited parent m
                (hexp pr hpr hprqold m hm)
        · rcases hIG with hg | hg
          · by_cases hgX : goal ∈ (visitExpand goal current (nbrs current) visited
                parent).visited
            · rw [hXve] at hgX
              rcases List.mem_append.mp hgX with h | h
              · exact Or.inr (List.mem_append.mpr (Or.inr (List.mem_reverse.mp h)))
              · exact absurd h hg
            · exact Or.inl hgX
          · rcases List.mem_cons.mp hg with hg | hg
            · exact absurd hg.symm hgoal
            · exact Or.inr (List.mem_append.mpr (Or.inl hg))
        · exact hresort
        · have hlen := visitExpand_length goal current (nbrs current) visited parent
          have hvlen : (visitExpand goal current (nbrs current) visited
              parent).visited.length ≤ keys.length :=
            nodup_subset_length
              (visitExpand_nodup goal current (nbrs current) visited parent hnd)
              (fun v hv => by
                rcases visitExpand_visited_src goal current (nbrs current) visited
                  parent v hv with h | h
                · exact hvk v h
                · exact hkeys current v h)
          have hql : (rest ++ (visitExpand goal current (nbrs current) visited
              parent).pushes).length = rest.length + (visitExpand goal current
              (nbrs current) visited parent).pushes.length := List.length_append _ _
          simp only [List.length_cons] at hlt
          omega

/-! ## Dijkstra optimality: relaxation lemmas

Facts about `dijkstraExpand goal current ccost visited ns parent costMap`:
its components are the updated parent map `.1`, the updated cost map
`.2.1`, the pushed nodes `.2.2.1`, and the events. Every binding added in
one expansion has cost `ccost + 1` and parent `current`. -/

theorem dE_pushes_cost {α : Type} [DecidableEq α] (goal current : α) (ccost : Nat)
    (visited : List α) :
    ∀ (ns : List α) (parent : List (α × α)) (costMap : List (α × Nat)) (nd : DNode α),
      nd ∈ (dijkstraExpand goal current ccost visited ns parent costMap).2.2.1 →
        nd.cost = ccost + 1 := by
  intro ns
  induction ns with
  | nil => intro parent costMap nd hnd; simp [dijkstraExpand] at hnd
  | cons n rest ih =>
    intro parent costMap nd hnd
    rw [dijkstraExpand] at hnd
    by_cases hv : n ∈ visited
    · rw [if_pos hv] at hnd
      exact ih parent costMap nd hnd
    · rw [if_neg hv] at hnd
      by_cases hlt : ltOpt (ccost + 1) (alookup costMap n) = true
      · rw [if_pos hlt] at hnd
        dsimp only at hnd
        rcases List.mem_cons.mp hnd with rfl | hnd
        · rfl
        · exact ih _ _ nd hnd
      · rw [if_neg hlt] at hnd
        exact ih parent costMap nd hnd

theorem dE_pushes_fresh {α : Type} [DecidableEq α] (goal current : α) (ccost : Nat)
    (visited : List α) :
    ∀ (ns : List α) (parent : List (α × α)) (costMap : List (α × Nat)) (nd : DNode α),
      nd ∈ (dijkstraExpand goal current ccost visited ns parent costMap).2.2.1 →
        nd.pos ∉ visited := by
  intro ns
  induction ns with
  | nil => intro parent costMap nd hnd; simp [dijkstraExpand] at hnd
  | cons n rest ih =>
    intro parent costMap nd hnd
    rw [dijkstraExpand] at hnd
    by_cases hv : n ∈ visited
    · rw [if_pos hv] at hnd
      exact ih parent costMap nd hnd
    · rw [if_neg hv] at hnd
      by_cases hlt : ltOpt (ccost + 1) (alookup costMap n) = true
      · rw [if_pos hlt] at hnd
        dsimp only at hnd
        rcases List.mem_cons.mp hnd with rfl | hnd
        · exact hv
        · exact ih _ _ nd hnd
      · rw [if_neg hlt] at hnd
        exact ih parent costMap nd hnd

theorem dE_untouched {α : Type} [DecidableEq α] (goal current : α) (ccost : Nat)
    (visited : List α) :
    ∀ (ns : List α) (parent : List (α × α)) (costMap : List (α × Nat)) (x : α),
      (∀ nd ∈ (dijkstraExpand goal current ccost visited ns parent costMap).2.2.1,
        nd.pos ≠ x) →
      alookup (dijkstraExpand goal current ccost visited ns parent costMap).2.1 x =
        alookup costMap x ∧
      alookup (dijkstraExpand goal current ccost visited ns parent costMap).1 x =
        alookup parent x := by
  intro ns
  induction ns with
  | nil => intro parent costMap x _; exact ⟨rfl, rfl⟩
  | cons n rest ih =>
    intro parent costMap x hx
    rw [dijkstraExpand] at hx ⊢
    by_cases hv : n ∈ visited
    · rw [if_pos hv] at hx ⊢
      exact ih parent costMap x hx
    · rw [if_neg hv] at hx ⊢
      by_cases hlt : ltOpt (ccost + 1) (alookup costMap n) = true
      · rw [if_pos hlt] at hx ⊢
        dsimp only at hx ⊢
        have hnx : n ≠ x :=
          hx (DNode.mk n (ccost + 1)) (List.mem_cons_self _ _)
        have hrec := ih ((n, current) :: parent) ((n, ccost + 1) :: costMap) x
          (fun nd hnd => hx nd (List.mem_cons_of_mem _ hnd))
        refine ⟨?_, ?_⟩
        · rw [hrec.1, alookup, if_neg ?_]
          intro hc
          exact hnx hc
        · rw [hrec.2, alookup, if_neg ?_]
          intro hc
          exact hnx hc
      · rw [if_neg hlt] at hx ⊢
        exact ih parent costMap x hx

theorem dE_cost_stable {α : Type} [DecidableEq α] (goal current : α) (ccost : Nat)
    (visited : List α) :
    ∀ (ns : List α) (parent : List (α × α)) (costMap : List (α × Nat)) (x : α),
      alookup costMap x = some (ccost + 1) →
      alookup (dijkstraExpand goal current ccost visited ns parent costMap).2.1 x =
        some (ccost + 1) := by
  intro ns
  induction ns with
  | nil => intro parent costMap x hx; exact hx
  | cons n rest ih =>
    intro parent costMap x hx
    rw [dijkstraExpand]
    by_cases hv : n ∈ visited
    · rw [if_pos hv]
      exact ih parent costMap x hx
    · rw [if_neg hv]
      by_cases hlt : ltOpt (ccost + 1) (alookup costMap n) = true
      · rw [if_pos hlt]
        dsimp only
        apply ih
        rw [alookup]
        by_cases hnx : n = x
        · rw [if_pos hnx]
        · rw [if_neg hnx]
          exact hx
      · rw [if_neg hlt]
        exact ih parent costMap x hx

theorem dE_parent_stable {α : Type} [DecidableEq α] (goal current : α) (ccost : Nat)
    (visited : List α) :
    ∀ (ns : List α) (parent : List (α × α)) (costMap : List (α × Nat)) (x : α),
      alookup parent x = some current →
      alookup (dijkstraExpand goal current ccost visited ns parent costMap).1 x =
        some current := by
  intro ns
  induction ns with
  | nil => intro parent costMap x hx; exact hx
  | cons n rest ih =>
    intro parent costMap x hx
    rw [dijkstraExpand]
    by_cases hv : n ∈ visited
    · rw [if_pos hv]
      exact ih parent costMap x hx
    · rw [if_neg hv]
      by_cases hlt : ltOpt (ccost + 1) (alookup costMap n) = true
      · rw [if_pos hlt]
        dsimp only
        apply ih
        rw [alookup]
        by_cases hnx : n = x
        · rw [if_pos hnx]
        · rw [if_neg hnx]
          exact hx
      · rw [if_neg hlt]
        exact ih parent costMap x hx

theorem dE_pushes_bind {α : Type} [DecidableEq α] (goal current : α) (ccost : Nat)
    (visited : List α) :
    ∀ (ns : List α) (parent : List (α × α)) (costMap : List (α × Nat)) (nd : DNode α),
      nd ∈ (dijkstraExpand goal current ccost visited ns parent costMap).2.2.1 →
      alookup (dijkstraExpand goal current ccost visited ns parent costMap).2.1 nd.pos =
        some (ccost + 1) ∧
      alookup (dijkstraExpand goal current ccost visited ns parent costMap).1 nd.pos =
        some current := by
  intro ns
  induction ns with
  | nil => intro parent costMap nd hnd; simp [dijkstraExpand] at hnd
  | cons n rest ih =>
    intro parent costMap nd hnd
    rw [dijkstraExpand] at hnd ⊢
    by_cases hv : n ∈ visited
    · rw [if_pos hv] at hnd ⊢
      exact ih parent costMap nd hnd
    · rw [if_neg hv] at hnd ⊢
      by_cases hlt : ltOpt (ccost + 1) (alookup costMap n) = true
      · rw [if_pos hlt] at hnd ⊢
        dsimp only at hnd ⊢
        rcases List.mem_cons.mp hnd with rfl | hnd
        · refine ⟨?_, ?_⟩
          · apply dE_cost_stable
            rw [alookup, if_pos rfl]
          · apply dE_parent_stable
            rw [alookup, if_pos rfl]
        · exact ih _ _ nd hnd
      · rw [if_neg hlt] at hnd ⊢
        exact ih parent costMap nd hnd

theorem dE_cost_persist {α : Type} [DecidableEq α] (goal current : α) (ccost : Nat)
    (visited : List α) :
    ∀ (ns : List α) (parent : List (α × α)) (costMap : List (α × Nat)) (x : α) (c : Nat),
      alookup costMap x = some c →
      ∃ c', alookup (dijkstraExpand goal current ccost visited ns parent costMap).2.1 x =
        some c' ∧ c' ≤ c := by
  intro ns
  induction ns with
  | nil => intro parent costMap x c hx; exact ⟨c, hx, Nat.le_refl c⟩
  | cons n rest ih =>
    intro parent costMap x c hx
    rw [dijkstraExpand]
    by_cases hv : n ∈ visited
    · rw [if_pos hv]
      exact ih parent costMap x c hx
    · rw [if_neg hv]
      by_cases hlt : ltOpt (ccost + 1) (alookup costMap n) = true
      · rw [if_pos hlt]
        dsimp only
        by_cases hnx : n = x
        · subst hnx
          rw [hx] at hlt
          have hcc : ccost + 1 < c := by
            simpa [ltOpt] using hlt
          obtain ⟨c', hc', hle⟩ := ih ((n, current) :: parent)
            ((n, ccost + 1) :: costMap) n (ccost + 1) (by rw [alookup, if_pos rfl])
          exact ⟨c', hc', by omega⟩
        · obtain ⟨c', hc', hle⟩ := ih ((n, current) :: parent)
            ((n, ccost + 1) :: costMap) x c (by rw [alookup, if_neg hnx]; exact hx)
          exact ⟨c', hc', hle⟩
      · rw [if_neg hlt]
        exact ih parent costMap x c hx

theorem dE_not_pushed_bound {α : Type} [DecidableEq α] (goal current : α) (ccost : Nat)
    (visited : List α) :
    ∀ (ns : List α) (parent : List (α × α)) (costMap : List (α × Nat)) (n : α),
      n ∈ ns → n ∉ visited →
      (∀ nd ∈ (dijkstraExpand goal current ccost visited ns parent costMap).2.2.1,
        nd.pos ≠ n) →
      ∃ c, alookup costMap n = some c ∧ c ≤ ccost + 1 := by
  intro ns
  induction ns with
  | nil => intro parent costMap n hn; simp at hn
  | cons m rest ih =>
    intro parent costMap n hn hnv hnp
    rw [dijkstraExpand] at hnp
    by_cases hv : m ∈ visited
    · rw [if_pos hv] at hnp
      rcases List.mem_cons.mp hn with rfl | hn
      · exact absurd hv hnv
      · exact ih parent costMap n hn hnv hnp
    · rw [if_neg hv] at hnp
      by_cases hlt : ltOpt (ccost + 1) (alookup costMap m) = true
      · rw [if_pos hlt] at hnp
        dsimp only at hnp
        have hmn : m ≠ n := hnp (DNode.mk m (ccost + 1)) (List.mem_cons_self _ _)
        rcases List.mem_cons.mp hn with rfl | hn
        · exact absurd rfl hmn
        · obtain ⟨c, hc, hle⟩ := ih ((m, current) :: parent) ((m, ccost + 1) :: costMap)
            n hn hnv (fun nd hnd => hnp nd (List.mem_cons_of_mem _ hnd))
          rw [alookup] at hc
          rw [if_neg hmn] at hc
          exact ⟨c, hc, hle⟩
      · rw [if_neg hlt] at hnp
        rcases List.mem_cons.mp hn with rfl | hn
        · rcases hcm : alookup costMap n with _ | c
          · rw [hcm] at hlt
            simp [ltOpt] at hlt
          · rw [hcm] at hlt
            simp only [ltOpt, decide_eq_true_eq] at hlt
            exact ⟨c, rfl, by omega⟩
        · exact ih parent costMap n hn hnv hnp

theorem dE_no_push_of_eq {α : Type} [DecidableEq α] (goal current : α) (ccost : Nat)
    (visited : List α) :
    ∀ (ns : List α) (parent : List (α × α)) (costMap : List (α × Nat)) (x : α),
      alookup costMap x = some (ccost + 1) →
      ∀ nd ∈ (dijkstraExpand goal current ccost visited ns parent costMap).2.2.1,
        nd.pos ≠ x := by
  intro ns
  induction ns with
  | nil => intro parent costMap x _ nd hnd; simp [dijkstraExpand] at hnd
  | cons m rest ih =>
    intro parent costMap x hx nd hnd
    rw [dijkstraExpand] at hnd
    by_cases hv : m ∈ visited
    · rw [if_pos hv] at hnd
      exact ih parent costMap x hx nd hnd
    · rw [if_neg hv] at hnd
      by_cases hlt : ltOpt (ccost + 1) (alookup costMap m) = true
      · rw [if_pos hlt] at hnd
        dsimp only at hnd
        have hmx : m ≠ x := by
          intro hc
          subst hc
          rw [hx] at hlt
          simp [ltOpt] at hlt
        rcases List.mem_cons.mp hnd with rfl | hnd
        · exact hmx
        · refine ih ((m, current) :: parent) ((m, ccost + 1) :: costMap) x ?_ nd hnd
          rw [alookup, if_neg hmx]
          exact hx
      · rw [if_neg hlt] at hnd
        exact ih parent costMap x hx nd hnd

theorem dE_pushed_lt {α : Type} [DecidableEq α] (goal current : α) (ccost : Nat)
    (visited : List α) :
    ∀ (ns : List α) (parent : List (α × α)) (costMap : List (α × Nat)) (nd : DNode α),
      nd ∈ (dijkstraExpand goal current ccost visited ns parent costMap).2.2.1 →
      ∀ c0, alookup costMap nd.pos = some c0 → ccost + 1 < c0 := by
  intro ns
  induction ns with
  | nil => intro parent costMap nd hnd; simp [dijkstraExpand] at hnd
  | cons m rest ih =>
    intro parent costMap nd hnd c0 hc0
    rw [dijkstraExpand] at hnd
    by_cases hv : m ∈ visited
    · rw [if_pos hv] at hnd
      exact ih parent costMap nd hnd c0 hc0
    · rw [if_neg hv] at hnd
      by_cases hlt : ltOpt (ccost + 1) (alookup costMap m) = true
      · rw [if_pos hlt] at hnd
        dsimp only at hnd
        rcases List.mem_cons.mp hnd with rfl | hnd
        · dsimp only at hc0
          rw [hc0] at hlt
          simpa [ltOpt] using hlt
        · have hne : nd.pos ≠ m := by
            intro hc
            exact dE_no_push_of_eq goal current ccost visited rest
              ((m, current) :: parent) ((m, ccost + 1) :: costMap) m
              (by rw [alookup, if_pos rfl]) nd hnd hc
          refine ih ((m, current) :: parent) ((m, ccost + 1) :: costMap) nd hnd c0 ?_
          rw [alookup, if_neg (fun hc => hne hc.symm)]
          exact hc0
      · rw [if_neg hlt] at hnd
        exact ih parent costMap nd hnd c0 hc0

/-- The cut-crossing argument: with the start either settled or seeded in
the open set, every settled node's neighbors either settled or backed by
an open node whose cost is at most the settled distance plus one, and
every open node's cost an upper bound on its true distance, every
reachable unsettled node `p` at distance `j` has an open node whose cost
EQUALS its own exact distance, at most `j`. -/
theorem dijkstra_cut {α : Type} [DecidableEq α] {nbrs : α → List α} {start : α}
    {visited : List α} {openSet : List (DNode α)}
    (hDStart : start ∈ visited ∨ ∃ nd ∈ openSet, nd.pos = start ∧ nd.cost = 0)
    (hDCross : ∀ pr ∈ visited, ∀ n ∈ nbrs pr, n ∈ visited ∨
      ∃ nd ∈ openSet, nd.pos = n ∧ ∃ kpr, IsShortest nbrs start pr kpr ∧
        nd.cost ≤ kpr + 1)
    (hDLB : ∀ nd ∈ openSet, ∃ k, IsShortest nbrs start nd.pos k ∧ k ≤ nd.cost) :
    ∀ (j : Nat) (p : α), IsShortest nbrs start p j →
      p ∈ visited ∨ ∃ nd ∈ openSet, ∃ kn, IsShortest nbrs start nd.pos kn ∧
        nd.cost = kn ∧ kn ≤ j := by
  intro j
  induction j with
  | zero =>
    intro p hsp
    rw [nreach_zero nbrs start p hsp.1]
    rcases hDStart with h | ⟨nd, hnd, hpos, hcost⟩
    · exact Or.inl h
    · refine Or.inr ⟨nd, hnd, 0, ?_, hcost, Nat.le_refl 0⟩
      rw [hpos]
      exact shortest_start nbrs start
  | succ j ihj =>
    intro p hsp
    obtain ⟨pr, hmem, hprj⟩ := shortest_pred hsp
    rcases ihj pr hprj with hprv | ⟨nd, hnd, kn, h1, h2, h3⟩
    · rcases hDCross pr hprv p hmem with hpv | ⟨nd, hnd, hpos, kpr, hkpr, hcle⟩
      · exact Or.inl hpv
      · have hkprj : kpr = j := shortest_unique hkpr hprj
        obtain ⟨k', hk', hk'le⟩ := hDLB nd hnd
        have hndp : IsShortest nbrs start nd.pos (j + 1) := by
          rw [hpos]
          exact hsp
        have hk'j : k' = j + 1 := shortest_unique hk' hndp
        refine Or.inr ⟨nd, hnd, j + 1, hndp, ?_, Nat.le_refl _⟩
        omega
    · exact Or.inr ⟨nd, hnd, kn, h1, h2, by omega⟩

/-- Dijkstra returns a shortest path: under the Dijkstra loop invariants
(settled nodes carry exact distances and exact parent chains, open nodes
over-approximate distances, the frontier crosses every settled edge, the
cost map's fresh entries are backed by open nodes holding the current
minimal cost, and the parent map agrees with the cost map on fresh
entries), the loop returns success with a path of exactly `L + 1`
positions from `start` to `goal`. -/
theorem dijkstraLoop_optimal {α : Type} [DecidableEq α] (nbrs : α → List α)
    (start goal : α) (pathEv : List α → List (SearchEvent α)) (keys : List α)
    (hkeys : ∀ p q, q ∈ nbrs p → q ∈ keys) (D : Nat) (hdeg : ∀ p, (nbrs p).length ≤ D)
    (L : Nat) (hL : IsShortest nbrs start goal L) :
    ∀ (fuel : Nat) (openSet : List (DNode α)) (visited : List α) (parent : List (α × α))
      (costMap : List (α × Nat)) (count iter : Nat),
      visited.Nodup → (∀ nd ∈ openSet, nd.pos ∈ keys) → (∀ v ∈ visited, v ∈ keys) →
      (∀ v ∈ visited, ∃ k, IsShortest nbrs start v k ∧
        DChainV nbrs start parent visited k v) →
      (∀ nd ∈ openSet, ∃ k, IsShortest nbrs start nd.pos k ∧ k ≤ nd.cost) →
      (∀ pr ∈ visited, ∀ n ∈ nbrs pr, n ∈ visited ∨
        ∃ nd ∈ openSet, nd.pos = n ∧ ∃ kpr, IsShortest nbrs start pr kpr ∧
          nd.cost ≤ kpr + 1) →
      (start ∈ visited ∨ ∃ nd ∈ openSet, nd.pos = start ∧ nd.cost = 0) →
      (∀ n c, n ∉ visited → alookup costMap n = some c →
        ∃ nd ∈ openSet, nd.pos = n ∧ nd.cost = c) →
      (∀ nd ∈ openSet, ∃ c, alookup costMap nd.pos = some c) →
      (∀ nd ∈ openSet, ∀ c, alookup costMap nd.pos = some c → c ≤ nd.cost) →
      (∀ n, n ∉ visited → ∀ c, alookup costMap n = some c →
        (n = start ∧ c = 0) ∨ ∃ pr kpr, alookup parent n = some pr ∧ pr ∈ visited ∧
          IsShortest nbrs start pr kpr ∧ c = kpr + 1) →
      goal ∉ visited →
      (keys.length - visited.length) * (D + 1) + openSet.length < fuel →
      ∃ path n, (dijkstraLoop nbrs start goal pathEv noAbort fuel openSet visited parent
        costMap count iter).outcome = SOutcome.ok ⟨path, n, true⟩ ∧
        path.length = L + 1 ∧ path.head? = some start ∧ path.getLast? = some goal := by
  intro fuel
  induction fuel with
  | zero =>
    intro openSet visited parent costMap count iter hnd hop hvk hDV hDLB hDCross hDStart
      hDMap hDHas hDMin hDPar hDGoal hlt
    omega
  | succ fuel ih =>
    intro openSet visited parent costMap count iter hnd hop hvk hDV hDLB hDCross hDStart
      hDMap hDHas hDMin hDPar hDGoal hlt
    rw [dijkstraLoop]
    cases hsortq : sortByKey DNode.cost openSet with
    | nil =>
      exfalso
      have hOSnil : openSet = [] := sortByKey_eq_nil DNode.cost openSet hsortq
      subst hOSnil
      have hall : ∀ j p, NReach nbrs start j p → p ∈ visited := by
        intro j
        induction j with
        | zero =>
          intro p hp
          rw [nreach_zero nbrs start p hp]
          rcases hDStart with h | ⟨nd, hnd, _⟩
          · exact h
          · simp at hnd
        | succ j ihj =>
          intro p hp
          obtain ⟨pr, hpr, hmem⟩ := nreach_succ_inv hp
          rcases hDCross pr (ihj pr hpr) p hmem with h | ⟨nd, hnd, _⟩
          · exact h
          · simp at hnd
      exact hDGoal (hall L goal hL.1)
    | cons current rest =>
      dsimp only
      have hperm : (current :: rest).Perm openSet := by
        have h := sortByKey_perm DNode.cost openSet
        rw [hsortq] at h
        exact h
      have hmemOS : ∀ nd : DNode α, nd ∈ current :: rest → nd ∈ openSet := fun nd h =>
        hperm.mem_iff.mp h
      have hmemOS' : ∀ nd : DNode α, nd ∈ openSet → nd = current ∨ nd ∈ rest := fun nd h =>
        List.mem_cons.mp (hperm.mem_iff.mpr h)
      have hheadmin : ∀ nd ∈ openSet, current.cost ≤ nd.cost := fun nd h =>
        sortByKey_head_min DNode.cost openSet current rest hsortq nd h
      have hOSlen : openSet.length = rest.length + 1 := by
        have h := hperm.length_eq
        simp only [List.length_cons] at h
        omega
      rw [if_neg (by simp [noAbort])]
      by_cases hvis : current.pos ∈ visited
      · rw [if_pos hvis]
        dsimp only
        apply ih rest visited parent costMap count (iter + 1) hnd
        · intro nd h
          exact hop nd (hmemOS nd (List.mem_cons_of_mem current h))
        · exact hvk
        · exact hDV
        · intro nd h
          exact hDLB nd (hmemOS nd (List.mem_cons_of_mem current h))
        · intro pr hpr n hn
          rcases hDCross pr hpr n hn with h | ⟨nd, hnd, hpos, kpr, hk, hc⟩
          · exact Or.inl h
          · rcases hmemOS' nd hnd with rfl | hr
            · left
              rw [← hpos]
              exact hvis
            · exact Or.inr ⟨nd, hr, hpos, kpr, hk, hc⟩
        · rcases hDStart with h | ⟨nd, hnd, hpos, hc0⟩
          · exact Or.inl h
          · rcases hmemOS' nd hnd with rfl | hr
            · left
              rw [← hpos]
              exact hvis
            · exact Or.inr ⟨nd, hr, hpos, hc0⟩
        · intro n c hnv hc
          obtain ⟨nd, hnd, hpos, hcost⟩ := hDMap n c hnv hc
          rcases hmemOS' nd hnd with rfl | hr
          · exfalso
            rw [hpos] at hvis
            exact hnv hvis
          · exact ⟨nd, hr, hpos, hcost⟩
        · intro nd h
          exact hDHas nd (hmemOS nd (List.mem_cons_of_mem current h))
        · intro nd h
          exact hDMin nd (hmemOS nd (List.mem_cons_of_mem current h))
        · exact hDPar
        · exact hDGoal
        · omega
      · rw [if_neg hvis]
        have hcurOS : current ∈ openSet := hmemOS current (List.mem_cons_self current rest)
        obtain ⟨cstar, hcstar⟩ := hDHas current hcurOS
        have hcle : cstar ≤ current.cost := hDMin current hcurOS cstar hcstar
        obtain ⟨nd0, hnd0, hnd0pos, hnd0cost⟩ := hDMap current.pos cstar hvis hcstar
        have hcge : current.cost ≤ cstar := by
          have h := hheadmin nd0 hnd0
          omega
        have hceq : current.cost = cstar := by omega
        obtain ⟨kc, hkc, hkcle⟩ := hDLB current hcurOS
        have hcost_eq : current.cost = kc := by
          rcases dijkstra_cut hDStart hDCross hDLB kc current.pos hkc with h |
            ⟨nd, hnd, kn, hknS, hkncost, hknle⟩
          · exact absurd h hvis
          · have hndmin := hheadmin nd hnd
            omega
        have hchain : DChainV nbrs start parent visited kc current.pos := by
          rcases hDPar current.pos hvis cstar hcstar with ⟨hps, hc0⟩ |
            ⟨pr, kpr, hbind, hprv, hkpr, hcs⟩
          · have h0 : IsShortest nbrs start current.pos 0 := by
              rw [hps]
              exact shortest_start nbrs start
            have hk0 : kc = 0 := shortest_unique hkc h0
            rw [hk0, hps]
            exact DChainV.zero
          · have hkck : kc = kpr + 1 := by omega
            have hcurS : IsShortest nbrs start current.pos (kpr + 1) := by
              rw [← hkck]
              exact hkc
            have hns : current.pos ≠ start := by
              intro hc
              have h0 : IsShortest nbrs start current.pos 0 := by
                rw [hc]
                exact shortest_start nbrs start
              have := shortest_unique hkc h0
              omega
            obtain ⟨kpr', hkpr', hchpr⟩ := hDV pr hprv
            have hkk : kpr' = kpr := shortest_unique hkpr' hkpr
            rw [hkk] at hchpr
            rw [hkck]
            exact DChainV.succ hns hcurS hbind hprv hchpr
        by_cases hgoal : current.pos = goal
        · rw [if_pos hgoal]
          have hkcL : kc = L := by
            have hgS : IsShortest nbrs start goal kc := by
              rw [← hgoal]
              exact hkc
            exact shortest_unique hgS hL
          have hchaing : DChainV nbrs start parent visited L goal := by
            rw [← hkcL, ← hgoal]
            exact hchain
          obtain ⟨h1, h2, h3⟩ := reconstructPath_of_chain hchaing
          exact ⟨reconstructPath parent start goal, count + 1, rfl, h1, h2, h3⟩
        · rw [if_neg hgoal]
          dsimp only
          have hXuntouched : ∀ x ∈ current.pos :: visited,
              alookup (dijkstraExpand goal current.pos current.cost
                (current.pos :: visited) (nbrs current.pos) parent costMap).2.1 x =
                alookup costMap x ∧
              alookup (dijkstraExpand goal current.pos current.cost
                (current.pos :: visited) (nbrs current.pos) parent costMap).1 x =
                alookup parent x := by
            intro x hx
            apply dE_untouched
            intro nd' hnd' hc
            apply dE_pushes_fresh goal current.pos current.cost (current.pos :: visited)
              (nbrs current.pos) parent costMap nd' hnd'
            rw [hc]
            exact hx
          have hfresh1 : ∀ nd' ∈ (dijkstraExpand goal current.pos current.cost
              (current.pos :: visited) (nbrs current.pos) parent costMap).2.2.1,
              nd'.pos ∉ visited := by
            intro nd' hnd' hc
            exact dE_pushes_fresh goal current.pos current.cost (current.pos :: visited)
              (nbrs current.pos) parent costMap nd' hnd' (List.mem_cons_of_mem _ hc)
          apply ih
          · exact List.nodup_cons.mpr ⟨hvis, hnd⟩
          · intro nd' h
            rcases List.mem_append.mp h with hr | hp
            · exact hop nd' (hmemOS nd' (List.mem_cons_of_mem current hr))
            · exact hkeys current.pos nd'.pos
                (dijkstraExpand_pushes_sub goal current.pos current.cost
                  (current.pos :: visited) (nbrs current.pos) parent costMap nd' hp)
          · intro v hv
            rcases List.mem_cons.mp hv with rfl | hv
            · exact hop current hcurOS
            · exact hvk v hv
          · intro v hv
            rcases List.mem_cons.mp hv with rfl | hv
            · refine ⟨kc, hkc, ?_⟩
              exact dchainv_mono hchain
                (fun x hx => (hXuntouched x (List.mem_cons_of_mem _ hx)).2)
                (fun x hx => List.mem_cons_of_mem _ hx)
                (hXuntouched current.pos (List.mem_cons_self _ _)).2
            · obtain ⟨k, hk, hch⟩ := hDV v hv
              refine ⟨k, hk, ?_⟩
              exact dchainv_mono hch
                (fun x hx => (hXuntouched x (List.mem_cons_of_mem _ hx)).2)
                (fun x hx => List.mem_cons_of_mem _ hx)
                (hXuntouched v (List.mem_cons_of_mem _ hv)).2
          · intro nd' h
            rcases List.mem_append.mp h with hr | hp
            · exact hDLB nd' (hmemOS nd' (List.mem_cons_of_mem current hr))
            · have hmempos : nd'.pos ∈ nbrs current.pos :=
                dijkstraExpand_pushes_sub goal current.pos current.cost
                  (current.pos :: visited) (nbrs current.pos) parent costMap nd' hp
              have hreach : NReach nbrs start (kc + 1) nd'.pos :=
                NReach.step hkc.1 hmempos
              obtain ⟨k', hk'⟩ := exists_shortest ⟨kc + 1, hreach⟩
              refine ⟨k', hk', ?_⟩
              have h1 := hk'.2 (kc + 1) hreach
              have h2 := dE_pushes_cost goal current.pos current.cost
                (current.pos :: visited) (nbrs current.pos) parent costMap nd' hp
              omega
          · intro pr hpr n hn
            rcases List.mem_cons.mp hpr with hprc | hpr
            · subst hprc
              by_cases hnv1 : n ∈ current.pos :: visited
              · exact Or.inl hnv1
              · by_cases hpush : ∃ nd' ∈ (dijkstraExpand goal current.pos current.cost
                    (current.pos :: visited) (nbrs current.pos) parent costMap).2.2.1,
                    nd'.pos = n
                · obtain ⟨nd', hnd', hpos⟩ := hpush
                  refine Or.inr ⟨nd', List.mem_append.mpr (Or.inr hnd'), hpos, kc, hkc, ?_⟩
                  have h2 := dE_pushes_cost goal current.pos current.cost
                    (current.pos :: visited) (nbrs current.pos) parent costMap nd' hnd'
                  omega
                · push_neg at hpush
                  obtain ⟨c, hc, hcle2⟩ := dE_not_pushed_bound goal current.pos
                    current.cost (current.pos :: visited) (nbrs current.pos) parent
                    costMap n hn hnv1 hpush
                  have hnv : n ∉ visited := fun h => hnv1 (List.mem_cons_of_mem _ h)
                  obtain ⟨ndm, hndm, hposm, hcostm⟩ := hDMap n c hnv hc
                  rcases hmemOS' ndm hndm with hndc | hr
                  · exfalso
                    apply hnv1
                    rw [← hposm, hndc]
                    exact List.mem_cons_self _ _
                  · refine Or.inr ⟨ndm, List.mem_append.mpr (Or.inl hr), hposm, kc, hkc,
                      ?_⟩
                    omega
            · rcases hDCross pr hpr n hn with h | ⟨nd', hnd', hpos, kpr, hkpr, hcb⟩
              · exact Or.inl (List.mem_cons_of_mem _ h)
              · rcases hmemOS' nd' hnd' with rfl | hr
                · left
                  rw [← hpos]
                  exact List.mem_cons_self _ _
                · exact Or.inr ⟨nd', List.mem_append.mpr (Or.inl hr), hpos, kpr, hkpr, hcb⟩
          · rcases hDStart with h | ⟨nd', hnd', hpos, hc0⟩
            · exact Or.inl (List.mem_cons_of_mem _ h)
            · rcases hmemOS' nd' hnd' with rfl | hr
              · left
                rw [← hpos]
                exact List.mem_cons_self _ _
              · exact Or.inr ⟨nd', List.mem_append.mpr (Or.inl hr), hpos, hc0⟩
          · intro n c hnv1 hc
            by_cases hpush : ∃ nd' ∈ (dijkstraExpand goal current.pos current.cost
                (current.pos :: visited) (nbrs current.pos) parent costMap).2.2.1,
                nd'.pos = n
            · obtain ⟨nd', hnd', hpos⟩ := hpush
              have hbind := (dE_pushes_bind goal current.pos current.cost
                (current.pos :: visited) (nbrs current.pos) parent costMap nd' hnd').1
              rw [hpos] at hbind
              have hceq2 : c = current.cost + 1 := by
                rw [hc] at hbind
                exact Option.some.injEq _ _ ▸ hbind
              refine ⟨nd', List.mem_append.mpr (Or.inr hnd'), hpos, ?_⟩
              rw [dE_pushes_cost goal current.pos current.cost (current.pos :: visited)
                (nbrs current.pos) parent costMap nd' hnd', hceq2]
            · push_neg at hpush
              have hco := (dE_untouched goal current.pos current.cost
                (current.pos :: visited) (nbrs current.pos) parent costMap n hpush).1
              rw [hco] at hc
              have hnv : n ∉ visited := fun h => hnv1 (List.mem_cons_of_mem _ h)
              obtain ⟨ndm, hndm, hposm, hcostm⟩ := hDMap n c hnv hc
              rcases hmemOS' ndm hndm with hndc | hr
              · exfalso
                apply hnv1
                rw [← hposm, hndc]
                exact List.mem_cons_self _ _
              · exact ⟨ndm, List.mem_append.mpr (Or.inl hr), hposm, hcostm⟩
          · intro nd' h
            rcases List.mem_append.mp h with hr | hp
            · obtain ⟨c, hcm⟩ := hDHas nd' (hmemOS nd' (List.mem_cons_of_mem current hr))
              obtain ⟨c', hc', _⟩ := dE_cost_persist goal current.pos current.cost
                (current.pos :: visited) (nbrs current.pos) parent costMap nd'.pos c hcm
              exact ⟨c', hc'⟩
            · exact ⟨current.cost + 1, (dE_pushes_bind goal current.pos current.cost
                (current.pos :: visited) (nbrs current.pos) parent costMap nd' hp).1⟩
          · intro nd' h c hc
            rcases List.mem_append.mp h with hr | hp
            · have hndOS : nd' ∈ openSet := hmemOS nd' (List.mem_cons_of_mem current hr)
              by_cases hpush : ∃ ndp ∈ (dijkstraExpand goal current.pos current.cost
                  (current.pos :: visited) (nbrs current.pos) parent costMap).2.2.1,
                  ndp.pos = nd'.pos
              · obtain ⟨ndp, hndp, hpos⟩ := hpush
                have hbind := (dE_pushes_bind goal current.pos current.cost
                  (current.pos :: visited) (nbrs current.pos) parent costMap ndp hndp).1
                rw [hpos] at hbind
                have hceq2 : c = current.cost + 1 := by
                  rw [hc] at hbind
                  exact Option.some.injEq _ _ ▸ hbind
                obtain ⟨c0, hc0⟩ := hDHas nd' hndOS
                have hlt0 := dE_pushed_lt goal current.pos current.cost
                  (current.pos :: visited) (nbrs current.pos) parent costMap ndp hndp c0
                  (by rw [hpos]; exact hc0)
                have hmin0 := hDMin nd' hndOS c0 hc0
                omega
              · push_neg at hpush
                have hco := (dE_untouched goal current.pos current.cost
                  (current.pos :: visited) (nbrs current.pos) parent costMap nd'.pos
                  hpush).1
                rw [hco] at hc
                exact hDMin nd' hndOS c hc
            · have hbind := (dE_pushes_bind goal current.pos current.cost
                (current.pos :: visited) (nbrs current.pos) parent costMap nd' hp).1
              have hceq2 : c = current.cost + 1 := by
                rw [hc] at hbind
                exact Option.some.injEq _ _ ▸ hbind
              rw [dE_pushes_cost goal current.pos current.cost (current.pos :: visited)
                (nbrs current.pos) parent costMap nd' hp, hceq2]
          · intro n hnv1 c hc
            by_cases hpush : ∃ nd' ∈ (dijkstraExpand goal current.pos current.cost
                (current.pos :: visited) (nbrs current.pos) parent costMap).2.2.1,
                nd'.pos = n
            · obtain ⟨nd', hnd', hpos⟩ := hpush
              have hbinds := dE_pushes_bind goal current.pos current.cost
                (current.pos :: visited) (nbrs current.pos) parent costMap nd' hnd'
              have hbc := hbinds.1
              have hbp := hbinds.2
              rw [hpos] at hbc hbp
              have hceq2 : c = current.cost + 1 := by
                rw [hc] at hbc
                exact Option.some.injEq _ _ ▸ hbc
              refine Or.inr ⟨current.pos, kc, hbp, List.mem_cons_self _ _, hkc, ?_⟩
              omega
            · push_neg at hpush
              have hunt := dE_untouched goal current.pos current.cost
                (current.pos :: visited) (nbrs current.pos) parent costMap n hpush
              rw [hunt.1] at hc
              have hnv : n ∉ visited := fun h => hnv1 (List.mem_cons_of_mem _ h)
              rcases hDPar n hnv c hc with h | ⟨pr, kpr, hb, hprv, hkpr, hcs⟩
              · exact Or.inl h
              · refine Or.inr ⟨pr, kpr, ?_, List.mem_cons_of_mem _ hprv, hkpr, hcs⟩
                rw [hunt.2]
                exact hb
          · intro hgl
            rcases List.mem_cons.mp hgl with h | h
            · exact hgoal h.symm
            · exact hDGoal h
          · have hvK : visited.length + 1 ≤ keys.length := by
              apply nodup_subset_length (List.nodup_cons.mpr ⟨hvis, hnd⟩)
              intro v hv
              rcases List.mem_cons.mp hv with rfl | hv
              · exact hop current hcurOS
              · exact hvk v hv
            have hpl : (dijkstraExpand goal current.pos current.cost
                (current.pos :: visited) (nbrs current.pos) parent
                costMap).2.2.1.length ≤ D :=
              Nat.le_trans (dijkstraExpand_pushes_len goal current.pos current.cost
                (current.pos :: visited) (nbrs current.pos) parent costMap)
                (hdeg current.pos)
            have hql : (rest ++ (dijkstraExpand goal current.pos current.cost
                (current.pos :: visited) (nbrs current.pos) parent
                costMap).2.2.1).length = rest.length + (dijkstraExpand goal current.pos
                current.cost (current.pos :: visited) (nbrs current.pos) parent
                costMap).2.2.1.length := List.length_append _ _
            have hmul : (keys.length - visited.length) * (D + 1) =
                (keys.length - (visited.length + 1)) * (D + 1) + (D + 1) := by
              have hstep : keys.length - visited.length =
                  (keys.length - (visited.length + 1)) + 1 := by omega
              rw [hstep, Nat.succ_mul]
            simp only [List.length_cons]
            omega

/-- C2: on every grid (2D or 3D) in which the goal is reachable from the
start through the neighbor relation, `breadthFirstSearch` and
`dijkstraSearch` return `success = true` with a path of minimal length:
if the shortest walk has `L` edges the returned path has exactly `L + 1`
positions, starting at the start and ending at the goal. (The claim's
further assertion that `aStarSearch` returns a path of the same minimal
length is refuted by `c2_counterexample`.) -/
theorem c2_bfs_dijkstra_shortest :
    (∀ (maze : Grid) (s g : Pos2) (L : Nat),
      IsShortest (fun p => getNeighbors2D p maze) s g L →
      ∃ path n, (breadthFirstSearch2D maze s g noAbort).outcome =
        SOutcome.ok ⟨path, n, true⟩ ∧ path.length = L + 1 ∧
        path.head? = some s ∧ path.getLast? = some g) ∧
    (∀ (m : Grid3) (s g : Pos3) (L : Nat),
      IsShortest (fun p => getNeighbors3D p m) s g L →
      ∃ path n, (breadthFirstSearch3D m s g noAbort).outcome =
        SOutcome.ok ⟨path, n, true⟩ ∧ path.length = L + 1 ∧
        path.head? = some s ∧ path.getLast? = some g) ∧
    (∀ (maze : Grid) (s g : Pos2) (L : Nat),
      IsShortest (fun p => getNeighbors2D p maze) s g L →
      ∃ path n, (dijkstraSearch2D maze s g noAbort).outcome =
        SOutcome.ok ⟨path, n, true⟩ ∧ path.length = L + 1 ∧
        path.head? = some s ∧ path.getLast? = some g) ∧
    (∀ (m : Grid3) (s g : Pos3) (L : Nat),
      IsShortest (fun p => getNeighbors3D p m) s g L →
      ∃ path n, (dijkstraSearch3D m s g noAbort).outcome =
        SOutcome.ok ⟨path, n, true⟩ ∧ path.length = L + 1 ∧
        path.head? = some s ∧ path.getLast? = some g) := by
  refine ⟨?_, ?_, ?_, ?_⟩
  · intro maze s g L hL
    apply bfsLoop_optimal (fun p => getNeighbors2D p maze) s g _ (s :: allPos2 maze)
      (fun p q hq => List.mem_cons_of_mem s (getNeighbors2D_sub maze p q hq)) L hL
    · exact List.nodup_singleton s
    · intro q hq
      exact hq
    · intro v hv
      rcases List.mem_singleton.mp hv with rfl
      exact List.mem_cons_self v _
    · exact List.mem_singleton.mpr rfl
    · intro v hv
      rcases List.mem_singleton.mp hv with rfl
      exact ⟨0, shortest_start _ _, DChainV.zero⟩
    · intro x hx
      simp [alookup] at hx
    · intro pr hpr hprq m hm
      rcases List.mem_singleton.mp hpr with rfl
      exact absurd (List.mem_singleton.mpr rfl) hprq
    · by_cases h : g ∈ ([s] : List Pos2)
      · exact Or.inr h
      · exact Or.inl h
    · refine ⟨0, [s], [], rfl, ?_, ?_⟩
      · intro a ha
        rcases List.mem_singleton.mp ha with rfl
        exact shortest_start _ _
      · intro b hb
        exact absurd hb (List.not_mem_nil b)
    · rw [searchFuel2]
      simp only [List.length_cons, List.length_singleton, List.length_nil, Nat.sub_zero]
      omega
  · intro m s g L hL
    apply bfsLoop_optimal (fun p => getNeighbors3D p m) s g _ (s :: allPos3 m)
      (fun p q hq => List.mem_cons_of_mem s (getNeighbors3D_sub m p q hq)) L hL
    · exact List.nodup_singleton s
    · intro q hq
      exact hq
    · intro v hv
      rcases List.mem_singleton.mp hv with rfl
      exact List.mem_cons_self v _
    · exact List.mem_singleton.mpr rfl
    · intro v hv
      rcases List.mem_singleton.mp hv with rfl
      exact ⟨0, shortest_start _ _, DChainV.zero⟩
    · intro x hx
      simp [alookup] at hx
    · intro pr hpr hprq n hn
      rcases List.mem_singleton.mp hpr with rfl
      exact absurd (List.mem_singleton.mpr rfl) hprq
    · by_cases h : g ∈ ([s] : List Pos3)
      · exact Or.inr h
      · exact Or.inl h
    · refine ⟨0, [s], [], rfl, ?_, ?_⟩
      · intro a ha
        rcases List.mem_singleton.mp ha with rfl
        exact shortest_start _ _
      · intro b hb
        exact absurd hb (List.not_mem_nil b)
    · rw [searchFuel3]
      simp only [List.length_cons, List.length_singleton, List.length_nil, Nat.sub_zero]
      have h2 : ((allPos3 m).length + 1) * 1 ≤ ((allPos3 m).length + 2) *
          ((allPos3 m).length + 6) :=
        Nat.mul_le_mul (by omega) (by omega)
      omega
  · intro maze s g L hL
    apply dijkstraLoop_optimal (fun p => getNeighbors2D p maze) s g _ (s :: allPos2 maze)
      (fun p q hq => List.mem_cons_of_mem s (getNeighbors2D_sub maze p q hq)) 4
      (fun p => getNeighbors2D_len maze p) L hL
    · exact List.nodup_nil
    · intro nd hnd
      rcases List.mem_singleton.mp hnd with rfl
      exact List.mem_cons_self s _
    · intro v hv
      simp at hv
    · intro v hv
      simp at hv
    · intro nd hnd
      rcases List.mem_singleton.mp hnd with rfl
      exact ⟨0, shortest_start _ _, Nat.le_refl 0⟩
    · intro pr hpr
      simp at hpr
    · exact Or.inr ⟨DNode.mk s 0, List.mem_singleton.mpr rfl, rfl, rfl⟩
    · intro n c hnv hc
      have hc' : (if s = n then some (0 : Nat) else none) = some c := hc
      by_cases hsn : s = n
      · rw [if_pos hsn] at hc'
        have hc0 : c = 0 := (Option.some.injEq _ _ ▸ hc').symm
        exact ⟨DNode.mk s 0, List.mem_singleton.mpr rfl, hsn, hc0.symm⟩
      · rw [if_neg hsn] at hc'
        exact absurd hc' (by simp)
    · intro nd hnd
      rcases List.mem_singleton.mp hnd with rfl
      refine ⟨0, ?_⟩
      show (if s = s then some (0 : Nat) else none) = some 0
      rw [if_pos rfl]
    · intro nd hnd c hc
      rcases List.mem_singleton.mp hnd with rfl
      have hc' : (if s = s then some (0 : Nat) else none) = some c := hc
      rw [if_pos rfl] at hc'
      have hc0 : c = 0 := (Option.some.injEq _ _ ▸ hc').symm
      omega
    · intro n hnv c hc
      have hc' : (if s = n then some (0 : Nat) else none) = some c := hc
      by_cases hsn : s = n
      · rw [if_pos hsn] at hc'
        have hc0 : c = 0 := (Option.some.injEq _ _ ▸ hc').symm
        exact Or.inl ⟨hsn.symm, hc0⟩
      · rw [if_neg hsn] at hc'
        exact absurd hc' (by simp)
    · exact List.not_mem_nil g
    · rw [searchFuel2]
      simp only [List.length_cons, List.length_nil, Nat.sub_zero]
      omega
  · intro m s g L hL
    apply dijkstraLoop_optimal (fun p => getNeighbors3D p m) s g _ (s :: allPos3 m)
      (fun p q hq => List.mem_cons_of_mem s (getNeighbors3D_sub m p q hq))
      (4 + totalCells m) (fun p => getNeighbors3D_len m p) L hL
    · exact List.nodup_nil
    · intro nd hnd
      rcases List.mem_singleton.mp hnd with rfl
      exact List.mem_cons_self s _
    · intro v hv
      simp at hv
    · intro v hv
      simp at hv
    · intro nd hnd
      rcases List.mem_singleton.mp hnd with rfl
      exact ⟨0, shortest_start _ _, Nat.le_refl 0⟩
    · intro pr hpr
      simp at hpr
    · exact Or.inr ⟨DNode.mk s 0, List.mem_singleton.mpr rfl, rfl, rfl⟩
    · intro n c hnv hc
      have hc' : (if s = n then some (0 : Nat) else none) = some c := hc
      by_cases hsn : s = n
      · rw [if_pos hsn] at hc'
        have hc0 : c = 0 := (Option.some.injEq _ _ ▸ hc').symm
        exact ⟨DNode.mk s 0, List.mem_singleton.mpr rfl, hsn, hc0.symm⟩
      · rw [if_neg hsn] at hc'
        exact absurd hc' (by simp)
    · intro nd hnd
      rcases List.mem_singleton.mp hnd with rfl
      refine ⟨0, ?_⟩
      show (if s = s then some (0 : Nat) else none) = some 0
      rw [if_pos rfl]
    · intro nd hnd c hc
      rcases List.mem_singleton.mp hnd with rfl
      have hc' : (if s = s then some (0 : Nat) else none) = some c := hc
      rw [if_pos rfl] at hc'
      have hc0 : c = 0 := (Option.some.injEq _ _ ▸ hc').symm
      omega
    · intro n hnv c hc
      have hc' : (if s = n then some (0 : Nat) else none) = some c := hc
      by_cases hsn : s = n
      · rw [if_pos hsn] at hc'
        have hc0 : c = 0 := (Option.some.injEq _ _ ▸ hc').symm
        exact Or.inl ⟨hsn.symm, hc0⟩
      · rw [if_neg hsn] at hc'
        exact absurd hc' (by simp)
    · exact List.not_mem_nil g
    · rw [searchFuel3]
      simp only [List.length_cons, List.length_nil, Nat.sub_zero]
      have ht := totalCells_le_allPos3 m
      have h1 : ((allPos3 m).length + 1) * (4 + totalCells m + 1) ≤
          ((allPos3 m).length + 1) * ((allPos3 m).length + 5) :=
        Nat.mul_le_mul_left _ (by omega)
      have h2 : ((allPos3 m).length + 1) * ((allPos3 m).length + 5) ≤
          ((allPos3 m).length + 2) * ((allPos3 m).length + 6) :=
        Nat.mul_le_mul (by omega) (by omega)
      omega

/-- A maze with adjacent open start and goal cells. -/
def c2wmaze : Grid := [[1, 1, 1, 1], [1, 2, 2, 1], [1, 1, 1, 1]]

/-- Witness for C2: on `c2wmaze` the shortest walk from `(1,1)` to
`(2,1)` has one edge, and BFS and Dijkstra each return a two-position
path from start to goal. -/
theorem c2_bfs_dijkstra_shortest_witness :
    (∃ path n, (breadthFirstSearch2D c2wmaze ((1 : Int), (1 : Int)) ((2 : Int), (1 : Int))
      noAbort).outcome = SOutcome.ok ⟨path, n, true⟩ ∧ path.length = 1 + 1 ∧
      path.head? = some ((1 : Int), (1 : Int)) ∧
      path.getLast? = some ((2 : Int), (1 : Int))) ∧
    (∃ path n, (dijkstraSearch2D c2wmaze ((1 : Int), (1 : Int)) ((2 : Int), (1 : Int))
      noAbort).outcome = SOutcome.ok ⟨path, n, true⟩ ∧ path.length = 1 + 1 ∧
      path.head? = some ((1 : Int), (1 : Int)) ∧
      path.getLast? = some ((2 : Int), (1 : Int))) :=
  have hsh : IsShortest (fun p => getNeighbors2D p c2wmaze) ((1 : Int), (1 : Int))
      ((2 : Int), (1 : Int)) 1 :=
    ⟨NReach.step NReach.refl (by decide), by
      intro m hm
      cases m with
      | zero => exact absurd (nreach_zero _ _ _ hm) (by decide)
      | succ m => exact Nat.succ_le_succ (Nat.zero_le m)⟩
  ⟨c2_bfs_dijkstra_shortest.1 c2wmaze ((1 : Int), (1 : Int)) ((2 : Int), (1 : Int)) 1 hsh,
   c2_bfs_dijkstra_shortest.2.2.1 c2wmaze ((1 : Int), (1 : Int)) ((2 : Int), (1 : Int)) 1
     hsh⟩

/-! ## The maze generator (utils.ts lines 910-1025)

`Math.random()` is modeled as a draw stream `rng : Nat → Nat` with an
explicit call counter: the `k`-th call to `Math.floor(Math.random() * n)`
yields `drawNat rng k n`, an arbitrary value in `[0, n)` (every possible
JS outcome is realized by some `rng`, and no others). Array mutation
becomes `List.set`; all coordinates are `Int` as in the search embedding,
with `cellAt2` for reads (out-of-range reads give `0`, matching JS
`undefined` which compares unequal to every cell constant). -/

/-- `Math.floor(Math.random() * n)` as the `k`-th draw. -/
def drawNat (rng : Nat → Nat) (k n : Nat) : Nat :=
  if n = 0 then 0 else rng k % n

/-- `maze[y][x] = v` (in-bounds writes only; the generator always writes
within bounds). -/
def setCell2 (maze : Grid) (x y : Int) (v : Nat) : Grid :=
  if 0 ≤ x ∧ 0 ≤ y then maze.set y.toNat ((maze.getD y.toNat []).set x.toNat v)
  else maze

/-- The four carving directions (right, down, left, up; steps of two). -/
def dirs2 : List (Int × Int) := [(0, 2), (2, 0), (0, -2), (-2, 0)]

/-- A frontier-wall entry `[wallX, wallY, cellX, cellY]`. -/
abbrev WEntry := Int × Int × Int × Int

/-- The initial frontier walls around the random start cell (lines
935-940). -/
def initialWalls (sx sy : Int) (w h : Nat) : List WEntry :=
  dirs2.filterMap fun d =>
    let nx := sx + d.1
    let ny := sy + d.2
    if 0 < nx ∧ nx < (w : Int) - 1 ∧ 0 < ny ∧ ny < (h : Int) - 1 then
      some (sx + d.1 / 2, sy + d.2 / 2, nx, ny)
    else none

/-- The neighbor scan after carving a cell (lines 951-972): per
direction, if the two-step neighbor is an in-bounds wall and the between
wall is an un-listed wall, append a frontier entry. -/
def ewStep (maze : Grid) (w h : Nat) (cx cy : Int) (acc : List WEntry)
    (d : Int × Int) : List WEntry :=
  let nx := cx + d.1
  let ny := cy + d.2
  if 0 < nx ∧ nx < (w : Int) - 1 ∧ 0 < ny ∧ ny < (h : Int) - 1 ∧
      cellAt2 maze nx ny = CELL_WALL then
    let wbx := cx + d.1 / 2
    let wby := cy + d.2 / 2
    if (¬ acc.any fun e => e.1 = wbx ∧ e.2.1 = wby) ∧
        cellAt2 maze wbx wby = CELL_WALL then
      acc ++ [(wbx, wby, nx, ny)]
    else acc
  else acc

def expandWalls (maze : Grid) (w h : Nat) (cx cy : Int) (walls : List WEntry) :
    List WEntry :=
  dirs2.foldl (ewStep maze w h cx cy) walls

/-- The Prim carving loop (lines 942-974): pop a random frontier entry;
if its far cell is still a wall, carve the between wall and the far cell
and scan the far cell's neighbors. -/
def primLoop (rng : Nat → Nat) (w h : Nat) :
    Nat → Grid → List WEntry → Nat → Grid × Nat
  | 0, maze, _, c => (maze, c)
  | fuel + 1, maze, walls, c =>
    match walls with
    | [] => (maze, c)
    | _ :: _ =>
      let idx := drawNat rng c walls.length
      let e := walls.getD idx (0, 0, 0, 0)
      let walls' := walls.eraseIdx idx
      if cellAt2 maze e.2.2.1 e.2.2.2 = CELL_WALL then
        let maze' := setCell2 (setCell2 maze e.1 e.2.1 CELL_NODE) e.2.2.1 e.2.2.2
          CELL_NODE
        primLoop rng w h fuel maze' (expandWalls maze' w h e.2.2.1 e.2.2.2 walls')
          (c + 1)
      else primLoop rng w h fuel maze walls' (c + 1)

/-- Fuel exceeding the loop measure `5 * (odd wall cells) + |walls|`. -/
def primFuel (w h : Nat) : Nat := w * h * 5 + 5

/-- The extra-openings loop (lines 979-993): `k` times, pick a random
interior cell; if it is a wall with at least two `NODE` orthogonal
neighbors, open it. -/
def openingsLoop (rng : Nat → Nat) (w h : Nat) : Nat → Grid → Nat → Grid × Nat
  | 0, maze, c => (maze, c)
  | k + 1, maze, c =>
    let x : Int := Int.ofNat (drawNat rng c (w - 2) + 1)
    let y : Int := Int.ofNat (drawNat rng (c + 1) (h - 2) + 1)
    if cellAt2 maze x y = CELL_WALL then
      let cnt := (if cellAt2 maze x (y - 1) = CELL_NODE then 1 else 0) +
        (if cellAt2 maze x (y + 1) = CELL_NODE then 1 else 0) +
        (if cellAt2 maze (x - 1) y = CELL_NODE then 1 else 0) +
        (if cellAt2 maze (x + 1) y = CELL_NODE then 1 else 0)
      if 2 ≤ cnt then openingsLoop rng w h k (setCell2 maze x y CELL_NODE) (c + 2)
      else openingsLoop rng w h k maze (c + 2)
    else openingsLoop rng w h k maze (c + 2)

/-- The interior `NODE` scan (lines 997-1004), row-major. -/
def nodesOf (maze : Grid) (w h : Nat) : List (Int × Int) :=
  (List.range (h - 2)).flatMap fun dy =>
    (List.range (w - 2)).filterMap fun dx =>
      if cellAt2 maze (Int.ofNat dx + 1) (Int.ofNat dy + 1) = CELL_NODE then
        some (Int.ofNat dx + 1, Int.ofNat dy + 1)
      else none

/-- The two `throw new Error(...)` outcomes of the generators. -/
inductive GenError : Type
  | mazeTooSmall
  | werros
deriving DecidableEq

/-- `generateMaze` (lines 910-1025). Returns the result together with
the advanced draw counter. -/
def generateMaze (rng : Nat → Nat) (width height : Nat) (wd : ℚ) (c0 : Nat) :
    Except GenError Grid × Nat :=
  let w := if width % 2 = 0 then width + 1 else width
  let h := if height % 2 = 0 then height + 1 else height
  let maze0 : Grid := List.replicate h (List.replicate w CELL_WALL)
  let sx : Int := Int.ofNat (1 + drawNat rng c0 ((w - 2) / 2) * 2)
  let sy : Int := Int.ofNat (1 + drawNat rng (c0 + 1) ((h - 2) / 2) * 2)
  let maze1 := setCell2 maze0 sx sy CELL_NODE
  let out2 := primLoop rng w h (primFuel w h) maze1 (initialWalls sx sy w h) (c0 + 2)
  let nOp := if wd < 1 then (Int.floor ((w * h : ℚ) * (1 - wd) * (1 / 10))).toNat
    else 0
  let out3 := openingsLoop rng w h nOp out2.1 out2.2
  let nodes := nodesOf out3.1 w h
  if nodes.length < 2 then (Except.error GenError.mazeTooSmall, out3.2)
  else
    let topLeft := nodes.filter fun p => 3 * p.1 < (w : Int) ∧ 3 * p.2 < (h : Int)
    let spc : (Int × Int) × Nat :=
      if topLeft.length > 0 then
        (topLeft.getD (drawNat rng out3.2 topLeft.length) (0, 0), out3.2 + 1)
      else (nodes.getD 0 (0, 0), out3.2)
    let maze4 := setCell2 out3.1 spc.1.1 spc.1.2 CELL_START
    let bottomRight := nodes.filter fun p =>
      2 * (w : Int) < 3 * p.1 ∧ 2 * (h : Int) < 3 * p.2
    let gpc : (Int × Int) × Nat :=
      if bottomRight.length > 0 then
        (bottomRight.getD (drawNat rng spc.2 bottomRight.length) (0, 0), spc.2 + 1)
      else (nodes.getD (nodes.length - 1) (0, 0), spc.2)
    let maze5 := setCell2 maze4 gpc.1.1 gpc.1.2 CELL_GOAL
    (Except.ok maze5, gpc.2)

/-! ## Generator proofs: cell access toolkit -/

/-- In-bounds coordinates of a `w × h` grid. -/
def InB (w h : Nat) (x y : Int) : Prop :=
  0 ≤ x ∧ x < (w : Int) ∧ 0 ≤ y ∧ y < (h : Int)

/-- Odd interior cells: both coordinates odd, strictly inside the border. -/
def OddIn (w h : Nat) (x y : Int) : Prop :=
  x % 2 = 1 ∧ y % 2 = 1 ∧ 0 < x ∧ x < (w : Int) - 1 ∧ 0 < y ∧ y < (h : Int) - 1

/-- The maze has `h` rows of `w` cells each. -/
def Dims (maze : Grid) (w h : Nat) : Prop :=
  maze.length = h ∧ ∀ row ∈ maze, row.length = w

theorem dims_row_len {maze : Grid} {w h : Nat} (hd : Dims maze w h) {j : Nat}
    (hj : j < h) : (maze.getD j []).length = w := by
  have hjl : j < maze.length := by rw [hd.1]; exact hj
  exact hd.2 _ (getD_mem [] hjl)

theorem dims_set {maze : Grid} {w h : Nat} (hd : Dims maze w h) (x y : Int) (v : Nat) :
    Dims (setCell2 maze x y v) w h := by
  rw [setCell2]
  by_cases hb : 0 ≤ x ∧ 0 ≤ y
  · rw [if_pos hb]
    refine ⟨by rw [List.length_set]; exact hd.1, ?_⟩
    intro row hrow
    by_cases hy : y.toNat < maze.length
    · rcases List.mem_or_eq_of_mem_set hrow with h | h
      · exact hd.2 row h
      · subst h
        rw [List.length_set]
        exact hd.2 _ (getD_mem [] hy)
    · rw [List.set_eq_of_length_le (by omega)] at hrow
      exact hd.2 row hrow
  · rw [if_neg hb]
    exact hd

theorem getD_set_self {β : Type} {l : List β} {i : Nat} (h : i < l.length) (a d : β) :
    (l.set i a).getD i d = a := by
  rw [List.getD_eq_getElem?_getD, List.getElem?_set_self h, Option.getD_some]

theorem getD_set_ne {β : Type} {l : List β} {i j : Nat} (h : i ≠ j) (a d : β) :
    (l.set i a).getD j d = l.getD j d := by
  rw [List.getD_eq_getElem?_getD, List.getElem?_set_ne h, ← List.getD_eq_getElem?_getD]

theorem cellAt2_set_self {maze : Grid} {w h : Nat} (hd : Dims maze w h) {x y : Int}
    (hb : InB w h x y) (v : Nat) : cellAt2 (setCell2 maze x y v) x y = v := by
  obtain ⟨hx0, hxw, hy0, hyh⟩ := hb
  rw [setCell2, if_pos ⟨hx0, hy0⟩, cellAt2, if_pos ⟨hx0, hy0⟩]
  have hyl : y.toNat < maze.length := by rw [hd.1]; omega
  have hrow : (maze.getD y.toNat []).length = w := dims_row_len hd (by omega)
  rw [getD_set_self hyl]
  rw [getD_set_self (by rw [hrow]; omega)]

theorem cellAt2_set_other {maze : Grid} {x y x' y' : Int} (v : Nat)
    (hne : ¬(x' = x ∧ y' = y)) :
    cellAt2 (setCell2 maze x y v) x' y' = cellAt2 maze x' y' := by
  rw [setCell2]
  by_cases hb : 0 ≤ x ∧ 0 ≤ y
  · rw [if_pos hb]
    rw [cellAt2, cellAt2]
    by_cases hb' : 0 ≤ x' ∧ 0 ≤ y'
    · rw [if_pos hb', if_pos hb']
      by_cases hyy : y'.toNat = y.toNat
      · have hyeq : y' = y := by omega
        have hxne : x.toNat ≠ x'.toNat := by
          intro hc
          exact hne ⟨by omega, hyeq⟩
        by_cases hyl : y.toNat < maze.length
        · rw [hyy, getD_set_self hyl, getD_set_ne hxne]
        · rw [List.set_eq_of_length_le (by omega)]
      · rw [getD_set_ne (fun hc => hyy hc.symm)]
    · rw [if_neg hb', if_neg hb']
  · rw [if_neg hb]

/-- Every in-bounds cell is a wall or a corridor node. -/
def CellsWN (maze : Grid) (w h : Nat) : Prop :=
  ∀ x y : Int, InB w h x y →
    cellAt2 maze x y = CELL_WALL ∨ cellAt2 maze x y = CELL_NODE

/-- NODE cells survive an update that writes `NODE`, `START`-free. -/
def NodeMono (a b : Grid) : Prop :=
  ∀ x y : Int, cellAt2 a x y = CELL_NODE → cellAt2 b x y = CELL_NODE

theorem nodeMono_refl (a : Grid) : NodeMono a a := fun _ _ h => h

theorem nodeMono_trans {a b c : Grid} (h1 : NodeMono a b) (h2 : NodeMono b c) :
    NodeMono a c := fun x y h => h2 x y (h1 x y h)

theorem nodeMono_set_node {a : Grid} (x y : Int) {w h : Nat} (hd : Dims a w h)
    (hb : InB w h x y) : NodeMono a (setCell2 a x y CELL_NODE) := by
  intro x' y' hn
  by_cases he : x' = x ∧ y' = y
  · rw [he.1, he.2]
    exact cellAt2_set_self hd hb CELL_NODE
  · rw [cellAt2_set_other CELL_NODE he]
    exact hn

/-! ## Counting cells -/

/-- Occurrences of value `v` in one row. -/
def countRow (row : List Nat) (v : Nat) : Nat := row.countP fun c => decide (c = v)

/-- Occurrences of value `v` in the whole grid. -/
def countCells (maze : Grid) (v : Nat) : Nat :=
  (maze.map fun row => countRow row v).sum

theorem countRow_set {row : List Nat} {i : Nat} (hi : i < row.length) (u v : Nat) :
    countRow (row.set i u) v + (if row.getD i 0 = v then 1 else 0) =
      countRow row v + (if u = v then 1 else 0) := by
  induction row generalizing i with
  | nil => simp at hi
  | cons a rest ih =>
    have hcp : ∀ (b : Nat) (l : List Nat), List.countP (fun c => decide (c = v)) (b :: l) =
        List.countP (fun c => decide (c = v)) l + if b = v then 1 else 0 := by
      intro b l
      rw [List.countP_cons]
      by_cases hb : b = v <;> simp [hb]
    cases i with
    | zero =>
      simp only [List.set_cons_zero, List.getD_cons_zero, countRow, hcp]
      omega
    | succ i =>
      have hi' : i < rest.length := by simpa using hi
      have ih' := ih hi'
      simp only [List.set_cons_succ, List.getD_cons_succ, countRow, hcp] at ih' ⊢
      omega

theorem sum_set {l : List Nat} {i : Nat} (hi : i < l.length) (b : Nat) :
    (l.set i b).sum + l.getD i 0 = l.sum + b := by
  induction l generalizing i with
  | nil => simp at hi
  | cons a rest ih =>
    cases i with
    | zero => simp [List.sum_cons]; omega
    | succ i =>
      simp only [List.set_cons_succ, List.getD_cons_succ, List.sum_cons]
      have := ih (by simpa using hi)
      omega

theorem countCells_set {maze : Grid} {w h : Nat} (hd : Dims maze w h) {x y : Int}
    (hb : InB w h x y) (u v : Nat) :
    countCells (setCell2 maze x y u) v + (if cellAt2 maze x y = v then 1 else 0) =
      countCells maze v + (if u = v then 1 else 0) := by
  obtain ⟨hx0, hxw, hy0, hyh⟩ := hb
  rw [setCell2, if_pos ⟨hx0, hy0⟩]
  have hyl : y.toNat < maze.length := by rw [hd.1]; omega
  have hrl : (maze.getD y.toNat []).length = w := dims_row_len hd (by omega)
  have hxl : x.toNat < (maze.getD y.toNat []).length := by rw [hrl]; omega
  have hcell : cellAt2 maze x y = (maze.getD y.toNat []).getD x.toNat 0 := by
    rw [cellAt2, if_pos ⟨hx0, hy0⟩]
  rw [countCells, countCells, List.map_set]
  have hsum := sum_set (l := maze.map fun row => countRow row v) (b := countRow
    ((maze.getD y.toNat []).set x.toNat u) v)
    (i := y.toNat) (by rw [List.length_map]; exact hyl)
  have hgd : (maze.map fun row => countRow row v).getD y.toNat 0 =
      countRow (maze.getD y.toNat []) v := by
    rw [List.getD_eq_getElem?_getD, List.getElem?_map,
      List.getD_eq_getElem?_getD, List.getElem?_eq_getElem hyl]
    rfl
  rw [hgd] at hsum
  have hcr := countRow_set hxl u v
  rw [← hcell] at hcr
  omega

theorem countCells_zero {maze : Grid} {w h : Nat} (hd : Dims maze w h)
    (hwn : CellsWN maze w h) (v : Nat) (hv1 : v ≠ CELL_WALL) (hv2 : v ≠ CELL_NODE) :
    countCells maze v = 0 := by
  rw [countCells]
  rw [List.sum_eq_zero]
  intro a ha
  rcases List.mem_map.mp ha with ⟨row, hrow, rfl⟩
  rw [countRow, List.countP_eq_zero]
  intro c hc
  obtain ⟨j, hj, hjr⟩ := List.mem_iff_getElem.mp hrow
  obtain ⟨i, hi, hic⟩ := List.mem_iff_getElem.mp hc
  have hwrow : row.length = w := hd.2 row hrow
  have hcv : cellAt2 maze (Int.ofNat i) (Int.ofNat j) = c := by
    rw [cellAt2, if_pos ⟨Int.natCast_nonneg i, Int.natCast_nonneg j⟩]
    have h1 : (Int.ofNat j).toNat = j := rfl
    have h2 : (Int.ofNat i).toNat = i := rfl
    rw [h1, h2]
    have hrowj : maze.getD j [] = row := by
      rw [List.getD_eq_getElem?_getD, List.getElem?_eq_getElem hj, Option.getD_some, hjr]
    rw [hrowj]
    rw [List.getD_eq_getElem?_getD, List.getElem?_eq_getElem hi, Option.getD_some, hic]
  have hin : InB w h (Int.ofNat i) (Int.ofNat j) := by
    refine ⟨Int.natCast_nonneg i, ?_, Int.natCast_nonneg j, ?_⟩
    · rw [hwrow] at hi
      simp only [Int.ofNat_eq_natCast]
      omega
    · rw [hd.1] at hj
      simp only [Int.ofNat_eq_natCast]
      omega
  rcases hwn _ _ hin with hw | hn
  · intro hcd
    have hcveq : c = v := by simpa using hcd
    rw [hcv] at hw
    omega
  · intro hcd
    have hcveq : c = v := by simpa using hcd
    rw [hcv] at hn
    omega

/-! ## Generator proofs: carving geometry -/

/-- The frontier entry recorded when scanning from cell `(x, y)` in
direction `d`: the between wall and the two-step target. -/
def entryOf (x y : Int) (d : Int × Int) : WEntry :=
  (x + d.1 / 2, y + d.2 / 2, x + d.1, y + d.2)

theorem dirs2_cases {d : Int × Int} (hd : d ∈ dirs2) :
    d = (0, 2) ∨ d = (2, 0) ∨ d = (0, -2) ∨ d = (-2, 0) := by
  simp only [dirs2, List.mem_cons, List.not_mem_nil, or_false] at hd
  exact hd

theorem dirs2_parity {x y : Int} {d : Int × Int} (hd : d ∈ dirs2) :
    (x + d.1) % 2 = x % 2 ∧ (y + d.2) % 2 = y % 2 := by
  rcases dirs2_cases hd with rfl | rfl | rfl | rfl <;> constructor <;> omega

/-- A wall position between two odd cells determines the flanking pair:
two scans recording the same wall position saw the same unordered pair of
cells. -/
theorem wallpos_pair {x y x' y' : Int} {d d' : Int × Int} (hd : d ∈ dirs2)
    (hd' : d' ∈ dirs2) (hx : x % 2 = 1) (hy : y % 2 = 1) (hx' : x' % 2 = 1)
    (hy' : y' % 2 = 1) (he1 : x + d.1 / 2 = x' + d'.1 / 2)
    (he2 : y + d.2 / 2 = y' + d'.2 / 2) :
    (x' = x ∧ y' = y ∧ x' + d'.1 = x + d.1 ∧ y' + d'.2 = y + d.2) ∨
    (x' = x + d.1 ∧ y' = y + d.2 ∧ x' + d'.1 = x ∧ y' + d'.2 = y) := by
  rcases dirs2_cases hd with rfl | rfl | rfl | rfl <;>
    rcases dirs2_cases hd' with rfl | rfl | rfl | rfl <;>
    norm_num at he1 he2 ⊢ <;> omega

/-- The between wall of an in-range two-step move lies strictly inside
the border. -/
theorem mid_inb {w h : Nat} {x y : Int} {d : Int × Int} (hd : d ∈ dirs2)
    (hp : OddIn w h x y) (hq : OddIn w h (x + d.1) (y + d.2)) :
    InB w h (x + d.1 / 2) (y + d.2 / 2) := by
  obtain ⟨_, _, hx0, hxw, hy0, hyh⟩ := hp
  obtain ⟨_, _, hx0', hxw', hy0', hyh'⟩ := hq
  rcases dirs2_cases hd with rfl | rfl | rfl | rfl <;>
    refine ⟨?_, ?_, ?_, ?_⟩ <;> norm_num <;> omega

theorem oddIn_inb {w h : Nat} {x y : Int} (hp : OddIn w h x y) : InB w h x y := by
  obtain ⟨_, _, hx0, hxw, hy0, hyh⟩ := hp
  exact ⟨by omega, by omega, by omega, by omega⟩

/-- The midpoint differs from both flanking cells and from every odd
cell (one of its coordinates is even). -/
theorem mid_ne_odd {x y mx my : Int} {d : Int × Int} (hd : d ∈ dirs2)
    (hx : x % 2 = 1) (hy : y % 2 = 1) (hmx : mx % 2 = 1) (hmy : my % 2 = 1) :
    ¬(x + d.1 / 2 = mx ∧ y + d.2 / 2 = my) := by
  rcases dirs2_cases hd with rfl | rfl | rfl | rfl <;> norm_num <;> omega

/-! ## The carving measure -/

/-- All in-bounds positions of a `w × h` grid. -/
def allCells (w h : Nat) : List (Int × Int) :=
  (List.range h).flatMap fun j => (List.range w).map fun i => (Int.ofNat i, Int.ofNat j)

/-- The number of `NODE` cells. -/
def nodeCount (maze : Grid) (w h : Nat) : Nat :=
  (allCells w h).countP fun p => decide (cellAt2 maze p.1 p.2 = CELL_NODE)

theorem allCells_length (w h : Nat) : (allCells w h).length = w * h := by
  induction h with
  | zero => rfl
  | succ h ih =>
    rw [allCells, List.range_succ, List.flatMap_append]
    rw [List.length_append]
    rw [allCells] at ih
    rw [ih]
    simp [Nat.mul_succ]

theorem mem_allCells {w h : Nat} {x y : Int} (hb : InB w h x y) :
    (x, y) ∈ allCells w h := by
  obtain ⟨hx0, hxw, hy0, hyh⟩ := hb
  rw [allCells]
  rw [List.mem_flatMap]
  refine ⟨y.toNat, List.mem_range.mpr (by omega), ?_⟩
  rw [List.mem_map]
  refine ⟨x.toNat, List.mem_range.mpr (by omega), ?_⟩
  simp only [Int.ofNat_eq_natCast, Prod.mk.injEq]
  omega

theorem countP_strict {β : Type} {p p' : β → Bool} :
    ∀ {l : List β} {c : β}, c ∈ l → p c = false → p' c = true →
      (∀ x ∈ l, p x = true → p' x = true) → l.countP p + 1 ≤ l.countP p' := by
  intro l
  induction l with
  | nil => intro c hc; simp at hc
  | cons a rest ih =>
    intro c hc hpc hpc' hmono
    rcases List.mem_cons.mp hc with rfl | hc
    · have h1 : List.countP p (c :: rest) = List.countP p rest := by
        rw [List.countP_cons, hpc]
        rfl
      have h2 : List.countP p' (c :: rest) = List.countP p' rest + 1 := by
        rw [List.countP_cons, hpc']
        rfl
      have hmono' := List.countP_mono_left
        (fun x hx => hmono x (List.mem_cons_of_mem c hx))
      omega
    · have hrec := ih hc hpc hpc' (fun x hx => hmono x (List.mem_cons_of_mem a hx))
      rw [List.countP_cons, List.countP_cons]
      by_cases hpa : p a = true
      · rw [if_pos hpa, if_pos (hmono a (List.mem_cons_self a rest) hpa)]
        omega
      · rw [if_neg hpa]
        by_cases hpa' : p' a = true
        · rw [if_pos hpa']
          omega
        · rw [if_neg hpa']
          omega

theorem nodeCount_le (maze : Grid) (w h : Nat) : nodeCount maze w h ≤ w * h := by
  rw [nodeCount, ← allCells_length w h]
  exact List.countP_le_length _

theorem nodeCount_mono {a b : Grid} (w h : Nat) (hm : NodeMono a b) :
    nodeCount a w h ≤ nodeCount b w h := by
  apply List.countP_mono_left
  intro p hp hpa
  simp only [decide_eq_true_eq] at hpa ⊢
  exact hm p.1 p.2 hpa

theorem nodeCount_strict {a b : Grid} {w h : Nat} {x y : Int} (hb : InB w h x y)
    (hm : NodeMono a b) (ha : cellAt2 a x y ≠ CELL_NODE)
    (hbn : cellAt2 b x y = CELL_NODE) :
    nodeCount a w h + 1 ≤ nodeCount b w h := by
  apply countP_strict (mem_allCells hb)
  · simp only [decide_eq_false_iff_not]
    exact ha
  · simp only [decide_eq_true_eq]
    exact hbn
  · intro p hp hpa
    simp only [decide_eq_true_eq] at hpa ⊢
    exact hm p.1 p.2 hpa

/-! ## Prim-loop invariants -/

/-- Every frontier entry was recorded from a `NODE` cell toward an odd
interior target: `e = entryOf x y d` with `(x, y)` a `NODE`. -/
def WF (w h : Nat) (maze : Grid) (walls : List WEntry) : Prop :=
  ∀ e ∈ walls, ∃ x y d, d ∈ dirs2 ∧ OddIn w h x y ∧ OddIn w h (x + d.1) (y + d.2) ∧
    cellAt2 maze x y = CELL_NODE ∧ e = entryOf x y d

/-- Every carved cell with an uncarved odd neighbor has the frontier
entry that will carve it. -/
def KI (w h : Nat) (maze : Grid) (walls : List WEntry) : Prop :=
  ∀ (x y : Int) (d : Int × Int), d ∈ dirs2 → OddIn w h x y →
    OddIn w h (x + d.1) (y + d.2) → cellAt2 maze x y = CELL_NODE →
    cellAt2 maze (x + d.1) (y + d.2) = CELL_WALL → entryOf x y d ∈ walls

/-- A carved between wall has a carved flanking cell. -/
def MidNode (w h : Nat) (maze : Grid) : Prop :=
  ∀ (x y : Int) (d : Int × Int), d ∈ dirs2 → OddIn w h x y →
    OddIn w h (x + d.1) (y + d.2) →
    cellAt2 maze (x + d.1 / 2) (y + d.2 / 2) = CELL_NODE →
    cellAt2 maze x y = CELL_NODE ∨ cellAt2 maze (x + d.1) (y + d.2) = CELL_NODE

theorem ewStep_sub {maze : Grid} {w h : Nat} {cx cy : Int} {acc : List WEntry}
    {d : Int × Int} {e : WEntry} (he : e ∈ acc) : e ∈ ewStep maze w h cx cy acc d := by
  rw [ewStep]
  dsimp only
  split
  · split
    · exact List.mem_append.mpr (Or.inl he)
    · exact he
  · exact he

theorem ew_foldl_sub {maze : Grid} {w h : Nat} {cx cy : Int} :
    ∀ (ds : List (Int × Int)) (acc : List WEntry) (e : WEntry), e ∈ acc →
      e ∈ List.foldl (ewStep maze w h cx cy) acc ds := by
  intro ds
  induction ds with
  | nil => intro acc e he; exact he
  | cons d rest ih =>
    intro acc e he
    exact ih _ e (ewStep_sub he)

theorem ewStep_src {maze : Grid} {w h : Nat} {cx cy : Int} {acc : List WEntry}
    {d : Int × Int} {e : WEntry} (he : e ∈ ewStep maze w h cx cy acc d) :
    e ∈ acc ∨ (e = entryOf cx cy d ∧ 0 < cx + d.1 ∧ cx + d.1 < (w : Int) - 1 ∧
      0 < cy + d.2 ∧ cy + d.2 < (h : Int) - 1 ∧
      cellAt2 maze (cx + d.1) (cy + d.2) = CELL_WALL) := by
  rw [ewStep] at he
  dsimp only at he
  by_cases hc1 : 0 < cx + d.1 ∧ cx + d.1 < (w : Int) - 1 ∧ 0 < cy + d.2 ∧
      cy + d.2 < (h : Int) - 1 ∧ cellAt2 maze (cx + d.1) (cy + d.2) = CELL_WALL
  · rw [if_pos hc1] at he
    by_cases hc2 : (¬ acc.any fun e => e.1 = cx + d.1 / 2 ∧ e.2.1 = cy + d.2 / 2) ∧
        cellAt2 maze (cx + d.1 / 2) (cy + d.2 / 2) = CELL_WALL
    · rw [if_pos hc2] at he
      rcases List.mem_append.mp he with h1 | h1
      · exact Or.inl h1
      · rcases List.mem_singleton.mp h1 with rfl
        exact Or.inr ⟨rfl, hc1.1, hc1.2.1, hc1.2.2.1, hc1.2.2.2.1, hc1.2.2.2.2⟩
    · rw [if_neg hc2] at he
      exact Or.inl he
  · rw [if_neg hc1] at he
    exact Or.inl he

theorem ew_foldl_src {maze : Grid} {w h : Nat} {cx cy : Int} :
    ∀ (ds : List (Int × Int)) (acc : List WEntry) (e : WEntry),
      e ∈ List.foldl (ewStep maze w h cx cy) acc ds →
      e ∈ acc ∨ ∃ d ∈ ds, e = entryOf cx cy d ∧ 0 < cx + d.1 ∧
        cx + d.1 < (w : Int) - 1 ∧ 0 < cy + d.2 ∧ cy + d.2 < (h : Int) - 1 ∧
        cellAt2 maze (cx + d.1) (cy + d.2) = CELL_WALL := by
  intro ds
  induction ds with
  | nil => intro acc e he; exact Or.inl he
  | cons d rest ih =>
    intro acc e he
    rcases ih _ e he with h1 | ⟨d', hd', hprops⟩
    · rcases ewStep_src h1 with h2 | h2
      · exact Or.inl h2
      · exact Or.inr ⟨d, List.mem_cons_self d rest, h2⟩
    · exact Or.inr ⟨d', List.mem_cons_of_mem d hd', hprops⟩

theorem ewStep_len {maze : Grid} {w h : Nat} {cx cy : Int} {acc : List WEntry}
    {d : Int × Int} : (ewStep maze w h cx cy acc d).length ≤ acc.length + 1 := by
  rw [ewStep]
  dsimp only
  split
  · split
    · rw [List.length_append]
      exact Nat.le_refl _
    · omega
  · omega

theorem ew_foldl_len {maze : Grid} {w h : Nat} {cx cy : Int} :
    ∀ (ds : List (Int × Int)) (acc : List WEntry),
      (List.foldl (ewStep maze w h cx cy) acc ds).length ≤ acc.length + ds.length := by
  intro ds
  induction ds with
  | nil => intro acc; exact Nat.le_refl _
  | cons d rest ih =>
    intro acc
    calc (List.foldl (ewStep maze w h cx cy) (ewStep maze w h cx cy acc d) rest).length
        ≤ (ewStep maze w h cx cy acc d).length + rest.length := ih _
      _ ≤ acc.length + 1 + rest.length := Nat.add_le_add_right ewStep_len _
      _ = acc.length + (d :: rest).length := by
          simp only [List.length_cons]
          omega

/-- Coverage: scanning from a carved odd cell records (or finds already
recorded) the frontier entry toward every uncarved odd neighbor. -/
theorem ew_foldl_cover {maze : Grid} {w h : Nat} {cx cy : Int}
    (hodd : OddIn w h cx cy) (hcnode : cellAt2 maze cx cy = CELL_NODE)
    (hwn : CellsWN maze w h)
    (hmid : ∀ d ∈ dirs2, OddIn w h (cx + d.1) (cy + d.2) →
      cellAt2 maze (cx + d.1) (cy + d.2) = CELL_WALL →
      cellAt2 maze (cx + d.1 / 2) (cy + d.2 / 2) ≠ CELL_NODE) :
    ∀ (ds : List (Int × Int)), (∀ d ∈ ds, d ∈ dirs2) →
      ∀ (acc : List WEntry), WF w h maze acc →
      ∀ d ∈ ds, OddIn w h (cx + d.1) (cy + d.2) →
        cellAt2 maze (cx + d.1) (cy + d.2) = CELL_WALL →
        entryOf cx cy d ∈ List.foldl (ewStep maze w h cx cy) acc ds := by
  intro ds
  induction ds with
  | nil => intro _ acc _ d hd; simp at hd
  | cons d0 rest ih =>
    intro hds acc hWF d hd hoddt hwall
    have hd0 : d0 ∈ dirs2 := hds d0 (List.mem_cons_self d0 rest)
    have hWF' : WF w h maze (ewStep maze w h cx cy acc d0) := by
      intro e he
      rcases ewStep_src he with h1 | ⟨rfl, hb1, hb2, hb3, hb4, hw0⟩
      · exact hWF e h1
      · refine ⟨cx, cy, d0, hd0, hodd, ?_, hcnode, rfl⟩
        obtain ⟨hx2, hy2, _, _, _, _⟩ := hodd
        have hpar := dirs2_parity (x := cx) (y := cy) hd0
        exact ⟨by omega, by omega, hb1, hb2, hb3, hb4⟩
    rcases List.mem_cons.mp hd with rfl | hdrest
    · -- the scan step for `d` itself
      have hddirs : d ∈ dirs2 := hds d hd
      rw [List.foldl_cons]
      apply ew_foldl_sub
      rw [ewStep]
      dsimp only
      rw [if_pos ⟨hoddt.2.2.1, hoddt.2.2.2.1, hoddt.2.2.2.2.1, hoddt.2.2.2.2.2, hwall⟩]
      by_cases hany : (acc.any fun e => e.1 = cx + d.1 / 2 ∧ e.2.1 = cy + d.2 / 2) = true
      · -- an entry with this wall position exists: it is this very entry
        rw [List.any_eq_true] at hany
        obtain ⟨e, he, hep⟩ := hany
        simp only [decide_eq_true_eq] at hep
        obtain ⟨x', y', d', hd', hodd', hoddt', hnode', rfl⟩ := hWF e he
        have hw1 : x' + d'.1 / 2 = cx + d.1 / 2 := hep.1
        have hw2 : y' + d'.2 / 2 = cy + d.2 / 2 := hep.2
        have hpair := wallpos_pair hd' hddirs hodd'.1 hodd'.2.1 hodd.1 hodd.2.1
          hw1 hw2
        rcases hpair with ⟨hxx, hyy, hc1, hc2⟩ | ⟨hxx, hyy, hc1, hc2⟩
        · -- same source: the stored entry is `entryOf cx cy d`
          have heq : entryOf x' y' d' = entryOf cx cy d := by
            rw [entryOf, entryOf]
            rw [Prod.mk.injEq, Prod.mk.injEq, Prod.mk.injEq]
            exact ⟨hw1, hw2, hc1.symm, hc2.symm⟩
          rw [← heq]
          split
          · exact List.mem_append.mpr (Or.inl he)
          · exact he
        · -- opposite orientation: the stored source is the target, so the
          -- target would be a carved node
          exfalso
          rw [hc1, hc2] at hwall
          rw [hwall] at hnode'
          exact absurd hnode' (by rw [CELL_WALL, CELL_NODE]; omega)
      · rw [Bool.not_eq_true] at hany
        by_cases hwb : cellAt2 maze (cx + d.1 / 2) (cy + d.2 / 2) = CELL_WALL
        · rw [if_pos ⟨by rw [hany]; exact Bool.false_ne_true, hwb⟩]
          exact List.mem_append.mpr (Or.inr (List.mem_singleton.mpr rfl))
        · exfalso
          have hinb := mid_inb hddirs hodd hoddt
          rcases hwn _ _ hinb with h1 | h1
          · exact hwb h1
          · exact hmid d hddirs hoddt hwall h1
    · rw [List.foldl_cons]
      exact ih (fun d' hd' => hds d' (List.mem_cons_of_mem d0 hd')) _ hWF' d hdrest
        hoddt hwall

theorem drawNat_lt (rng : Nat → Nat) (k : Nat) {n : Nat} (hn : 0 < n) :
    drawNat rng k n < n := by
  rw [drawNat, if_neg (by omega)]
  exact Nat.mod_lt _ hn

theorem mem_eraseIdx_of_ne {β : Type} :
    ∀ (l : List β) (i : Nat) (a d : β), a ∈ l → a ≠ l.getD i d → a ∈ l.eraseIdx i := by
  intro l
  induction l with
  | nil => intro i a d ha; simp at ha
  | cons b t ih =>
    intro i a d ha hne
    cases i with
    | zero =>
      rcases List.mem_cons.mp ha with rfl | ha
      · exact absurd rfl hne
      · exact ha
    | succ i =>
      rw [List.eraseIdx_cons_succ]
      rcases List.mem_cons.mp ha with rfl | ha
      · exact List.mem_cons_self a _
      · exact List.mem_cons_of_mem b (ih i a d ha hne)

theorem eraseIdx_sub {β : Type} :
    ∀ (l : List β) (i : Nat) (a : β), a ∈ l.eraseIdx i → a ∈ l := by
  intro l
  induction l with
  | nil => intro i a ha; simp at ha
  | cons b t ih =>
    intro i a ha
    cases i with
    | zero => exact List.mem_cons_of_mem b ha
    | succ i =>
      rw [List.eraseIdx_cons_succ] at ha
      rcases List.mem_cons.mp ha with rfl | ha
      · exact List.mem_cons_self a _
      · exact List.mem_cons_of_mem b (ih i a ha)

theorem cellAt2_preserved {maze : Grid} {wx wy tx ty : Int} (a b : Int)
    (h1 : ¬(a = wx ∧ b = wy)) (h2 : ¬(a = tx ∧ b = ty)) :
    cellAt2 (setCell2 (setCell2 maze wx wy CELL_NODE) tx ty CELL_NODE) a b =
      cellAt2 maze a b := by
  rw [cellAt2_set_other _ h2, cellAt2_set_other _ h1]

theorem wall_ne_node : CELL_WALL ≠ CELL_NODE := by
  rw [CELL_WALL, CELL_NODE]
  omega

/-- The Prim loop, run with fuel exceeding its measure, yields a maze of
walls and nodes in which the carved part is closed under odd-lattice
adjacency — together with dimension preservation and `NODE`
monotonicity. -/
theorem primLoop_spec (rng : Nat → Nat) (w h : Nat) :
    ∀ (fuel : Nat) (maze : Grid) (walls : List WEntry) (c : Nat),
      Dims maze w h → CellsWN maze w h → WF w h maze walls → KI w h maze walls →
      MidNode w h maze →
      5 * (w * h - nodeCount maze w h) + walls.length < fuel →
      Dims (primLoop rng w h fuel maze walls c).1 w h ∧
      CellsWN (primLoop rng w h fuel maze walls c).1 w h ∧
      NodeMono maze (primLoop rng w h fuel maze walls c).1 ∧
      (∀ (x y : Int) (d : Int × Int), d ∈ dirs2 → OddIn w h x y →
        OddIn w h (x + d.1) (y + d.2) →
        cellAt2 (primLoop rng w h fuel maze walls c).1 x y = CELL_NODE →
        cellAt2 (primLoop rng w h fuel maze walls c).1 (x + d.1) (y + d.2) =
          CELL_NODE) := by
  intro fuel
  induction fuel with
  | zero =>
    intro maze walls c _ _ _ _ _ hm
    omega
  | succ fuel ih =>
    intro maze walls c hdim hwn hWF hKI hMid hm
    cases walls with
    | nil =>
      have hres : primLoop rng w h (fuel + 1) maze [] c = (maze, c) := rfl
      rw [hres]
      refine ⟨hdim, hwn, nodeMono_refl maze, ?_⟩
      intro x y d hd hodd hoddt hnode
      rcases hwn _ _ (oddIn_inb hoddt) with hw | hn
      · exact absurd (hKI x y d hd hodd hoddt hnode hw) (List.not_mem_nil _)
      · exact hn
    | cons e0 rest0 =>
      have hlen0 : 0 < (e0 :: rest0).length := by simp
      have hidx : drawNat rng c (e0 :: rest0).length < (e0 :: rest0).length :=
        drawNat_lt _ _ hlen0
      have hpop : (e0 :: rest0).getD (drawNat rng c (e0 :: rest0).length) (0, 0, 0, 0) ∈
          e0 :: rest0 := getD_mem _ hidx
      obtain ⟨x', y', d', hd', hodd', hoddt', hnode', hpe⟩ := hWF _ hpop
      have hres : primLoop rng w h (fuel + 1) maze (e0 :: rest0) c =
          (if cellAt2 maze ((e0 :: rest0).getD (drawNat rng c (e0 :: rest0).length)
              (0, 0, 0, 0)).2.2.1 ((e0 :: rest0).getD (drawNat rng c
              (e0 :: rest0).length) (0, 0, 0, 0)).2.2.2 = CELL_WALL then
            primLoop rng w h fuel
              (setCell2 (setCell2 maze ((e0 :: rest0).getD (drawNat rng c
                (e0 :: rest0).length) (0, 0, 0, 0)).1 ((e0 :: rest0).getD (drawNat rng c
                (e0 :: rest0).length) (0, 0, 0, 0)).2.1 CELL_NODE)
                ((e0 :: rest0).getD (drawNat rng c (e0 :: rest0).length)
                  (0, 0, 0, 0)).2.2.1
                ((e0 :: rest0).getD (drawNat rng c (e0 :: rest0).length)
                  (0, 0, 0, 0)).2.2.2 CELL_NODE)
              (expandWalls (setCell2 (setCell2 maze ((e0 :: rest0).getD (drawNat rng c
                (e0 :: rest0).length) (0, 0, 0, 0)).1 ((e0 :: rest0).getD (drawNat rng c
                (e0 :: rest0).length) (0, 0, 0, 0)).2.1 CELL_NODE)
                ((e0 :: rest0).getD (drawNat rng c (e0 :: rest0).length)
                  (0, 0, 0, 0)).2.2.1
                ((e0 :: rest0).getD (drawNat rng c (e0 :: rest0).length)
                  (0, 0, 0, 0)).2.2.2 CELL_NODE) w h
                ((e0 :: rest0).getD (drawNat rng c (e0 :: rest0).length)
                  (0, 0, 0, 0)).2.2.1
                ((e0 :: rest0).getD (drawNat rng c (e0 :: rest0).length)
                  (0, 0, 0, 0)).2.2.2
                ((e0 :: rest0).eraseIdx (drawNat rng c (e0 :: rest0).length))) (c + 1)
          else primLoop rng w h fuel maze
            ((e0 :: rest0).eraseIdx (drawNat rng c (e0 :: rest0).length)) (c + 1)) :=
        rfl
      rw [hres, hpe]
      have hc221 : (entryOf x' y' d').2.2.1 = x' + d'.1 := rfl
      have hc222 : (entryOf x' y' d').2.2.2 = y' + d'.2 := rfl
      have hc1 : (entryOf x' y' d').1 = x' + d'.1 / 2 := rfl
      have hc21 : (entryOf x' y' d').2.1 = y' + d'.2 / 2 := rfl
      rw [hc221, hc222, hc1, hc21]
      have hrest' : ∀ e ∈ (e0 :: rest0).eraseIdx (drawNat rng c (e0 :: rest0).length),
          e ∈ e0 :: rest0 := fun e he => eraseIdx_sub _ _ e he
      have hrlen : ((e0 :: rest0).eraseIdx (drawNat rng c
          (e0 :: rest0).length)).length = (e0 :: rest0).length - 1 :=
        List.length_eraseIdx_of_lt hidx
      by_cases hcw : cellAt2 maze (x' + d'.1) (y' + d'.2) = CELL_WALL
      · rw [if_pos hcw]
        -- the carve step
        have hInBw : InB w h (x' + d'.1 / 2) (y' + d'.2 / 2) := mid_inb hd' hodd' hoddt'
        have hInBt : InB w h (x' + d'.1) (y' + d'.2) := oddIn_inb hoddt'
        have hd1 : Dims (setCell2 maze (x' + d'.1 / 2) (y' + d'.2 / 2) CELL_NODE) w h :=
          dims_set hdim _ _ _
        have hdm' : Dims (setCell2 (setCell2 maze (x' + d'.1 / 2) (y' + d'.2 / 2)
            CELL_NODE) (x' + d'.1) (y' + d'.2) CELL_NODE) w h := dims_set hd1 _ _ _
        have hwnetn : ¬(x' + d'.1 = x' + d'.1 / 2 ∧ y' + d'.2 = y' + d'.2 / 2) := by
          intro hc
          exact mid_ne_odd hd' hodd'.1 hodd'.2.1 hoddt'.1 hoddt'.2.1
            ⟨hc.1.symm, hc.2.symm⟩
        have htnode : cellAt2 (setCell2 (setCell2 maze (x' + d'.1 / 2) (y' + d'.2 / 2)
            CELL_NODE) (x' + d'.1) (y' + d'.2) CELL_NODE) (x' + d'.1) (y' + d'.2) =
            CELL_NODE := cellAt2_set_self hd1 hInBt CELL_NODE
        have hwnode : cellAt2 (setCell2 (setCell2 maze (x' + d'.1 / 2) (y' + d'.2 / 2)
            CELL_NODE) (x' + d'.1) (y' + d'.2) CELL_NODE) (x' + d'.1 / 2)
            (y' + d'.2 / 2) = CELL_NODE := by
          rw [cellAt2_set_other _ (fun hc => hwnetn ⟨hc.1.symm, hc.2.symm⟩)]
          exact cellAt2_set_self hdim hInBw CELL_NODE
        have hmono : NodeMono maze (setCell2 (setCell2 maze (x' + d'.1 / 2)
            (y' + d'.2 / 2) CELL_NODE) (x' + d'.1) (y' + d'.2) CELL_NODE) :=
          nodeMono_trans (nodeMono_set_node _ _ hdim hInBw)
            (nodeMono_set_node _ _ hd1 hInBt)
        have hpres : ∀ a b : Int, ¬(a = x' + d'.1 / 2 ∧ b = y' + d'.2 / 2) →
            ¬(a = x' + d'.1 ∧ b = y' + d'.2) →
            cellAt2 (setCell2 (setCell2 maze (x' + d'.1 / 2) (y' + d'.2 / 2) CELL_NODE)
              (x' + d'.1) (y' + d'.2) CELL_NODE) a b = cellAt2 maze a b :=
          fun a b h1 h2 => cellAt2_preserved a b h1 h2
        have hwn' : CellsWN (setCell2 (setCell2 maze (x' + d'.1 / 2) (y' + d'.2 / 2)
            CELL_NODE) (x' + d'.1) (y' + d'.2) CELL_NODE) w h := by
          intro a b hin
          by_cases h2 : a = x' + d'.1 ∧ b = y' + d'.2
          · rw [h2.1, h2.2]
            exact Or.inr htnode
          · by_cases h1 : a = x' + d'.1 / 2 ∧ b = y' + d'.2 / 2
            · rw [h1.1, h1.2]
              exact Or.inr hwnode
            · rw [hpres a b h1 h2]
              exact hwn a b hin
        -- every odd cell other than the carved target is preserved
        have hoddpres : ∀ a b : Int, a % 2 = 1 → b % 2 = 1 →
            ¬(a = x' + d'.1 ∧ b = y' + d'.2) →
            cellAt2 (setCell2 (setCell2 maze (x' + d'.1 / 2) (y' + d'.2 / 2) CELL_NODE)
              (x' + d'.1) (y' + d'.2) CELL_NODE) a b = cellAt2 maze a b := by
          intro a b ha hb h2
          exact hpres a b (fun hc => mid_ne_odd hd' hodd'.1 hodd'.2.1 ha hb
            ⟨hc.1.symm, hc.2.symm⟩) h2
        have hMid' : MidNode w h (setCell2 (setCell2 maze (x' + d'.1 / 2)
            (y' + d'.2 / 2) CELL_NODE) (x' + d'.1) (y' + d'.2) CELL_NODE) := by
          intro px py dd hdd hpodd hptodd hmn
          by_cases hmw : px + dd.1 / 2 = x' + d'.1 / 2 ∧ py + dd.2 / 2 = y' + d'.2 / 2
          · -- the midpoint is the just-carved wall: the flanking pair is
            -- the popped source and target, both nodes now
            have hpair := wallpos_pair hd' hdd hodd'.1 hodd'.2.1 hpodd.1 hpodd.2.1
              hmw.1.symm hmw.2.symm
            rcases hpair with ⟨hxx, hyy, ht1, ht2⟩ | ⟨hxx, hyy, ht1, ht2⟩
            · left
              rw [hxx, hyy]
              exact hmono _ _ hnode'
            · left
              rw [hxx, hyy]
              exact htnode
          · have hmt : ¬(px + dd.1 / 2 = x' + d'.1 ∧ py + dd.2 / 2 = y' + d'.2) :=
              mid_ne_odd hdd hpodd.1 hpodd.2.1 hoddt'.1 hoddt'.2.1
            rw [hpres _ _ hmw hmt] at hmn
            rcases hMid px py dd hdd hpodd hptodd hmn with h1 | h1
            · exact Or.inl (hmono _ _ h1)
            · exact Or.inr (hmono _ _ h1)
        have hWFrest : WF w h (setCell2 (setCell2 maze (x' + d'.1 / 2) (y' + d'.2 / 2)
            CELL_NODE) (x' + d'.1) (y' + d'.2) CELL_NODE)
            ((e0 :: rest0).eraseIdx (drawNat rng c (e0 :: rest0).length)) := by
          intro e he
          obtain ⟨px, py, dd, hdd, ho1, ho2, hn1, he'⟩ := hWF e (hrest' e he)
          exact ⟨px, py, dd, hdd, ho1, ho2, hmono _ _ hn1, he'⟩
        have hmidarg : ∀ dd ∈ dirs2, OddIn w h (x' + d'.1 + dd.1) (y' + d'.2 + dd.2) →
            cellAt2 (setCell2 (setCell2 maze (x' + d'.1 / 2) (y' + d'.2 / 2) CELL_NODE)
              (x' + d'.1) (y' + d'.2) CELL_NODE) (x' + d'.1 + dd.1) (y' + d'.2 + dd.2) =
              CELL_WALL →
            cellAt2 (setCell2 (setCell2 maze (x' + d'.1 / 2) (y' + d'.2 / 2) CELL_NODE)
              (x' + d'.1) (y' + d'.2) CELL_NODE) (x' + d'.1 + dd.1 / 2)
              (y' + d'.2 + dd.2 / 2) ≠ CELL_NODE := by
          intro dd hdd hto htw hmn
          by_cases hmw : x' + d'.1 + dd.1 / 2 = x' + d'.1 / 2 ∧
              y' + d'.2 + dd.2 / 2 = y' + d'.2 / 2
          · have hpair := wallpos_pair hd' hdd hodd'.1 hodd'.2.1 hoddt'.1 hoddt'.2.1
              hmw.1.symm hmw.2.symm
            rcases hpair with ⟨hxx, hyy, ht1, ht2⟩ | ⟨hxx, hyy, ht1, ht2⟩
            · -- would need the step `dd` to be zero
              rcases dirs2_cases hdd with rfl | rfl | rfl | rfl <;>
                norm_num at ht1 ht2 <;> omega
            · rw [ht1, ht2] at htw
              have hup := hmono _ _ hnode'
              rw [htw] at hup
              exact wall_ne_node hup
          · have hmt : ¬(x' + d'.1 + dd.1 / 2 = x' + d'.1 ∧
                y' + d'.2 + dd.2 / 2 = y' + d'.2) :=
              mid_ne_odd hdd hoddt'.1 hoddt'.2.1 hoddt'.1 hoddt'.2.1
            rw [hpres _ _ hmw hmt] at hmn
            rcases hMid _ _ dd hdd hoddt' hto hmn with h1 | h1
            · exact absurd h1 (by rw [hcw]; exact fun hc => wall_ne_node hc)
            · have htne : ¬(x' + d'.1 + dd.1 = x' + d'.1 ∧
                  y' + d'.2 + dd.2 = y' + d'.2) := by
                rcases dirs2_cases hdd with rfl | rfl | rfl | rfl <;>
                  norm_num
              rw [hoddpres _ _ hto.1 hto.2.1 htne] at htw
              rw [htw] at h1
              exact wall_ne_node h1
        have hKI' : KI w h (setCell2 (setCell2 maze (x' + d'.1 / 2) (y' + d'.2 / 2)
            CELL_NODE) (x' + d'.1) (y' + d'.2) CELL_NODE)
            (expandWalls (setCell2 (setCell2 maze (x' + d'.1 / 2) (y' + d'.2 / 2)
              CELL_NODE) (x' + d'.1) (y' + d'.2) CELL_NODE) w h (x' + d'.1)
              (y' + d'.2) ((e0 :: rest0).eraseIdx (drawNat rng c
                (e0 :: rest0).length))) := by
          intro px py dd hdd hpodd hptodd hpnode hptwall
          have hqnet : ¬(px + dd.1 = x' + d'.1 ∧ py + dd.2 = y' + d'.2) := by
            intro hc
            rw [hc.1, hc.2] at hptwall
            rw [hptwall] at htnode
            exact wall_ne_node htnode
          by_cases hpt : px = x' + d'.1 ∧ py = y' + d'.2
          · -- expanding from the newly carved cell: coverage
            rw [expandWalls]
            have hcov := ew_foldl_cover hoddt'
              htnode hwn' hmidarg dirs2 (fun d hd => hd)
              ((e0 :: rest0).eraseIdx (drawNat rng c (e0 :: rest0).length)) hWFrest
            rw [hpt.1, hpt.2]
            rw [hpt.1, hpt.2] at hptodd hptwall
            exact hcov dd hdd hptodd hptwall
          · -- an old pair: its old witness survives the pop
            have hpnet : ¬(px = x' + d'.1 / 2 ∧ py = y' + d'.2 / 2) := fun hc =>
              mid_ne_odd hd' hodd'.1 hodd'.2.1 hpodd.1 hpodd.2.1
                ⟨hc.1.symm, hc.2.symm⟩
            have hpold : cellAt2 maze px py = CELL_NODE := by
              rw [← hpres px py hpnet hpt]
              exact hpnode
            have hptold : cellAt2 maze (px + dd.1) (py + dd.2) = CELL_WALL := by
              rw [← hoddpres _ _ hptodd.1 hptodd.2.1 hqnet]
              exact hptwall
            have hwit := hKI px py dd hdd hpodd hptodd hpold hptold
            have hne : entryOf px py dd ≠ (e0 :: rest0).getD (drawNat rng c
                (e0 :: rest0).length) (0, 0, 0, 0) := by
              rw [hpe]
              intro hc
              have hcc : px + dd.1 = x' + d'.1 ∧ py + dd.2 = y' + d'.2 := by
                have h1 : (entryOf px py dd).2.2.1 = (entryOf x' y' d').2.2.1 := by
                  rw [hc]
                have h2 : (entryOf px py dd).2.2.2 = (entryOf x' y' d').2.2.2 := by
                  rw [hc]
                exact ⟨h1, h2⟩
              exact hqnet hcc
            rw [expandWalls]
            exact ew_foldl_sub _ _ _ (mem_eraseIdx_of_ne _ _ _ _ hwit hne)
        have hWF' : WF w h (setCell2 (setCell2 maze (x' + d'.1 / 2) (y' + d'.2 / 2)
            CELL_NODE) (x' + d'.1) (y' + d'.2) CELL_NODE)
            (expandWalls (setCell2 (setCell2 maze (x' + d'.1 / 2) (y' + d'.2 / 2)
              CELL_NODE) (x' + d'.1) (y' + d'.2) CELL_NODE) w h (x' + d'.1)
              (y' + d'.2) ((e0 :: rest0).eraseIdx (drawNat rng c
                (e0 :: rest0).length))) := by
          intro e he
          rw [expandWalls] at he
          rcases ew_foldl_src _ _ _ he with h1 | ⟨dd, hdd, rfl, hb1, hb2, hb3, hb4, _⟩
          · exact hWFrest e h1
          · refine ⟨x' + d'.1, y' + d'.2, dd, hdd, hoddt', ?_, htnode, rfl⟩
            have hpar := dirs2_parity (x := x' + d'.1) (y := y' + d'.2) hdd
            exact ⟨by have := hoddt'.1; omega, by have := hoddt'.2.1; omega,
              hb1, hb2, hb3, hb4⟩
        have hmeas : 5 * (w * h - nodeCount (setCell2 (setCell2 maze (x' + d'.1 / 2)
            (y' + d'.2 / 2) CELL_NODE) (x' + d'.1) (y' + d'.2) CELL_NODE) w h) +
            (expandWalls (setCell2 (setCell2 maze (x' + d'.1 / 2) (y' + d'.2 / 2)
              CELL_NODE) (x' + d'.1) (y' + d'.2) CELL_NODE) w h (x' + d'.1)
              (y' + d'.2) ((e0 :: rest0).eraseIdx (drawNat rng c
                (e0 :: rest0).length))).length < fuel := by
          have hstrict := nodeCount_strict (w := w) (h := h) hInBt hmono
            (by rw [hcw]; exact fun hc => wall_ne_node hc) htnode
          have hle1 := nodeCount_le (setCell2 (setCell2 maze (x' + d'.1 / 2)
            (y' + d'.2 / 2) CELL_NODE) (x' + d'.1) (y' + d'.2) CELL_NODE) w h
          have hlen2 : (expandWalls (setCell2 (setCell2 maze (x' + d'.1 / 2)
              (y' + d'.2 / 2) CELL_NODE) (x' + d'.1) (y' + d'.2) CELL_NODE) w h
              (x' + d'.1) (y' + d'.2) ((e0 :: rest0).eraseIdx (drawNat rng c
                (e0 :: rest0).length))).length ≤
              ((e0 :: rest0).eraseIdx (drawNat rng c (e0 :: rest0).length)).length +
                4 := by
            rw [expandWalls]
            exact ew_foldl_len dirs2 _
          simp only [List.length_cons] at hm hrlen hlen2 ⊢
          omega
        obtain ⟨ha, hb, hcm, hclo⟩ := ih _ _ (c + 1) hdm' hwn' hWF' hKI' hMid' hmeas
        exact ⟨ha, hb, nodeMono_trans hmono hcm, hclo⟩
      · rw [if_neg hcw]
        -- discarded entry: the target is already carved
        have hKI' : KI w h maze ((e0 :: rest0).eraseIdx (drawNat rng c
            (e0 :: rest0).length)) := by
          intro px py dd hdd hpodd hptodd hpnode hptwall
          have hwit := hKI px py dd hdd hpodd hptodd hpnode hptwall
          have hne : entryOf px py dd ≠ (e0 :: rest0).getD (drawNat rng c
              (e0 :: rest0).length) (0, 0, 0, 0) := by
            rw [hpe]
            intro hc
            have h1 : px + dd.1 = x' + d'.1 := by
              have := congrArg (fun e : WEntry => e.2.2.1) hc
              exact this
            have h2 : py + dd.2 = y' + d'.2 := by
              have := congrArg (fun e : WEntry => e.2.2.2) hc
              exact this
            rw [h1, h2] at hptwall
            exact hcw hptwall
          exact mem_eraseIdx_of_ne _ _ _ _ hwit hne
        have hWF'' : WF w h maze ((e0 :: rest0).eraseIdx (drawNat rng c
            (e0 :: rest0).length)) := fun e he => hWF e (hrest' e he)
        have hmeas : 5 * (w * h - nodeCount maze w h) +
            ((e0 :: rest0).eraseIdx (drawNat rng c (e0 :: rest0).length)).length <
            fuel := by
          simp only [List.length_cons] at hm hrlen ⊢
          omega
        exact ih _ _ (c + 1) hdim hwn hWF'' hKI' hMid hmeas

/-- Flood-fill: closure under odd-lattice steps from one carved odd cell
carves every odd interior cell (the odd lattice is connected via
horizontal-then-vertical paths). -/
theorem flood {maze : Grid} {w h : Nat} {sx sy : Int}
    (hclo : ∀ (x y : Int) (d : Int × Int), d ∈ dirs2 → OddIn w h x y →
      OddIn w h (x + d.1) (y + d.2) → cellAt2 maze x y = CELL_NODE →
      cellAt2 maze (x + d.1) (y + d.2) = CELL_NODE)
    (hso : OddIn w h sx sy) (hsn : cellAt2 maze sx sy = CELL_NODE) :
    ∀ x y : Int, OddIn w h x y → cellAt2 maze x y = CELL_NODE := by
  obtain ⟨hsx2, hsy2, hsx0, hsxw, hsy0, hsyh⟩ := hso
  have hmemR : ((2 : Int), (0 : Int)) ∈ dirs2 := by simp [dirs2]
  have hmemL : ((-2 : Int), (0 : Int)) ∈ dirs2 := by simp [dirs2]
  have hmemD : ((0 : Int), (2 : Int)) ∈ dirs2 := by simp [dirs2]
  have hmemU : ((0 : Int), (-2 : Int)) ∈ dirs2 := by simp [dirs2]
  -- horizontal spread along the start row
  have hrow : ∀ x : Int, x % 2 = 1 → 0 < x → x < (w : Int) - 1 →
      cellAt2 maze x sy = CELL_NODE := by
    have hR : ∀ k : Nat, sx + 2 * (k : Int) < (w : Int) - 1 →
        cellAt2 maze (sx + 2 * (k : Int)) sy = CELL_NODE := by
      intro k
      induction k with
      | zero =>
        intro _
        simpa using hsn
      | succ k ihk =>
        intro hbound
        have hkb : sx + 2 * (k : Int) < (w : Int) - 1 := by
          push_cast at hbound ⊢
          omega
        have hprev := ihk hkb
        have hstep : cellAt2 maze (sx + 2 * (k : Int) + 2) (sy + 0) = CELL_NODE :=
          hclo (sx + 2 * (k : Int)) sy (2, 0) hmemR
            ⟨by omega, hsy2, by omega, hkb, hsy0, hsyh⟩
            ⟨by omega, by omega, by omega, by push_cast at hbound ⊢; omega, by omega,
              by omega⟩ hprev
        rw [add_zero] at hstep
        have hx : sx + 2 * ((k : Int) + 1) = sx + 2 * (k : Int) + 2 := by ring
        push_cast
        rw [hx]
        exact hstep
    have hL : ∀ k : Nat, 0 < sx - 2 * (k : Int) →
        cellAt2 maze (sx - 2 * (k : Int)) sy = CELL_NODE := by
      intro k
      induction k with
      | zero =>
        intro _
        simpa using hsn
      | succ k ihk =>
        intro hbound
        have hkb : 0 < sx - 2 * (k : Int) := by
          push_cast at hbound ⊢
          omega
        have hprev := ihk hkb
        have hstep : cellAt2 maze (sx - 2 * (k : Int) + -2) (sy + 0) = CELL_NODE :=
          hclo (sx - 2 * (k : Int)) sy (-2, 0) hmemL
            ⟨by omega, hsy2, hkb, by omega, hsy0, hsyh⟩
            ⟨by omega, by omega, by push_cast at hbound ⊢; omega, by omega, by omega,
              by omega⟩ hprev
        rw [add_zero] at hstep
        have hx : sx - 2 * ((k : Int) + 1) = sx - 2 * (k : Int) + -2 := by ring
        push_cast
        rw [hx]
        exact hstep
    intro x hx2 hx0 hxw
    by_cases hge : sx ≤ x
    · have hk : x = sx + 2 * (((x - sx) / 2).toNat : Int) := by omega
      rw [hk]
      apply hR
      omega
    · have hk : x = sx - 2 * (((sx - x) / 2).toNat : Int) := by omega
      rw [hk]
      apply hL
      omega
  -- vertical spread from the start row
  intro x y hodd
  obtain ⟨hx2, hy2, hx0, hxw, hy0, hyh⟩ := hodd
  have hbase : cellAt2 maze x sy = CELL_NODE := hrow x hx2 hx0 hxw
  have hD : ∀ k : Nat, sy + 2 * (k : Int) < (h : Int) - 1 →
      cellAt2 maze x (sy + 2 * (k : Int)) = CELL_NODE := by
    intro k
    induction k with
    | zero =>
      intro _
      simpa using hbase
    | succ k ihk =>
      intro hbound
      have hkb : sy + 2 * (k : Int) < (h : Int) - 1 := by
        push_cast at hbound ⊢
        omega
      have hprev := ihk hkb
      have hstep : cellAt2 maze (x + 0) (sy + 2 * (k : Int) + 2) = CELL_NODE :=
        hclo x (sy + 2 * (k : Int)) (0, 2) hmemD
          ⟨hx2, by omega, hx0, hxw, by omega, hkb⟩
          ⟨by omega, by omega, by omega, by omega, by omega,
            by push_cast at hbound ⊢; omega⟩ hprev
      rw [add_zero] at hstep
      have hy : sy + 2 * ((k : Int) + 1) = sy + 2 * (k : Int) + 2 := by ring
      push_cast
      rw [hy]
      exact hstep
  have hU : ∀ k : Nat, 0 < sy - 2 * (k : Int) →
      cellAt2 maze x (sy - 2 * (k : Int)) = CELL_NODE := by
    intro k
    induction k with
    | zero =>
      intro _
      simpa using hbase
    | succ k ihk =>
      intro hbound
      have hkb : 0 < sy - 2 * (k : Int) := by
        push_cast at hbound ⊢
        omega
      have hprev := ihk hkb
      have hstep : cellAt2 maze (x + 0) (sy - 2 * (k : Int) + -2) = CELL_NODE :=
        hclo x (sy - 2 * (k : Int)) (0, -2) hmemU
          ⟨hx2, by omega, hx0, hxw, hkb, by omega⟩
          ⟨by omega, by omega, by omega, by omega, by push_cast at hbound ⊢; omega,
            by omega⟩ hprev
      rw [add_zero] at hstep
      have hy : sy - 2 * ((k : Int) + 1) = sy - 2 * (k : Int) + -2 := by ring
      push_cast
      rw [hy]
      exact hstep
  by_cases hge : sy ≤ y
  · have hk : y = sy + 2 * (((y - sy) / 2).toNat : Int) := by omega
    rw [hk]
    apply hD
    omega
  · have hk : y = sy - 2 * (((sy - y) / 2).toNat : Int) := by omega
    rw [hk]
    apply hU
    omega

theorem set_getD_self {β : Type} :
    ∀ (l : List β) (i : Nat) (d : β), i < l.length → l.set i (l.getD i d) = l := by
  intro l
  induction l with
  | nil => intro i d hi; simp at hi
  | cons a t ih =>
    intro i d hi
    cases i with
    | zero => rfl
    | succ i =>
      rw [List.getD_cons_succ, List.set_cons_succ, ih i d (by simpa using hi)]

theorem setCell2_oob {maze : Grid} {w h : Nat} {x y : Int} (v : Nat)
    (hd : Dims maze w h) (hnin : ¬ InB w h x y) : setCell2 maze x y v = maze := by
  rw [setCell2]
  by_cases hb : 0 ≤ x ∧ 0 ≤ y
  · rw [if_pos hb]
    by_cases hyh : y < (h : Int)
    · have hxw : (w : Int) ≤ x := by
        by_contra hxlt
        exact hnin ⟨hb.1, by omega, hb.2, hyh⟩
      have hrl : (maze.getD y.toNat []).length = w := dims_row_len hd (by omega)
      rw [List.set_eq_of_length_le (l := maze.getD y.toNat []) (by omega)]
      exact set_getD_self maze y.toNat [] (by rw [hd.1]; omega)
    · exact List.set_eq_of_length_le (by rw [hd.1]; omega)
  · rw [if_neg hb]

theorem nodeMono_set_node' {a : Grid} (x y : Int) {w h : Nat} (hd : Dims a w h) :
    NodeMono a (setCell2 a x y CELL_NODE) := by
  by_cases hin : InB w h x y
  · exact nodeMono_set_node x y hd hin
  · rw [setCell2_oob CELL_NODE hd hin]
    exact nodeMono_refl a

theorem cellsWN_set_node {a : Grid} {w h : Nat} (x y : Int) (hd : Dims a w h)
    (hwn : CellsWN a w h) : CellsWN (setCell2 a x y CELL_NODE) w h := by
  by_cases hin : InB w h x y
  · intro p q hpq
    by_cases he : p = x ∧ q = y
    · rw [he.1, he.2, cellAt2_set_self hd hin]
      exact Or.inr rfl
    · rw [cellAt2_set_other _ he]
      exact hwn p q hpq
  · rw [setCell2_oob CELL_NODE hd hin]
    exact hwn

theorem openingsLoop_succ (rng : Nat → Nat) (w h k : Nat) (maze : Grid) (c : Nat) :
    ∃ maze', openingsLoop rng w h (k + 1) maze c =
      openingsLoop rng w h k maze' (c + 2) ∧
      (maze' = maze ∨ ∃ x y : Int, maze' = setCell2 maze x y CELL_NODE) := by
  rw [openingsLoop]
  dsimp only
  repeat' split
  all_goals first
    | exact ⟨_, rfl, Or.inr ⟨_, _, rfl⟩⟩
    | exact ⟨maze, rfl, Or.inl rfl⟩

/-- The openings loop preserves dimensions, the wall/node value range,
and carved cells. -/
theorem openingsLoop_spec (rng : Nat → Nat) (w h : Nat) :
    ∀ (k : Nat) (maze : Grid) (c : Nat), Dims maze w h → CellsWN maze w h →
      Dims (openingsLoop rng w h k maze c).1 w h ∧
      CellsWN (openingsLoop rng w h k maze c).1 w h ∧
      NodeMono maze (openingsLoop rng w h k maze c).1 := by
  intro k
  induction k with
  | zero =>
    intro maze c hd hwn
    exact ⟨hd, hwn, nodeMono_refl maze⟩
  | succ k ih =>
    intro maze c hd hwn
    obtain ⟨maze', heq, hcase⟩ := openingsLoop_succ rng w h k maze c
    rw [heq]
    rcases hcase with rfl | ⟨x, y, rfl⟩
    · exact ih maze' (c + 2) hd hwn
    · obtain ⟨h1, h2, h3⟩ := ih _ (c + 2) (dims_set hd x y _)
        (cellsWN_set_node x y hd hwn)
      exact ⟨h1, h2, nodeMono_trans (nodeMono_set_node' x y hd) h3⟩

/-! ## Node-scan structure -/

theorem getD_of_getLast? {β : Type} :
    ∀ (l : List β) (a d : β), l.getLast? = some a → l.getD (l.length - 1) d = a := by
  intro l
  induction l with
  | nil => intro a d hl; simp at hl
  | cons b t ih =>
    intro a d hl
    cases t with
    | nil =>
      simp only [List.getLast?_singleton, Option.some.injEq] at hl
      rw [hl]
      rfl
    | cons b' t' =>
      rw [List.getLast?_cons_cons] at hl
      have h2 := ih a d hl
      simp only [List.length_cons, Nat.add_sub_cancel] at h2 ⊢
      rw [List.getD_cons_succ]
      exact h2

theorem drawNat_le (rng : Nat → Nat) (k n : Nat) : drawNat rng k n ≤ n - 1 := by
  rw [drawNat]
  by_cases hn : n = 0
  · rw [if_pos hn]
    omega
  · rw [if_neg hn]
    have := Nat.mod_lt (rng k) (y := n) (by omega)
    omega

theorem nodesOf_mem {maze : Grid} {w h : Nat} {p : Int × Int}
    (hp : p ∈ nodesOf maze w h) :
    cellAt2 maze p.1 p.2 = CELL_NODE ∧ 1 ≤ p.1 ∧ p.1 ≤ (w : Int) - 2 ∧
      1 ≤ p.2 ∧ p.2 ≤ (h : Int) - 2 := by
  rw [nodesOf] at hp
  rw [List.mem_flatMap] at hp
  obtain ⟨dy, hdy, hp⟩ := hp
  rw [List.mem_filterMap] at hp
  obtain ⟨dx, hdx, hp⟩ := hp
  rw [List.mem_range] at hdy hdx
  by_cases hc : cellAt2 maze (Int.ofNat dx + 1) (Int.ofNat dy + 1) = CELL_NODE
  · rw [if_pos hc] at hp
    rcases Option.some.injEq _ _ ▸ hp with rfl
    simp only [Int.ofNat_eq_natCast] at hc ⊢
    refine ⟨hc, by omega, by omega, by omega, by omega⟩
  · rw [if_neg hc] at hp
    simp at hp

theorem nodesOf_head {maze : Grid} {w h : Nat} (hw : 3 ≤ w) (hh : 3 ≤ h)
    (hn : cellAt2 maze 1 1 = CELL_NODE) :
    ∃ rest, nodesOf maze w h = ((1 : Int), (1 : Int)) :: rest := by
  rw [nodesOf]
  have hh2 : h - 2 = (h - 3) + 1 := by omega
  have hw2 : w - 2 = (w - 3) + 1 := by omega
  rw [hh2, List.range_succ_eq_map, List.flatMap_cons]
  rw [hw2, List.range_succ_eq_map, List.filterMap_cons]
  have he1 : Int.ofNat 0 + 1 = (1 : Int) := rfl
  rw [he1]
  rw [if_pos hn]
  exact ⟨_, rfl⟩

theorem nodesOf_last {maze : Grid} {w h : Nat} (hw : 3 ≤ w) (hh : 3 ≤ h)
    (hn : cellAt2 maze ((w : Int) - 2) ((h : Int) - 2) = CELL_NODE) :
    (nodesOf maze w h).getLast? = some ((w : Int) - 2, (h : Int) - 2) := by
  rw [nodesOf]
  have hh2 : h - 2 = (h - 3) + 1 := by omega
  have hw2 : w - 2 = (w - 3) + 1 := by omega
  have hex : Int.ofNat (w - 3) + 1 = (w : Int) - 2 := by
    simp only [Int.ofNat_eq_natCast]
    omega
  have hey : Int.ofNat (h - 3) + 1 = (h : Int) - 2 := by
    simp only [Int.ofNat_eq_natCast]
    omega
  have hsing : List.filterMap (fun dx =>
      if cellAt2 maze (Int.ofNat dx + 1) (Int.ofNat (h - 3) + 1) = CELL_NODE then
        some (Int.ofNat dx + 1, Int.ofNat (h - 3) + 1)
      else none) [w - 3] = [((w : Int) - 2, (h : Int) - 2)] := by
    simp only [List.filterMap_cons, List.filterMap_nil, hex, hey, if_pos hn]
  have hrow : List.flatMap [h - 3] (fun dy =>
      List.filterMap (fun dx =>
        if cellAt2 maze (Int.ofNat dx + 1) (Int.ofNat dy + 1) = CELL_NODE then
          some (Int.ofNat dx + 1, Int.ofNat dy + 1)
        else none) (List.range (w - 2)))
      = List.filterMap (fun dx =>
        if cellAt2 maze (Int.ofNat dx + 1) (Int.ofNat (h - 3) + 1) = CELL_NODE then
          some (Int.ofNat dx + 1, Int.ofNat (h - 3) + 1)
        else none) (List.range (w - 3)) ++ [((w : Int) - 2, (h : Int) - 2)] := by
    rw [List.flatMap_cons, List.flatMap_nil, List.append_nil]
    show List.filterMap (fun dx =>
        if cellAt2 maze (Int.ofNat dx + 1) (Int.ofNat (h - 3) + 1) = CELL_NODE then
          some (Int.ofNat dx + 1, Int.ofNat (h - 3) + 1)
        else none) (List.range (w - 2)) = _
    rw [hw2, List.range_succ, List.filterMap_append, hsing]
  rw [hh2, List.range_succ, List.flatMap_append, hrow]
  rw [← List.append_assoc]
  exact List.getLast?_concat _

theorem nodesOf_33 (maze : Grid) : (nodesOf maze 3 3).length ≤ 1 := by
  rw [nodesOf]
  have h1 : (3 : Nat) - 2 = 1 := rfl
  rw [h1]
  have h2 : List.range 1 = [0] := rfl
  rw [h2, List.flatMap_cons, List.flatMap_nil, List.append_nil, List.filterMap_cons]
  split
  · simp
  · simp

theorem getD_replicate {β : Type} (n i : Nat) (a d : β) (hi : i < n) :
    (List.replicate n a).getD i d = a := by
  rw [List.getD_eq_getElem?_getD, List.getElem?_replicate, if_pos hi]
  rfl

theorem dims_replicate (w h : Nat) :
    Dims (List.replicate h (List.replicate w CELL_WALL)) w h := by
  refine ⟨List.length_replicate h _, ?_⟩
  intro row hrow
  rw [List.eq_of_mem_replicate hrow]
  exact List.length_replicate w _

theorem cellAt2_replicate {w h : Nat} {x y : Int} (hb : InB w h x y) :
    cellAt2 (List.replicate h (List.replicate w CELL_WALL)) x y = CELL_WALL := by
  obtain ⟨hx0, hxw, hy0, hyh⟩ := hb
  rw [cellAt2, if_pos ⟨hx0, hy0⟩]
  rw [getD_replicate h y.toNat _ [] (by omega)]
  rw [getD_replicate w x.toNat _ 0 (by omega)]

/-! ## The initial Prim state -/

theorem oddIn_start {w h : Nat} (hw : 3 ≤ w) (hh : 3 ≤ h) (a b : Nat)
    (ha : a ≤ (w - 2) / 2 - 1) (hb : b ≤ (h - 2) / 2 - 1) :
    OddIn w h (Int.ofNat (1 + a * 2)) (Int.ofNat (1 + b * 2)) := by
  simp only [Int.ofNat_eq_natCast]
  refine ⟨by omega, by omega, by omega, by omega, by omega, by omega⟩

theorem initialWalls_WF {sx sy : Int} {w h : Nat} (hso : OddIn w h sx sy)
    {maze1 : Grid} (hn : cellAt2 maze1 sx sy = CELL_NODE) :
    WF w h maze1 (initialWalls sx sy w h) := by
  intro e he
  rw [initialWalls, List.mem_filterMap] at he
  obtain ⟨d, hd, he⟩ := he
  dsimp only at he
  by_cases hc : 0 < sx + d.1 ∧ sx + d.1 < (w : Int) - 1 ∧ 0 < sy + d.2 ∧
      sy + d.2 < (h : Int) - 1
  · rw [if_pos hc] at he
    refine ⟨sx, sy, d, hd, hso, ?_, hn, ?_⟩
    · obtain ⟨hp1, hp2⟩ := dirs2_parity (x := sx) (y := sy) hd
      exact ⟨by rw [hp1]; exact hso.1, by rw [hp2]; exact hso.2.1,
        hc.1, hc.2.1, hc.2.2.1, hc.2.2.2⟩
    · injection he with he
      rw [← he]
      rfl
  · rw [if_neg hc] at he
    exact absurd he (by simp)

theorem initialWalls_KI {sx sy : Int} {w h : Nat} {maze0 : Grid}
    (hw0 : ∀ x y : Int, InB w h x y → cellAt2 maze0 x y = CELL_WALL) :
    KI w h (setCell2 maze0 sx sy CELL_NODE) (initialWalls sx sy w h) := by
  intro x y d hd hodd hoddt hnode hwall
  by_cases he : x = sx ∧ y = sy
  · obtain ⟨hx, hy⟩ := he
    subst hx
    subst hy
    rw [initialWalls, List.mem_filterMap]
    refine ⟨d, hd, ?_⟩
    dsimp only
    obtain ⟨_, _, hx0, hxw, hy0, hyh⟩ := hoddt
    rw [if_pos ⟨hx0, hxw, hy0, hyh⟩]
    rfl
  · rw [cellAt2_set_other _ he] at hnode
    rw [hw0 x y (oddIn_inb hodd)] at hnode
    exact absurd hnode wall_ne_node

theorem initial_MidNode {sx sy : Int} {w h : Nat} {maze0 : Grid}
    (hw0 : ∀ x y : Int, InB w h x y → cellAt2 maze0 x y = CELL_WALL)
    (hsx : sx % 2 = 1) (hsy : sy % 2 = 1) :
    MidNode w h (setCell2 maze0 sx sy CELL_NODE) := by
  intro x y d hd hodd hoddt hmid
  exfalso
  have hne := mid_ne_odd hd hodd.1 hodd.2.1 hsx hsy
  rw [cellAt2_set_other _ hne] at hmid
  rw [hw0 _ _ (mid_inb hd hodd hoddt)] at hmid
  exact wall_ne_node hmid

theorem initialWalls_len (sx sy : Int) (w h : Nat) :
    (initialWalls sx sy w h).length ≤ 4 := by
  rw [initialWalls]
  exact le_trans (List.length_filterMap_le _ _) (by rfl)

/-- Stamping `START` then `GOAL` on two distinct `NODE` cells of a
wall/node maze yields exactly one of each. -/
theorem place_start_goal {m3 : Grid} {W H : Nat} (hd3 : Dims m3 W H)
    (hwn3 : CellsWN m3 W H) {spx spy gpx gpy : Int}
    (hbsp : InB W H spx spy) (hbgp : InB W H gpx gpy)
    (hspN : cellAt2 m3 spx spy = CELL_NODE)
    (hgpN : cellAt2 m3 gpx gpy = CELL_NODE)
    (hne : ¬(gpx = spx ∧ gpy = spy)) :
    countCells (setCell2 (setCell2 m3 spx spy CELL_START) gpx gpy CELL_GOAL)
      CELL_START = 1 ∧
    countCells (setCell2 (setCell2 m3 spx spy CELL_START) gpx gpy CELL_GOAL)
      CELL_GOAL = 1 ∧
    Dims (setCell2 (setCell2 m3 spx spy CELL_START) gpx gpy CELL_GOAL) W H ∧
    cellAt2 (setCell2 (setCell2 m3 spx spy CELL_START) gpx gpy CELL_GOAL)
      spx spy = CELL_START ∧
    cellAt2 (setCell2 (setCell2 m3 spx spy CELL_START) gpx gpy CELL_GOAL)
      gpx gpy = CELL_GOAL := by
  have hd4 : Dims (setCell2 m3 spx spy CELL_START) W H := dims_set hd3 _ _ _
  have hs0 : countCells m3 CELL_START = 0 :=
    countCells_zero hd3 hwn3 CELL_START (by decide) (by decide)
  have hg0 : countCells m3 CELL_GOAL = 0 :=
    countCells_zero hd3 hwn3 CELL_GOAL (by decide) (by decide)
  have hc4g : cellAt2 (setCell2 m3 spx spy CELL_START) gpx gpy = CELL_NODE := by
    rw [cellAt2_set_other _ hne]
    exact hgpN
  -- START count through the two writes
  have hst4 := countCells_set hd3 hbsp CELL_START CELL_START
  rw [hspN, hs0] at hst4
  have hst4' : countCells (setCell2 m3 spx spy CELL_START) CELL_START = 1 := by
    have h1 : (if CELL_NODE = CELL_START then 1 else 0) = 0 := by decide
    have h2 : (if CELL_START = CELL_START then 1 else 0) = 1 := by decide
    omega
  have hst5 := countCells_set hd4 hbgp CELL_GOAL CELL_START
  rw [hc4g, hst4'] at hst5
  have hst5' : countCells (setCell2 (setCell2 m3 spx spy CELL_START) gpx gpy
      CELL_GOAL) CELL_START = 1 := by
    have h1 : (if CELL_NODE = CELL_START then 1 else 0) = 0 := by decide
    have h2 : (if CELL_GOAL = CELL_START then 1 else 0) = 0 := by decide
    omega
  -- GOAL count through the two writes
  have hgl4 := countCells_set hd3 hbsp CELL_START CELL_GOAL
  rw [hspN, hg0] at hgl4
  have hgl4' : countCells (setCell2 m3 spx spy CELL_START) CELL_GOAL = 0 := by
    have h1 : (if CELL_NODE = CELL_GOAL then 1 else 0) = 0 := by decide
    have h2 : (if CELL_START = CELL_GOAL then 1 else 0) = 0 := by decide
    omega
  have hgl5 := countCells_set hd4 hbgp CELL_GOAL CELL_GOAL
  rw [hc4g, hgl4'] at hgl5
  have hgl5' : countCells (setCell2 (setCell2 m3 spx spy CELL_START) gpx gpy
      CELL_GOAL) CELL_GOAL = 1 := by
    have h1 : (if CELL_NODE = CELL_GOAL then 1 else 0) = 0 := by decide
    have h2 : (if CELL_GOAL = CELL_GOAL then 1 else 0) = 1 := by decide
    omega
  refine ⟨hst5', hgl5', dims_set hd4 _ _ _, ?_, cellAt2_set_self hd4 hbgp _⟩
  rw [cellAt2_set_other _ (fun hc => hne ⟨hc.1.symm, hc.2.symm⟩)]
  exact cellAt2_set_self hd3 hbsp _

/-- Full characterization of a successful `generateMaze` run: correct
(odd-bumped) dimensions, exactly one `START` cell, exactly one `GOAL`
cell, and the two markers sit at distinct positions. -/
theorem generateMaze_ok_spec (rng : Nat → Nat) (width height : Nat) (wd : ℚ)
    (c0 : Nat) (maze : Grid) (hwid : 3 ≤ width) (hhei : 3 ≤ height)
    (hok : (generateMaze rng width height wd c0).1 = Except.ok maze) :
    Dims maze (if width % 2 = 0 then width + 1 else width)
      (if height % 2 = 0 then height + 1 else height) ∧
    countCells maze CELL_START = 1 ∧ countCells maze CELL_GOAL = 1 ∧
    ∃ sp gp : Int × Int, ¬(gp.1 = sp.1 ∧ gp.2 = sp.2) ∧
      cellAt2 maze sp.1 sp.2 = CELL_START ∧
      cellAt2 maze gp.1 gp.2 = CELL_GOAL := by
  simp only [generateMaze] at hok
  set W := (if width % 2 = 0 then width + 1 else width) with hW
  set H := (if height % 2 = 0 then height + 1 else height) with hH
  have hW3 : 3 ≤ W := by rw [hW]; split <;> omega
  have hH3 : 3 ≤ H := by rw [hH]; split <;> omega
  have hWodd : W % 2 = 1 := by rw [hW]; split <;> omega
  have hHodd : H % 2 = 1 := by rw [hH]; split <;> omega
  set sx : Int := Int.ofNat (1 + drawNat rng c0 ((W - 2) / 2) * 2) with hsx
  set sy : Int := Int.ofNat (1 + drawNat rng (c0 + 1) ((H - 2) / 2) * 2) with hsy
  set maze0 : Grid := List.replicate H (List.replicate W CELL_WALL) with hm0
  set maze1 : Grid := setCell2 maze0 sx sy CELL_NODE with hm1
  set out2 := primLoop rng W H (primFuel W H) maze1 (initialWalls sx sy W H)
    (c0 + 2) with ho2
  set nOp := (if wd < 1 then (Int.floor ((W * H : ℚ) * (1 - wd) * (1 / 10))).toNat
    else 0) with hnop
  set out3 := openingsLoop rng W H nOp out2.1 out2.2 with ho3
  set nodes := nodesOf out3.1 W H with hnodes
  set topLeft := nodes.filter (fun p => 3 * p.1 < (W : Int) ∧ 3 * p.2 < (H : Int))
    with htlf
  set bottomRight := nodes.filter (fun p =>
    2 * (W : Int) < 3 * p.1 ∧ 2 * (H : Int) < 3 * p.2) with hbrf
  have hd0 : Dims maze0 W H := by rw [hm0]; exact dims_replicate W H
  have hwall0 : ∀ x y : Int, InB W H x y → cellAt2 maze0 x y = CELL_WALL := by
    intro x y hb
    rw [hm0]
    exact cellAt2_replicate hb
  have hso : OddIn W H sx sy := by
    rw [hsx, hsy]
    exact oddIn_start hW3 hH3 _ _ (drawNat_le rng c0 _) (drawNat_le rng (c0 + 1) _)
  have hd1 : Dims maze1 W H := by rw [hm1]; exact dims_set hd0 _ _ _
  have hn1 : cellAt2 maze1 sx sy = CELL_NODE := by
    rw [hm1]
    exact cellAt2_set_self hd0 (oddIn_inb hso) _
  have hwn1 : CellsWN maze1 W H := by
    rw [hm1]
    exact cellsWN_set_node _ _ hd0 (fun x y hb => Or.inl (hwall0 x y hb))
  have hWF1 : WF W H maze1 (initialWalls sx sy W H) := initialWalls_WF hso hn1
  have hKI1 : KI W H maze1 (initialWalls sx sy W H) := by
    rw [hm1]
    exact initialWalls_KI hwall0
  have hMid1 : MidNode W H maze1 := by
    rw [hm1]
    exact initial_MidNode hwall0 hso.1 hso.2.1
  have hmeas : 5 * (W * H - nodeCount maze1 W H) + (initialWalls sx sy W H).length <
      primFuel W H := by
    have h4 := initialWalls_len sx sy W H
    rw [primFuel]
    omega
  obtain ⟨hd2, hwn2, hmono2, hclo2⟩ := primLoop_spec rng W H (primFuel W H) maze1
    (initialWalls sx sy W H) (c0 + 2) hd1 hwn1 hWF1 hKI1 hMid1 hmeas
  rw [← ho2] at hd2 hwn2 hmono2 hclo2
  obtain ⟨hd3, hwn3, hmono3⟩ := openingsLoop_spec rng W H nOp out2.1 out2.2 hd2 hwn2
  rw [← ho3] at hd3 hwn3 hmono3
  have hn2 : cellAt2 out2.1 sx sy = CELL_NODE := hmono2 sx sy hn1
  have hallodd : ∀ x y : Int, OddIn W H x y → cellAt2 out3.1 x y = CELL_NODE :=
    fun x y hxy => hmono3 x y (flood hclo2 hso hn2 x y hxy)
  have hodd11 : OddIn W H 1 1 :=
    ⟨by decide, by decide, by decide, by omega, by decide, by omega⟩
  have hoddC : OddIn W H ((W : Int) - 2) ((H : Int) - 2) :=
    ⟨by omega, by omega, by omega, by omega, by omega, by omega⟩
  have hn11 : cellAt2 out3.1 1 1 = CELL_NODE := hallodd 1 1 hodd11
  have hnC : cellAt2 out3.1 ((W : Int) - 2) ((H : Int) - 2) = CELL_NODE :=
    hallodd _ _ hoddC
  obtain ⟨rest, hrest⟩ := nodesOf_head hW3 hH3 hn11
  have hlastq := nodesOf_last hW3 hH3 hnC
  rw [← hnodes] at hrest hlastq
  by_cases hnl : nodes.length < 2
  · rw [if_pos hnl] at hok
    simp at hok
  · rw [if_neg hnl] at hok
    by_cases htl : topLeft.length > 0
    · rw [if_pos htl] at hok
      set sp := topLeft.getD (drawNat rng out3.2 topLeft.length) (0, 0) with hsp
      have hspmem0 : sp ∈ topLeft := by
        rw [hsp]
        exact getD_mem _ (drawNat_lt rng out3.2 htl)
      rw [htlf] at hspmem0
      obtain ⟨hspnodes, hspfilt⟩ := List.mem_filter.mp hspmem0
      have hspP : 3 * sp.1 < (W : Int) ∧ 3 * sp.2 < (H : Int) :=
        of_decide_eq_true hspfilt
      rw [hnodes] at hspnodes
      obtain ⟨hspN, hsp1, hsp2, hsp3, hsp4⟩ := nodesOf_mem hspnodes
      have hbsp : InB W H sp.1 sp.2 := ⟨by omega, by omega, by omega, by omega⟩
      by_cases hbr : bottomRight.length > 0
      · rw [if_pos hbr] at hok
        dsimp only at hok
        set gp := bottomRight.getD (drawNat rng (out3.2 + 1) bottomRight.length)
          (0, 0) with hgp
        have hgpmem0 : gp ∈ bottomRight := by
          rw [hgp]
          exact getD_mem _ (drawNat_lt rng (out3.2 + 1) hbr)
        rw [hbrf] at hgpmem0
        obtain ⟨hgpnodes, hgpfilt⟩ := List.mem_filter.mp hgpmem0
        have hgpP : 2 * (W : Int) < 3 * gp.1 ∧ 2 * (H : Int) < 3 * gp.2 :=
          of_decide_eq_true hgpfilt
        rw [hnodes] at hgpnodes
        obtain ⟨hgpN, hgp1, hgp2, hgp3, hgp4⟩ := nodesOf_mem hgpnodes
        have hbgp : InB W H gp.1 gp.2 := ⟨by omega, by omega, by omega, by omega⟩
        have hne : ¬(gp.1 = sp.1 ∧ gp.2 = sp.2) := by
          intro hc
          obtain ⟨hca, hcb⟩ := hc
          obtain ⟨hq1, hq2⟩ := hspP
          obtain ⟨hq3, hq4⟩ := hgpP
          omega
        rw [Except.ok.injEq] at hok
        subst hok
        obtain ⟨hc1, hc2, hc3, hc4, hc5⟩ :=
          place_start_goal hd3 hwn3 hbsp hbgp hspN hgpN hne
        exact ⟨hc3, hc1, hc2, sp, gp, hne, hc4, hc5⟩
      · rw [if_neg hbr] at hok
        dsimp only at hok
        have hgpval : nodes.getD (nodes.length - 1) (0, 0) =
            ((W : Int) - 2, (H : Int) - 2) := getD_of_getLast? nodes _ _ hlastq
        rw [hgpval] at hok
        have hbgp : InB W H ((W : Int) - 2) ((H : Int) - 2) :=
          ⟨by omega, by omega, by omega, by omega⟩
        have hne : ¬(((W : Int) - 2, (H : Int) - 2).1 = sp.1 ∧
            ((W : Int) - 2, (H : Int) - 2).2 = sp.2) := by
          intro hc
          obtain ⟨hca, hcb⟩ := hc
          obtain ⟨hq1, hq2⟩ := hspP
          simp only at hca hcb
          omega
        rw [Except.ok.injEq] at hok
        subst hok
        obtain ⟨hc1, hc2, hc3, hc4, hc5⟩ :=
          place_start_goal hd3 hwn3 hbsp hbgp hspN hnC hne
        exact ⟨hc3, hc1, hc2, sp, ((W : Int) - 2, (H : Int) - 2), hne, hc4, hc5⟩
    · rw [if_neg htl] at hok
      dsimp only at hok
      have hspval : nodes.getD 0 (0, 0) = ((1 : Int), (1 : Int)) := by
        rw [hrest]
        rfl
      rw [hspval] at hok
      have hbsp : InB W H (1 : Int) (1 : Int) :=
        ⟨by decide, by omega, by decide, by omega⟩
      by_cases hbr : bottomRight.length > 0
      · rw [if_pos hbr] at hok
        dsimp only at hok
        set gp := bottomRight.getD (drawNat rng out3.2 bottomRight.length)
          (0, 0) with hgp
        have hgpmem0 : gp ∈ bottomRight := by
          rw [hgp]
          exact getD_mem _ (drawNat_lt rng out3.2 hbr)
        rw [hbrf] at hgpmem0
        obtain ⟨hgpnodes, hgpfilt⟩ := List.mem_filter.mp hgpmem0
        have hgpP : 2 * (W : Int) < 3 * gp.1 ∧ 2 * (H : Int) < 3 * gp.2 :=
          of_decide_eq_true hgpfilt
        rw [hnodes] at hgpnodes
        obtain ⟨hgpN, hgp1, hgp2, hgp3, hgp4⟩ := nodesOf_mem hgpnodes
        have hbgp : InB W H gp.1 gp.2 := ⟨by omega, by omega, by omega, by omega⟩
        have hne : ¬(gp.1 = ((1 : Int), (1 : Int)).1 ∧
            gp.2 = ((1 : Int), (1 : Int)).2) := by
          intro hc
          obtain ⟨hca, hcb⟩ := hc
          obtain ⟨hq3, hq4⟩ := hgpP
          simp only at hca hcb
          omega
        rw [Except.ok.injEq] at hok
        subst hok
        obtain ⟨hc1, hc2, hc3, hc4, hc5⟩ :=
          place_start_goal hd3 hwn3 hbsp hbgp hn11 hgpN hne
        exact ⟨hc3, hc1, hc2, ((1 : Int), (1 : Int)), gp, hne, hc4, hc5⟩
      · rw [if_neg hbr] at hok
        dsimp only at hok
        have hgpval : nodes.getD (nodes.length - 1) (0, 0) =
            ((W : Int) - 2, (H : Int) - 2) := getD_of_getLast? nodes _ _ hlastq
        rw [hgpval] at hok
        have hbgp : InB W H ((W : Int) - 2) ((H : Int) - 2) :=
          ⟨by omega, by omega, by omega, by omega⟩
        have hne : ¬(((W : Int) - 2, (H : Int) - 2).1 = ((1 : Int), (1 : Int)).1 ∧
            ((W : Int) - 2, (H : Int) - 2).2 = ((1 : Int), (1 : Int)).2) := by
          intro hc
          obtain ⟨hca, hcb⟩ := hc
          simp only at hca hcb
          have hw3' : W = 3 := by omega
          have hh3' : H = 3 := by omega
          rw [hw3', hh3'] at hnodes
          have hle := nodesOf_33 out3.1
          rw [← hnodes] at hle
          omega
        rw [Except.ok.injEq] at hok
        subst hok
        obtain ⟨hc1, hc2, hc3, hc4, hc5⟩ :=
          place_start_goal hd3 hwn3 hbsp hbgp hn11 hnC hne
        exact ⟨hc3, hc1, hc2, ((1 : Int), (1 : Int)),
          ((W : Int) - 2, (H : Int) - 2), hne, hc4, hc5⟩

/-- C3: every grid returned by `generateMaze` (for any width, height ≥ 3
and wall density in `[0,1]`, any random stream and draw counter) contains
exactly one `START` cell and exactly one `GOAL` cell, and the two markers
are at different positions. -/
theorem c3_start_goal_unique (rng : Nat → Nat) (width height : Nat) (wd : ℚ)
    (c0 : Nat) (maze : Grid) (hwid : 3 ≤ width) (hhei : 3 ≤ height)
    (hwd0 : 0 ≤ wd) (hwd1 : wd ≤ 1)
    (hok : (generateMaze rng width height wd c0).1 = Except.ok maze) :
    countCells maze CELL_START = 1 ∧ countCells maze CELL_GOAL = 1 ∧
    ∃ sp gp : Int × Int, sp ≠ gp ∧ cellAt2 maze sp.1 sp.2 = CELL_START ∧
      cellAt2 maze gp.1 gp.2 = CELL_GOAL := by
  obtain ⟨_, h1, h2, sp, gp, hne, h4, h5⟩ :=
    generateMaze_ok_spec rng width height wd c0 maze hwid hhei hok
  refine ⟨h1, h2, sp, gp, ?_, h4, h5⟩
  intro hc
  exact hne ⟨congrArg Prod.fst hc.symm, congrArg Prod.snd hc.symm⟩

set_option maxRecDepth 100000 in
/-- C3 witness: the 5×3 maze generated from the all-zero random stream
has exactly one `START` (value 3) and one `GOAL` (value 4), at distinct
positions. -/
theorem c3_start_goal_unique_witness :
    countCells [[1,1,1,1,1],[1,3,2,4,1],[1,1,1,1,1]] CELL_START = 1 ∧
    countCells [[1,1,1,1,1],[1,3,2,4,1],[1,1,1,1,1]] CELL_GOAL = 1 ∧
    ∃ sp gp : Int × Int, sp ≠ gp ∧
      cellAt2 [[1,1,1,1,1],[1,3,2,4,1],[1,1,1,1,1]] sp.1 sp.2 = CELL_START ∧
      cellAt2 [[1,1,1,1,1],[1,3,2,4,1],[1,1,1,1,1]] gp.1 gp.2 = CELL_GOAL :=
  c3_start_goal_unique (fun _ => 0) 5 3 1 0 _ (by decide) (by decide)
    (by norm_num) (by norm_num) (by rfl)

/-! ## The 3D generator (utils.ts lines 1027-1143) -/

/-- Step 1 (line 1039): `layers` stacked 2D mazes with the default wall
density `0.7`, threading the draw counter; a layer failure propagates. -/
def genLayers (rng : Nat → Nat) (width height : Nat) :
    Nat → Nat → Except GenError (List Grid) × Nat
  | 0, c => (Except.ok [], c)
  | n + 1, c =>
    match generateMaze rng width height (7 / 10) c with
    | (Except.error e, c1) => (Except.error e, c1)
    | (Except.ok g, c1) =>
      match genLayers rng width height n c1 with
      | (Except.error e, c2) => (Except.error e, c2)
      | (Except.ok gs, c2) => (Except.ok (g :: gs), c2)

/-- The row-major non-wall interior scan for portal candidates (lines
1048-1065); the bounds use the requested width/height, not the
odd-bumped ones. -/
def nonWallCells (g : Grid) (width height : Nat) : List (Int × Int) :=
  (List.range (height - 2)).flatMap fun dy =>
    (List.range (width - 2)).filterMap fun dx =>
      if cellAt2 g (Int.ofNat dx + 1) (Int.ofNat dy + 1) = CELL_WALL then none
      else some (Int.ofNat dx + 1, Int.ofNat dy + 1)

/-- One iteration of the portal loop (lines 1043-1077): draw an up-portal
cell in layer `z` and a down-portal cell in layer `z+1` when both
candidate lists are nonempty. -/
def portalStep (rng : Nat → Nat) (width height : Nat) (ls : List Grid)
    (z c : Nat) : List Grid × Nat :=
  let upC := nonWallCells (ls.getD z []) width height
  let downC := nonWallCells (ls.getD (z + 1) []) width height
  if 0 < upC.length ∧ 0 < downC.length then
    let up := upC.getD (drawNat rng c upC.length) (0, 0)
    let down := downC.getD (drawNat rng (c + 1) downC.length) (0, 0)
    ((ls.set z (setCell2 (ls.getD z []) up.1 up.2 CELL_PORTAL_UP)).set (z + 1)
      (setCell2 (ls.getD (z + 1) []) down.1 down.2 CELL_PORTAL_DOWN), c + 2)
  else (ls, c)

/-- The portal loop over `rem` consecutive layer boundaries starting at
boundary `z`. -/
def portalLoop (rng : Nat → Nat) (width height : Nat) :
    Nat → Nat → List Grid → Nat → List Grid × Nat
  | _, 0, ls, c => (ls, c)
  | z, rem + 1, ls, c =>
    let s := portalStep rng width height ls z c
    portalLoop rng width height (z + 1) rem s.1 s.2

/-- Start candidates (lines 1086-1093): interior `NODE` cells in the
top-left third of each layer, layer-major then row-major. -/
def startCandidates (ls : List Grid) (layers width height : Nat) :
    List (Int × Int × Nat) :=
  (List.range layers).flatMap fun z =>
    (List.range (height - 2)).flatMap fun dy =>
      (List.range (width - 2)).filterMap fun dx =>
        if cellAt2 (ls.getD z []) (Int.ofNat dx + 1) (Int.ofNat dy + 1) =
            CELL_NODE ∧ 3 * (Int.ofNat dx + 1) < (width : Int) ∧
            3 * (Int.ofNat dy + 1) < (height : Int) then
          some (Int.ofNat dx + 1, Int.ofNat dy + 1, z)
        else none

/-- Per-layer goal candidates (lines 1094-1097): interior `NODE` cells in
the bottom-right third. -/
def goalCandidatesLayer (g : Grid) (z width height : Nat) :
    List (Int × Int × Nat) :=
  (List.range (height - 2)).flatMap fun dy =>
    (List.range (width - 2)).filterMap fun dx =>
      if cellAt2 g (Int.ofNat dx + 1) (Int.ofNat dy + 1) = CELL_NODE ∧
          2 * (width : Int) < 3 * (Int.ofNat dx + 1) ∧
          2 * (height : Int) < 3 * (Int.ofNat dy + 1) then
        some (Int.ofNat dx + 1, Int.ofNat dy + 1, z)
      else none

/-- Eligible start/goal pairs on differing layers (lines 1108-1119). -/
def eligiblePairs (ls : List Grid) (layers width height : Nat) :
    List ((Int × Int × Nat) × (Int × Int × Nat)) :=
  (startCandidates ls layers width height).flatMap fun s =>
    (List.range layers).flatMap fun zz =>
      if zz = s.2.2 then []
      else (goalCandidatesLayer (ls.getD zz []) zz width height).filterMap
        fun g => if g.2.2 ≠ s.2.2 then some (s, g) else none

/-- The deep copy clearing stray `START`/`GOAL` markers (lines
1130-1138). -/
def clearSG (ls : List Grid) : List Grid :=
  ls.map fun layer => layer.map fun row => row.map fun cell =>
    if cell = CELL_START ∨ cell = CELL_GOAL then CELL_NODE else cell

/-- `maze3D[z][y][x] = v` (lines 1139-1140). -/
def setCell3 (ls : List Grid) (z : Nat) (x y : Int) (v : Nat) : List Grid :=
  ls.set z (setCell2 (ls.getD z []) x y v)

/-- Steps 1-2 of `generateMaze3D`: the stacked layers with portals
placed. -/
def gen3Portaled (rng : Nat → Nat) (layers width height c0 : Nat) :
    Except GenError (List Grid) × Nat :=
  match genLayers rng width height layers c0 with
  | (Except.error e, c1) => (Except.error e, c1)
  | (Except.ok ls0, c1) =>
    let pl := portalLoop rng width height 0 (layers - 1) ls0 c1
    (Except.ok pl.1, pl.2)

/-- `generateMaze3D` (lines 1027-1143). -/
def generateMaze3D (rng : Nat → Nat) (layers width height c0 : Nat) :
    Except GenError (List Grid) × Nat :=
  match gen3Portaled rng layers width height c0 with
  | (Except.error e, c1) => (Except.error e, c1)
  | (Except.ok ls, c1) =>
    let elig := eligiblePairs ls layers width height
    if elig.length = 0 then (Except.error GenError.werros, c1)
    else
      let chosen := elig.getD (drawNat rng c1 elig.length) ((0, 0, 0), (0, 0, 0))
      let cleared := clearSG ls
      (Except.ok (setCell3 (setCell3 cleared chosen.1.2.2 chosen.1.1 chosen.1.2.1
        CELL_START) chosen.2.2.2 chosen.2.1 chosen.2.2.1 CELL_GOAL), c1 + 1)

/-- The extra-openings count of `generateMaze` as a function of the
requested dimensions and the wall density. -/
def nopOf (width height : Nat) (wd : ℚ) : Nat :=
  let w := if width % 2 = 0 then width + 1 else width
  let h := if height % 2 = 0 then height + 1 else height
  if wd < 1 then (Int.floor ((w * h : ℚ) * (1 - wd) * (1 / 10))).toNat else 0

/-- `generateMaze` with the openings count passed directly (used to
evaluate concrete runs without rational arithmetic). -/
def generateMazeN (rng : Nat → Nat) (width height nOp c0 : Nat) :
    Except GenError Grid × Nat :=
  let w := if width % 2 = 0 then width + 1 else width
  let h := if height % 2 = 0 then height + 1 else height
  let maze0 : Grid := List.replicate h (List.replicate w CELL_WALL)
  let sx : Int := Int.ofNat (1 + drawNat rng c0 ((w - 2) / 2) * 2)
  let sy : Int := Int.ofNat (1 + drawNat rng (c0 + 1) ((h - 2) / 2) * 2)
  let maze1 := setCell2 maze0 sx sy CELL_NODE
  let out2 := primLoop rng w h (primFuel w h) maze1 (initialWalls sx sy w h) (c0 + 2)
  let out3 := openingsLoop rng w h nOp out2.1 out2.2
  let nodes := nodesOf out3.1 w h
  if nodes.length < 2 then (Except.error GenError.mazeTooSmall, out3.2)
  else
    let topLeft := nodes.filter fun p => 3 * p.1 < (w : Int) ∧ 3 * p.2 < (h : Int)
    let spc : (Int × Int) × Nat :=
      if topLeft.length > 0 then
        (topLeft.getD (drawNat rng out3.2 topLeft.length) (0, 0), out3.2 + 1)
      else (nodes.getD 0 (0, 0), out3.2)
    let maze4 := setCell2 out3.1 spc.1.1 spc.1.2 CELL_START
    let bottomRight := nodes.filter fun p =>
      2 * (w : Int) < 3 * p.1 ∧ 2 * (h : Int) < 3 * p.2
    let gpc : (Int × Int) × Nat :=
      if bottomRight.length > 0 then
        (bottomRight.getD (drawNat rng spc.2 bottomRight.length) (0, 0), spc.2 + 1)
      else (nodes.getD (nodes.length - 1) (0, 0), spc.2)
    let maze5 := setCell2 maze4 gpc.1.1 gpc.1.2 CELL_GOAL
    (Except.ok maze5, gpc.2)

theorem generateMaze_eq_N (rng : Nat → Nat) (width height : Nat) (wd : ℚ)
    (c0 : Nat) : generateMaze rng width height wd c0 =
      generateMazeN rng width height (nopOf width height wd) c0 := rfl

/-- `genLayers` with the openings count passed directly. -/
def genLayersN (rng : Nat → Nat) (width height nOp : Nat) :
    Nat → Nat → Except GenError (List Grid) × Nat
  | 0, c => (Except.ok [], c)
  | n + 1, c =>
    match generateMazeN rng width height nOp c with
    | (Except.error e, c1) => (Except.error e, c1)
    | (Except.ok g, c1) =>
      match genLayersN rng width height nOp n c1 with
      | (Except.error e, c2) => (Except.error e, c2)
      | (Except.ok gs, c2) => (Except.ok (g :: gs), c2)

theorem genLayers_eq_N (rng : Nat → Nat) (width height : Nat) : ∀ (n c : Nat),
    genLayers rng width height n c =
      genLayersN rng width height (nopOf width height (7 / 10)) n c := by
  intro n
  induction n with
  | zero => intro c; rfl
  | succ n ih =>
    intro c
    rw [genLayers, genLayersN, generateMaze_eq_N]
    cases generateMazeN rng width height (nopOf width height (7 / 10)) c with
    | mk r c1 =>
      cases r with
      | error e => rfl
      | ok g =>
        dsimp only
        rw [ih c1]

/-- Does the `w × h` layer contain a cell of value `v`? -/
def hasCellV (g : Grid) (w h : Nat) (v : Nat) : Bool :=
  (allCells w h).any fun p => cellAt2 g p.1 p.2 = v

/-- The C8 pairing property over a stack of `w × h` layers: every
`PORTAL_UP` in layer `z` has some `PORTAL_DOWN` in layer `z+1`, and every
`PORTAL_DOWN` in layer `z` has some `PORTAL_UP` in layer `z-1`. -/
def portalPairingOk (ls : List Grid) (w h : Nat) : Bool :=
  (List.range ls.length).all fun z =>
    (allCells w h).all fun p =>
      (if cellAt2 (ls.getD z []) p.1 p.2 = CELL_PORTAL_UP then
        hasCellV (ls.getD (z + 1) []) w h CELL_PORTAL_DOWN else true) &&
      (if cellAt2 (ls.getD z []) p.1 p.2 = CELL_PORTAL_DOWN then
        (if z = 0 then false
         else hasCellV (ls.getD (z - 1) []) w h CELL_PORTAL_UP)
       else true)

/-! ## 3D counting and preservation toolkit -/

/-- Occurrences of value `v` in the whole layer stack. -/
def countCells3 (ls : List Grid) (v : Nat) : Nat :=
  (ls.map fun g => countCells g v).sum

theorem getD_map_eq {α β : Type} (f : α → β) (l : List α) (i : Nat) (da : α)
    (db : β) (hf : f da = db) : (l.map f).getD i db = f (l.getD i da) := by
  by_cases hi : i < l.length
  · rw [List.getD_eq_getElem?_getD, List.getElem?_map, List.getElem?_eq_getElem hi,
      List.getD_eq_getElem?_getD, List.getElem?_eq_getElem hi]
    rfl
  · have hnone : l[i]? = none := List.getElem?_eq_none (by omega)
    rw [List.getD_eq_getElem?_getD, List.getElem?_map, hnone,
      List.getD_eq_getElem?_getD, hnone]
    show db = f da
    exact hf.symm

theorem cellAt2_map_rows (f : Nat → Nat) (hf0 : f 0 = 0) (g : Grid) (x y : Int) :
    cellAt2 (g.map fun row => row.map f) x y = f (cellAt2 g x y) := by
  rw [cellAt2, cellAt2]
  by_cases hb : 0 ≤ x ∧ 0 ≤ y
  · rw [if_pos hb, if_pos hb]
    rw [getD_map_eq (fun row => row.map f) g y.toNat [] [] rfl]
    rw [getD_map_eq f _ x.toNat 0 0 hf0]
  · rw [if_neg hb, if_neg hb]
    exact hf0.symm

theorem dims_map_rows (f : Nat → Nat) {g : Grid} {W H : Nat} (hd : Dims g W H) :
    Dims (g.map fun row => row.map f) W H := by
  refine ⟨by rw [List.length_map]; exact hd.1, ?_⟩
  intro row hrow
  rcases List.mem_map.mp hrow with ⟨r, hr, rfl⟩
  rw [List.length_map]
  exact hd.2 r hr

theorem countCells_map_zero (f : Nat → Nat) (g : Grid) (v : Nat)
    (hfv : ∀ c, f c ≠ v) :
    countCells (g.map fun row => row.map f) v = 0 := by
  rw [countCells, List.sum_eq_zero]
  intro a ha
  rcases List.mem_map.mp ha with ⟨row', hrow', rfl⟩
  rcases List.mem_map.mp hrow' with ⟨row, hrow, rfl⟩
  rw [countRow, List.countP_eq_zero]
  intro c hc
  rcases List.mem_map.mp hc with ⟨c0, hc0, rfl⟩
  simpa using hfv c0

/-- The cell clearing map sends no cell to `START` or to `GOAL`. -/
theorem clearCell_ne (c : Nat) :
    (if c = CELL_START ∨ c = CELL_GOAL then CELL_NODE else c) ≠ CELL_START ∧
    (if c = CELL_START ∨ c = CELL_GOAL then CELL_NODE else c) ≠ CELL_GOAL := by
  by_cases h : c = CELL_START ∨ c = CELL_GOAL
  · rw [if_pos h]
    exact ⟨by decide, by decide⟩
  · rw [if_neg h]
    push_neg at h
    exact h

theorem clearSG_length (ls : List Grid) : (clearSG ls).length = ls.length := by
  rw [clearSG, List.length_map]

theorem clearSG_getD (ls : List Grid) (z : Nat) :
    (clearSG ls).getD z [] = ((ls.getD z []).map fun row => row.map fun cell =>
      if cell = CELL_START ∨ cell = CELL_GOAL then CELL_NODE else cell) := by
  rw [clearSG]
  exact getD_map_eq _ ls z [] [] rfl

theorem setCell3_length (ls : List Grid) (z : Nat) (x y : Int) (v : Nat) :
    (setCell3 ls z x y v).length = ls.length := by
  rw [setCell3, List.length_set]

theorem setCell3_getD_self {ls : List Grid} {z : Nat} (hz : z < ls.length)
    (x y : Int) (v : Nat) :
    (setCell3 ls z x y v).getD z [] = setCell2 (ls.getD z []) x y v := by
  rw [setCell3]
  exact getD_set_self hz _ _

theorem setCell3_getD_ne (ls : List Grid) {z j : Nat} (hne : z ≠ j)
    (x y : Int) (v : Nat) :
    (setCell3 ls z x y v).getD j [] = ls.getD j [] := by
  rw [setCell3]
  exact getD_set_ne hne _ _

theorem countCells3_set {ls : List Grid} {z : Nat} (hz : z < ls.length)
    (x y : Int) (v u : Nat) :
    countCells3 (setCell3 ls z x y v) u + countCells (ls.getD z []) u =
      countCells3 ls u + countCells (setCell2 (ls.getD z []) x y v) u := by
  rw [setCell3, countCells3, countCells3, List.map_set]
  have hlen : z < (ls.map fun g => countCells g u).length := by
    rw [List.length_map]
    exact hz
  have hs := sum_set hlen (countCells (setCell2 (ls.getD z []) x y v) u)
  have hgd := getD_map_eq (fun g => countCells g u) ls z [] 0 rfl
  rw [hgd] at hs
  exact hs

theorem countCells3_clear_zero (ls : List Grid) (v : Nat)
    (hv : v = CELL_START ∨ v = CELL_GOAL) :
    countCells3 (clearSG ls) v = 0 := by
  rw [countCells3, clearSG, List.map_map, List.sum_eq_zero]
  intro a ha
  rcases List.mem_map.mp ha with ⟨g, hg, rfl⟩
  show countCells (g.map fun row => row.map fun cell =>
    if cell = CELL_START ∨ cell = CELL_GOAL then CELL_NODE else cell) v = 0
  apply countCells_map_zero
  intro c
  rcases hv with rfl | rfl
  · exact (clearCell_ne c).1
  · exact (clearCell_ne c).2

/-- Setting a layer rebuilt from the stack keeps per-layer dimensions. -/
theorem dims_set_any {ls : List Grid} {W H : Nat} (hd : ∀ g ∈ ls, Dims g W H)
    (i : Nat) {g0 : Grid} (hg0 : i < ls.length → Dims g0 W H) :
    ∀ g ∈ ls.set i g0, Dims g W H := by
  intro g hg
  by_cases hi : i < ls.length
  · rcases List.mem_or_eq_of_mem_set hg with hg1 | rfl
    · exact hd g hg1
    · exact hg0 hi
  · rw [List.set_eq_of_length_le (by omega)] at hg
    exact hd g hg

theorem portalStep_pres (rng : Nat → Nat) (width height : Nat) (ls : List Grid)
    (z c : Nat) {W H : Nat} (hd : ∀ g ∈ ls, Dims g W H) :
    (portalStep rng width height ls z c).1.length = ls.length ∧
    ∀ g ∈ (portalStep rng width height ls z c).1, Dims g W H := by
  rw [portalStep]
  dsimp only
  split
  · refine ⟨by rw [List.length_set, List.length_set], ?_⟩
    apply dims_set_any (dims_set_any hd z ?_) (z + 1) ?_
    · intro hz
      exact dims_set (hd _ (getD_mem [] hz)) _ _ _
    · intro hz1
      rw [List.length_set] at hz1
      exact dims_set (hd _ (getD_mem [] hz1)) _ _ _
  · exact ⟨rfl, hd⟩

theorem portalLoop_pres (rng : Nat → Nat) (width height : Nat) {W H : Nat} :
    ∀ (rem z : Nat) (ls : List Grid) (c : Nat), (∀ g ∈ ls, Dims g W H) →
    (portalLoop rng width height z rem ls c).1.length = ls.length ∧
    ∀ g ∈ (portalLoop rng width height z rem ls c).1, Dims g W H := by
  intro rem
  induction rem with
  | zero => intro z ls c hd; exact ⟨rfl, hd⟩
  | succ rem ih =>
    intro z ls c hd
    have hre : portalLoop rng width height z (rem + 1) ls c =
        portalLoop rng width height (z + 1) rem (portalStep rng width height ls z c).1
          (portalStep rng width height ls z c).2 := rfl
    rw [hre]
    obtain ⟨hl1, hd1⟩ := portalStep_pres rng width height ls z c hd
    obtain ⟨hl2, hd2⟩ := ih (z + 1) _ _ hd1
    exact ⟨by rw [hl2, hl1], hd2⟩

/-- With a requested width of at least 4 the (bumped) maze has at least
two corridor nodes, so `generateMaze` always returns normally. -/
theorem generateMaze_no_error (rng : Nat → Nat) (width height : Nat) (wd : ℚ)
    (c0 : Nat) (hwid : 4 ≤ width) (hhei : 3 ≤ height) :
    ∃ maze c1, generateMaze rng width height wd c0 = (Except.ok maze, c1) := by
  simp only [generateMaze]
  set W := (if width % 2 = 0 then width + 1 else width) with hW
  set H := (if height % 2 = 0 then height + 1 else height) with hH
  have hW3 : 3 ≤ W := by rw [hW]; split <;> omega
  have hH3 : 3 ≤ H := by rw [hH]; split <;> omega
  have hW5 : 5 ≤ W := by rw [hW]; split <;> omega
  have hWodd : W % 2 = 1 := by rw [hW]; split <;> omega
  have hHodd : H % 2 = 1 := by rw [hH]; split <;> omega
  set sx : Int := Int.ofNat (1 + drawNat rng c0 ((W - 2) / 2) * 2) with hsx
  set sy : Int := Int.ofNat (1 + drawNat rng (c0 + 1) ((H - 2) / 2) * 2) with hsy
  set maze0 : Grid := List.replicate H (List.replicate W CELL_WALL) with hm0
  set maze1 : Grid := setCell2 maze0 sx sy CELL_NODE with hm1
  set out2 := primLoop rng W H (primFuel W H) maze1 (initialWalls sx sy W H)
    (c0 + 2) with ho2
  set nOp := (if wd < 1 then (Int.floor ((W * H : ℚ) * (1 - wd) * (1 / 10))).toNat
    else 0) with hnop
  set out3 := openingsLoop rng W H nOp out2.1 out2.2 with ho3
  set nodes := nodesOf out3.1 W H with hnodes
  have hd0 : Dims maze0 W H := by rw [hm0]; exact dims_replicate W H
  have hwall0 : ∀ x y : Int, InB W H x y → cellAt2 maze0 x y = CELL_WALL := by
    intro x y hb
    rw [hm0]
    exact cellAt2_replicate hb
  have hso : OddIn W H sx sy := by
    rw [hsx, hsy]
    exact oddIn_start hW3 hH3 _ _ (drawNat_le rng c0 _) (drawNat_le rng (c0 + 1) _)
  have hd1 : Dims maze1 W H := by rw [hm1]; exact dims_set hd0 _ _ _
  have hn1 : cellAt2 maze1 sx sy = CELL_NODE := by
    rw [hm1]
    exact cellAt2_set_self hd0 (oddIn_inb hso) _
  have hwn1 : CellsWN maze1 W H := by
    rw [hm1]
    exact cellsWN_set_node _ _ hd0 (fun x y hb => Or.inl (hwall0 x y hb))
  have hWF1 : WF W H maze1 (initialWalls sx sy W H) := initialWalls_WF hso hn1
  have hKI1 : KI W H maze1 (initialWalls sx sy W H) := by
    rw [hm1]
    exact initialWalls_KI hwall0
  have hMid1 : MidNode W H maze1 := by
    rw [hm1]
    exact initial_MidNode hwall0 hso.1 hso.2.1
  have hmeas : 5 * (W * H - nodeCount maze1 W H) + (initialWalls sx sy W H).length <
      primFuel W H := by
    have h4 := initialWalls_len sx sy W H
    rw [primFuel]
    omega
  obtain ⟨hd2, hwn2, hmono2, hclo2⟩ := primLoop_spec rng W H (primFuel W H) maze1
    (initialWalls sx sy W H) (c0 + 2) hd1 hwn1 hWF1 hKI1 hMid1 hmeas
  rw [← ho2] at hd2 hwn2 hmono2 hclo2
  obtain ⟨hd3, hwn3, hmono3⟩ := openingsLoop_spec rng W H nOp out2.1 out2.2 hd2 hwn2
  rw [← ho3] at hd3 hwn3 hmono3
  have hn2 : cellAt2 out2.1 sx sy = CELL_NODE := hmono2 sx sy hn1
  have hallodd : ∀ x y : Int, OddIn W H x y → cellAt2 out3.1 x y = CELL_NODE :=
    fun x y hxy => hmono3 x y (flood hclo2 hso hn2 x y hxy)
  have hn11 : cellAt2 out3.1 1 1 = CELL_NODE := hallodd 1 1
    ⟨by decide, by decide, by decide, by omega, by decide, by omega⟩
  have hnC : cellAt2 out3.1 ((W : Int) - 2) ((H : Int) - 2) = CELL_NODE :=
    hallodd _ _ ⟨by omega, by omega, by omega, by omega, by omega, by omega⟩
  obtain ⟨rest, hrest⟩ := nodesOf_head hW3 hH3 hn11
  have hlastq := nodesOf_last hW3 hH3 hnC
  rw [← hnodes] at hrest hlastq
  have hnl : ¬ nodes.length < 2 := by
    intro hlt
    have hlen1 : rest.length = 0 := by
      have hcl := congrArg List.length hrest
      simp only [List.length_cons] at hcl
      omega
    rw [List.length_eq_zero.mp hlen1] at hrest
    rw [hrest] at hlastq
    simp only [List.getLast?_singleton, Option.some.injEq] at hlastq
    have h1 : (1 : Int) = (W : Int) - 2 := congrArg Prod.fst hlastq
    omega
  rw [if_neg hnl]
  exact ⟨_, _, rfl⟩

/-- Every layer stack built by `genLayers` (width ≥ 4) succeeds, has one
grid per layer, and each grid carries the bumped dimensions. -/
theorem genLayers_ok (rng : Nat → Nat) (width height : Nat)
    (hwid : 4 ≤ width) (hhei : 3 ≤ height) : ∀ (n c : Nat),
    ∃ ls c1, genLayers rng width height n c = (Except.ok ls, c1) ∧
      ls.length = n ∧ ∀ g ∈ ls,
        Dims g (if width % 2 = 0 then width + 1 else width)
          (if height % 2 = 0 then height + 1 else height) := by
  intro n
  induction n with
  | zero =>
    intro c
    exact ⟨[], c, rfl, rfl, by intro g hg; simp at hg⟩
  | succ n ih =>
    intro c
    obtain ⟨mz, c1, hgm⟩ := generateMaze_no_error rng width height (7 / 10) c
      hwid hhei
    obtain ⟨ls, c2, hgl, hlen, hdims⟩ := ih c1
    have hok1 : (generateMaze rng width height (7 / 10) c).1 = Except.ok mz := by
      rw [hgm]
    have hdm := (generateMaze_ok_spec rng width height (7 / 10) c mz (by omega)
      hhei hok1).1
    refine ⟨mz :: ls, c2, ?_, by simp [hlen], ?_⟩
    · rw [genLayers, hgm]
      dsimp only
      rw [hgl]
    · intro g hg
      rcases List.mem_cons.mp hg with rfl | hg2
      · exact hdm
      · exact hdims g hg2

/-- Steps 1-2 of the 3D generator always succeed for width ≥ 4, with one
properly-sized grid per layer. -/
theorem gen3Portaled_ok (rng : Nat → Nat) (layers width height c0 : Nat)
    (hwid : 4 ≤ width) (hhei : 3 ≤ height) :
    ∃ ls c1, gen3Portaled rng layers width height c0 = (Except.ok ls, c1) ∧
      ls.length = layers ∧ ∀ g ∈ ls,
        Dims g (if width % 2 = 0 then width + 1 else width)
          (if height % 2 = 0 then height + 1 else height) := by
  obtain ⟨ls0, c1, hgl, hlen0, hdims0⟩ := genLayers_ok rng width height hwid hhei
    layers c0
  obtain ⟨hl, hdm⟩ := portalLoop_pres rng width height (layers - 1) 0 ls0 c1 hdims0
  refine ⟨(portalLoop rng width height 0 (layers - 1) ls0 c1).1,
    (portalLoop rng width height 0 (layers - 1) ls0 c1).2, ?_, ?_, hdm⟩
  · unfold gen3Portaled
    rw [hgl]
  · rw [hl, hlen0]

theorem startCandidates_mem {ls : List Grid} {layers width height : Nat}
    {s : Int × Int × Nat} (hs : s ∈ startCandidates ls layers width height) :
    s.2.2 < layers ∧ cellAt2 (ls.getD s.2.2 []) s.1 s.2.1 = CELL_NODE ∧
    1 ≤ s.1 ∧ s.1 ≤ (width : Int) - 2 ∧ 1 ≤ s.2.1 ∧ s.2.1 ≤ (height : Int) - 2 := by
  rw [startCandidates, List.mem_flatMap] at hs
  obtain ⟨z, hz, hs⟩ := hs
  rw [List.mem_flatMap] at hs
  obtain ⟨dy, hdy, hs⟩ := hs
  rw [List.mem_filterMap] at hs
  obtain ⟨dx, hdx, hs⟩ := hs
  rw [List.mem_range] at hz hdy hdx
  by_cases hc : cellAt2 (ls.getD z []) (Int.ofNat dx + 1) (Int.ofNat dy + 1) =
      CELL_NODE ∧ 3 * (Int.ofNat dx + 1) < (width : Int) ∧
      3 * (Int.ofNat dy + 1) < (height : Int)
  · rw [if_pos hc] at hs
    have hse : (Int.ofNat dx + 1, Int.ofNat dy + 1, z) = s :=
      Option.some.injEq _ _ ▸ hs
    subst hse
    refine ⟨hz, hc.1, ?_, ?_, ?_, ?_⟩ <;> dsimp only <;>
      simp only [Int.ofNat_eq_natCast] <;> omega
  · rw [if_neg hc] at hs
    simp at hs

theorem goalCandidatesLayer_mem {grid : Grid} {z width height : Nat}
    {g : Int × Int × Nat} (hg : g ∈ goalCandidatesLayer grid z width height) :
    g.2.2 = z ∧ cellAt2 grid g.1 g.2.1 = CELL_NODE ∧
    1 ≤ g.1 ∧ g.1 ≤ (width : Int) - 2 ∧ 1 ≤ g.2.1 ∧ g.2.1 ≤ (height : Int) - 2 := by
  rw [goalCandidatesLayer, List.mem_flatMap] at hg
  obtain ⟨dy, hdy, hg⟩ := hg
  rw [List.mem_filterMap] at hg
  obtain ⟨dx, hdx, hg⟩ := hg
  rw [List.mem_range] at hdy hdx
  by_cases hc : cellAt2 grid (Int.ofNat dx + 1) (Int.ofNat dy + 1) = CELL_NODE ∧
      2 * (width : Int) < 3 * (Int.ofNat dx + 1) ∧
      2 * (height : Int) < 3 * (Int.ofNat dy + 1)
  · rw [if_pos hc] at hg
    have hge : (Int.ofNat dx + 1, Int.ofNat dy + 1, z) = g :=
      Option.some.injEq _ _ ▸ hg
    subst hge
    refine ⟨rfl, hc.1, ?_, ?_, ?_, ?_⟩ <;> dsimp only <;>
      simp only [Int.ofNat_eq_natCast] <;> omega
  · rw [if_neg hc] at hg
    simp at hg

theorem eligiblePairs_mem {ls : List Grid} {layers width height : Nat}
    {p : (Int × Int × Nat) × (Int × Int × Nat)}
    (hp : p ∈ eligiblePairs ls layers width height) :
    p.1 ∈ startCandidates ls layers width height ∧
    ∃ zz, zz < layers ∧ zz ≠ p.1.2.2 ∧
      p.2 ∈ goalCandidatesLayer (ls.getD zz []) zz width height := by
  rw [eligiblePairs, List.mem_flatMap] at hp
  obtain ⟨s, hsmem, hp⟩ := hp
  rw [List.mem_flatMap] at hp
  obtain ⟨zz, hzz, hp⟩ := hp
  rw [List.mem_range] at hzz
  by_cases hz : zz = s.2.2
  · rw [if_pos hz] at hp
    simp at hp
  · rw [if_neg hz] at hp
    rw [List.mem_filterMap] at hp
    obtain ⟨g, hgmem, hp⟩ := hp
    by_cases hgs : g.2.2 ≠ s.2.2
    · rw [if_pos hgs] at hp
      have hpe : (s, g) = p := Option.some.injEq _ _ ▸ hp
      subst hpe
      exact ⟨hsmem, zz, hzz, hz, hgmem⟩
    · rw [if_neg hgs] at hp
      simp at hp

/-- C4: with width ≥ 4 (so the per-layer 2D generator itself cannot
fail) the layer/portal stage always succeeds, and `generateMaze3D`
throws its generation error exactly when the eligible start/goal pair
list is empty; every normally returned 3D maze has exactly one `START`
cell and exactly one `GOAL` cell, and they lie on two different
layers. -/
theorem c4_eligible_pairs_error (rng : Nat → Nat) (layers width height c0 : Nat)
    (hwid : 4 ≤ width) (hhei : 3 ≤ height) :
    ∃ ls c1, gen3Portaled rng layers width height c0 = (Except.ok ls, c1) ∧
      ((generateMaze3D rng layers width height c0).1 =
          Except.error GenError.werros ↔
        eligiblePairs ls layers width height = []) ∧
      (∀ m3, (generateMaze3D rng layers width height c0).1 = Except.ok m3 →
        countCells3 m3 CELL_START = 1 ∧ countCells3 m3 CELL_GOAL = 1 ∧
        ∃ s g : Int × Int × Nat, s.2.2 ≠ g.2.2 ∧
          cellAt2 (m3.getD s.2.2 []) s.1 s.2.1 = CELL_START ∧
          cellAt2 (m3.getD g.2.2 []) g.1 g.2.1 = CELL_GOAL) := by
  obtain ⟨ls, c1, hgp, hlen, hdims⟩ := gen3Portaled_ok rng layers width height c0
    hwid hhei
  set W := (if width % 2 = 0 then width + 1 else width) with hW
  set H := (if height % 2 = 0 then height + 1 else height) with hH
  have hWw : width ≤ W := by rw [hW]; split <;> omega
  have hHh : height ≤ H := by rw [hH]; split <;> omega
  by_cases hel : (eligiblePairs ls layers width height).length = 0
  · have hrun : generateMaze3D rng layers width height c0 =
        (Except.error GenError.werros, c1) := by
      unfold generateMaze3D
      rw [hgp]
      dsimp only
      rw [if_pos hel]
    refine ⟨ls, c1, hgp, ⟨fun _ => List.length_eq_zero.mp hel, fun _ => by
      rw [hrun]⟩, ?_⟩
    intro m3 hm3
    rw [hrun] at hm3
    simp at hm3
  · have hchmem : (eligiblePairs ls layers width height).getD
        (drawNat rng c1 (eligiblePairs ls layers width height).length)
        ((0, 0, 0), (0, 0, 0)) ∈ eligiblePairs ls layers width height :=
      getD_mem _ (drawNat_lt rng c1 (Nat.pos_of_ne_zero hel))
    set ch := (eligiblePairs ls layers width height).getD
        (drawNat rng c1 (eligiblePairs ls layers width height).length)
        ((0, 0, 0), (0, 0, 0)) with hch
    have hrun : generateMaze3D rng layers width height c0 =
        (Except.ok (setCell3 (setCell3 (clearSG ls) ch.1.2.2 ch.1.1 ch.1.2.1
          CELL_START) ch.2.2.2 ch.2.1 ch.2.2.1 CELL_GOAL), c1 + 1) := by
      unfold generateMaze3D
      rw [hgp]
      dsimp only
      rw [if_neg hel]
    obtain ⟨hsmem, zz, hzz, hzne, hgmem⟩ := eligiblePairs_mem hchmem
    obtain ⟨hszlt, hsnode, hs1, hs2, hs3, hs4⟩ := startCandidates_mem hsmem
    obtain ⟨hgz, hgnode, hg1, hg2, hg3, hg4⟩ := goalCandidatesLayer_mem hgmem
    have hne3 : ch.1.2.2 ≠ ch.2.2.2 := by
      rw [hgz]
      exact fun hc => hzne hc.symm
    have hszlen : ch.1.2.2 < ls.length := by rw [hlen]; exact hszlt
    have hgzlen : ch.2.2.2 < ls.length := by rw [hgz, hlen]; exact hzz
    have hdimsSz : Dims ((clearSG ls).getD ch.1.2.2 []) W H := by
      rw [clearSG_getD]
      exact dims_map_rows _ (hdims _ (getD_mem [] hszlen))
    have hdimsGz : Dims ((clearSG ls).getD ch.2.2.2 []) W H := by
      rw [clearSG_getD]
      exact dims_map_rows _ (hdims _ (getD_mem [] hgzlen))
    have hbs : InB W H ch.1.1 ch.1.2.1 :=
      ⟨by omega, by omega, by omega, by omega⟩
    have hbg : InB W H ch.2.1 ch.2.2.1 :=
      ⟨by omega, by omega, by omega, by omega⟩
    have hclrS : countCells3 (clearSG ls) CELL_START = 0 :=
      countCells3_clear_zero ls _ (Or.inl rfl)
    have hclrG : countCells3 (clearSG ls) CELL_GOAL = 0 :=
      countCells3_clear_zero ls _ (Or.inr rfl)
    have hlayS : ∀ z : Nat, countCells ((clearSG ls).getD z []) CELL_START = 0 := by
      intro z
      rw [clearSG_getD]
      exact countCells_map_zero _ _ _ (fun c => (clearCell_ne c).1)
    have hlayG : ∀ z : Nat, countCells ((clearSG ls).getD z []) CELL_GOAL = 0 := by
      intro z
      rw [clearSG_getD]
      exact countCells_map_zero _ _ _ (fun c => (clearCell_ne c).2)
    have hcellne : ∀ (z : Nat) (x y : Int),
        cellAt2 ((clearSG ls).getD z []) x y ≠ CELL_START ∧
        cellAt2 ((clearSG ls).getD z []) x y ≠ CELL_GOAL := by
      intro z x y
      rw [clearSG_getD, cellAt2_map_rows (fun cell =>
        if cell = CELL_START ∨ cell = CELL_GOAL then CELL_NODE else cell)
        (by decide)]
      exact clearCell_ne _
    have hszlen2 : ch.1.2.2 < (clearSG ls).length := by
      rw [clearSG_length]
      exact hszlen
    have hgzlen2 : ch.2.2.2 <
        (setCell3 (clearSG ls) ch.1.2.2 ch.1.1 ch.1.2.1 CELL_START).length := by
      rw [setCell3_length, clearSG_length]
      exact hgzlen
    have hgd1 : (setCell3 (clearSG ls) ch.1.2.2 ch.1.1 ch.1.2.1 CELL_START).getD
        ch.2.2.2 [] = (clearSG ls).getD ch.2.2.2 [] :=
      setCell3_getD_ne _ hne3 _ _ _
    -- START count: 1 after the first write, unchanged by the second
    have hc1 := countCells3_set hszlen2 ch.1.1 ch.1.2.1 CELL_START CELL_START
    rw [hclrS, hlayS] at hc1
    have hcset := countCells_set hdimsSz hbs CELL_START CELL_START
    rw [hlayS, if_neg (hcellne ch.1.2.2 ch.1.1 ch.1.2.1).1, if_pos rfl] at hcset
    have hc4 := countCells3_set hgzlen2 ch.2.1 ch.2.2.1 CELL_GOAL CELL_START
    rw [hgd1, hlayS] at hc4
    have hcset4 := countCells_set hdimsGz hbg CELL_GOAL CELL_START
    rw [hlayS, if_neg (hcellne ch.2.2.2 ch.2.1 ch.2.2.1).1,
      if_neg (by decide)] at hcset4
    -- GOAL count: 0 after the first write, 1 after the second
    have hc2 := countCells3_set hszlen2 ch.1.1 ch.1.2.1 CELL_START CELL_GOAL
    rw [hclrG, hlayG] at hc2
    have hcset2 := countCells_set hdimsSz hbs CELL_START CELL_GOAL
    rw [hlayG, if_neg (hcellne ch.1.2.2 ch.1.1 ch.1.2.1).2,
      if_neg (by decide)] at hcset2
    have hc3 := countCells3_set hgzlen2 ch.2.1 ch.2.2.1 CELL_GOAL CELL_GOAL
    rw [hgd1, hlayG] at hc3
    have hcset3 := countCells_set hdimsGz hbg CELL_GOAL CELL_GOAL
    rw [hlayG, if_neg (hcellne ch.2.2.2 ch.2.1 ch.2.2.1).2, if_pos rfl] at hcset3
    -- the stamped cells
    have hvS : cellAt2 ((setCell3 (setCell3 (clearSG ls) ch.1.2.2 ch.1.1 ch.1.2.1
        CELL_START) ch.2.2.2 ch.2.1 ch.2.2.1 CELL_GOAL).getD ch.1.2.2 [])
        ch.1.1 ch.1.2.1 = CELL_START := by
      rw [setCell3_getD_ne _ (fun hc => hne3 hc.symm)]
      rw [setCell3_getD_self hszlen2]
      exact cellAt2_set_self hdimsSz hbs _
    have hvG : cellAt2 ((setCell3 (setCell3 (clearSG ls) ch.1.2.2 ch.1.1 ch.1.2.1
        CELL_START) ch.2.2.2 ch.2.1 ch.2.2.1 CELL_GOAL).getD ch.2.2.2 [])
        ch.2.1 ch.2.2.1 = CELL_GOAL := by
      rw [setCell3_getD_self hgzlen2, hgd1]
      exact cellAt2_set_self hdimsGz hbg _
    refine ⟨ls, c1, hgp, ⟨?_, ?_⟩, ?_⟩
    · intro habs
      rw [hrun] at habs
      simp at habs
    · intro hemp
      have hlz : (eligiblePairs ls layers width height).length = 0 := by
        rw [hemp]
        rfl
      exact absurd hlz hel
    · intro m3 hm3
      rw [hrun] at hm3
      have hm3e : Except.ok (setCell3 (setCell3 (clearSG ls) ch.1.2.2 ch.1.1
          ch.1.2.1 CELL_START) ch.2.2.2 ch.2.1 ch.2.2.1 CELL_GOAL) =
          Except.ok m3 := hm3
      rw [Except.ok.injEq] at hm3e
      subst hm3e
      refine ⟨by omega, by omega, ch.1, ch.2, hne3, hvS, hvG⟩

/-- C4 witness: the error/placement guarantees instantiated at the
three-layer 10×10 generator run. -/
theorem c4_eligible_pairs_error_witness :
    ∃ ls c1, gen3Portaled (fun _ => 0) 3 10 10 0 = (Except.ok ls, c1) ∧
      ((generateMaze3D (fun _ => 0) 3 10 10 0).1 =
          Except.error GenError.werros ↔
        eligiblePairs ls 3 10 10 = []) ∧
      (∀ m3, (generateMaze3D (fun _ => 0) 3 10 10 0).1 = Except.ok m3 →
        countCells3 m3 CELL_START = 1 ∧ countCells3 m3 CELL_GOAL = 1 ∧
        ∃ s g : Int × Int × Nat, s.2.2 ≠ g.2.2 ∧
          cellAt2 (m3.getD s.2.2 []) s.1 s.2.1 = CELL_START ∧
          cellAt2 (m3.getD g.2.2 []) g.1 g.2.1 = CELL_GOAL) :=
  c4_eligible_pairs_error (fun _ => 0) 3 10 10 0 (by decide) (by decide)

theorem nopOf_10_10 : nopOf 10 10 (7 / 10) = 3 := by
  rw [nopOf]
  norm_num
  rfl

set_option maxRecDepth 1000000 in
/-- C8: REFUTED — portals need not come in matched pairs. In the
three-layer 10×10 run from the all-zero random stream, the boundary-1
iteration picks layer 1's cell (1,1) — the very cell the boundary-0
iteration just made `PORTAL_DOWN` (the candidate scan only excludes
walls) — and overwrites it with `PORTAL_UP`, leaving layer 0's
`PORTAL_UP` at (1,1) with no `PORTAL_DOWN` anywhere in layer 1. -/
theorem c8_portal_pairs_violated :
    ∃ m3, (generateMaze3D (fun _ => 0) 3 10 10 0).1 = Except.ok m3 ∧
      portalPairingOk m3 11 11 = false := by
  have h3d : generateMaze3D (fun _ => 0) 3 10 10 0 =
      (Except.ok [
        [[1,1,1,1,1,1,1,1,1,1,1], [1,5,3,2,2,2,2,2,2,2,1],
         [1,2,1,1,1,1,1,1,1,1,1], [1,2,2,2,2,2,2,2,2,2,1],
         [1,2,1,1,1,1,1,1,1,1,1], [1,2,2,2,2,2,2,2,2,2,1],
         [1,2,1,1,1,1,1,1,1,1,1], [1,2,2,2,2,2,2,2,2,2,1],
         [1,2,1,1,1,1,1,1,1,1,1], [1,2,2,2,2,2,2,2,2,2,1],
         [1,1,1,1,1,1,1,1,1,1,1]],
        [[1,1,1,1,1,1,1,1,1,1,1], [1,5,2,2,2,2,2,2,2,2,1],
         [1,2,1,1,1,1,1,1,1,1,1], [1,2,2,2,2,2,2,2,2,2,1],
         [1,2,1,1,1,1,1,1,1,1,1], [1,2,2,2,2,2,2,2,2,2,1],
         [1,2,1,1,1,1,1,1,1,1,1], [1,2,2,2,2,2,2,4,2,2,1],
         [1,2,1,1,1,1,1,1,1,1,1], [1,2,2,2,2,2,2,2,2,2,1],
         [1,1,1,1,1,1,1,1,1,1,1]],
        [[1,1,1,1,1,1,1,1,1,1,1], [1,6,2,2,2,2,2,2,2,2,1],
         [1,2,1,1,1,1,1,1,1,1,1], [1,2,2,2,2,2,2,2,2,2,1],
         [1,2,1,1,1,1,1,1,1,1,1], [1,2,2,2,2,2,2,2,2,2,1],
         [1,2,1,1,1,1,1,1,1,1,1], [1,2,2,2,2,2,2,2,2,2,1],
         [1,2,1,1,1,1,1,1,1,1,1], [1,2,2,2,2,2,2,2,2,2,1],
         [1,1,1,1,1,1,1,1,1,1,1]]], 155) := by
    unfold generateMaze3D gen3Portaled
    rw [genLayers_eq_N, nopOf_10_10]
    rfl
  rw [h3d]
  exact ⟨_, rfl, by decide⟩

end AlgoViz
